import Mathlib

/-!
# Verification development for the `inet` client networking library

Shallow embedding of

* `inet::gstreambuf` (src/inet/gstreambuf.hpp) together with the socket
  back end `inet::tcp::streambuf` (src/inet/tcp/tcpclient.cpp) and the
  read side of `inet::tls::streambuf` (src/inet/tls/tlsclient.cpp),
* `inet::tcp::client` (`open`, `close` and the stream buffer they manage),
* `inet::gconnection` (src/inet/gconnection.hpp),
* `inet::http::client` (src/inet/http/client.cpp, types.cpp),
* `inet::websocket::client` (src/inet/websocket/websocket.cpp/.hpp).

The development has two layers.  The stream buffer is modelled with its
buffers, cursors and data limit over a channel that answers each read and
write.  The protocol engines are modelled over the connection as a
`std::iostream`: the bytes that the stream buffer hands over, in order, and
the bytes written and flushed.  The time-out of the socket back end is
modelled apart, with the clock and the state of the socket explicit.

Characters (`char`, `uint8_t`) are natural numbers below 256; `int_type`
is `Int` with `eof = -1`.  A C++ exception is the `error` side of
`Except Exc`; a loop of the source that is given an iteration bound in
the model reports `Exc.unfinished` when the bound is reached.  At the
connection layer a `write` that finds the output buffer too small, and
therefore stays in the loop of `xsputn` for every bound, reports
`Exc.unfinished` as well.
-/

namespace inet

/-- The exceptions that can leave a call, plus the marker for an
iteration bound that was reached. -/
inductive Exc
  | unfinished          -- the iteration bound of the model was reached: the call has not returned
  | tcp                 -- inet::tcp::exception
  | tls                 -- inet::tls::exception
  | ios_failure         -- std::ios_base::failure
  | http_OPEN_FAIL      -- inet::http::exception(OPEN_FAIL)
  | http_UNKOWN_RSP     -- inet::http::exception(UNKOWN_RSP)
  | http_DECODE_ERR     -- inet::http::exception(DECODE_ERR)
  | ws_OPEN_FAIL        -- inet::websocket::exception(OPEN_FAIL)
  | ws_HANDSHAKE_FAIL   -- inet::websocket::exception(HANDSHAKE_FAIL)
  | ws_UNKOWN_RSP       -- inet::websocket::exception(UNKOWN_RSP)
  | invalid_argument    -- std::invalid_argument (std::stoi)
  | out_of_range        -- std::out_of_range (std::stoi, substr)
  | undefined           -- behaviour the C++ standard leaves undefined
  | assertion           -- a failed assert
  deriving DecidableEq, Repr

/-! ## gstreambuf -/

/-- `gstreambuf::_isize`. -/
def isize : Nat := 18 * 1024

/-- `gstreambuf::_osize`. -/
def osize : Nat := 16 * 1024

/-- `gstreambuf::_putback`. -/
def putback : Nat := 2 * 1024

/-- `traits_type::eof()`. -/
def eof : Int := -1

/-- What one `poll` + `recv` on the socket answers. -/
inductive RecvEvent
  | timeout                 -- poll returns 0
  | data (d : List Nat)    -- recv hands over (a prefix of) `d`; `[]` is end of stream
  | error                   -- poll or recv return a negative value
  deriving DecidableEq, Repr

/-- What one `send` on the socket answers. -/
inductive SendEvent
  | accept (k : Nat)        -- send takes (at most) `k` bytes
  | error                   -- send returns a negative value
  deriving DecidableEq, Repr

/-- The channel behind a stream buffer: the answers it will give to the
successive reads and writes, and a log of the bytes that crossed it. -/
structure Channel where
  incoming : List RecvEvent
  outgoing : List SendEvent
  delivered : List Nat     -- every byte a recv has handed to the stream buffer
  sent : List Nat          -- every byte a send has taken from the stream buffer
  deriving DecidableEq, Repr

/-- The data members of `gstreambuf<char>` (pointers are offsets into
their buffer; `bound` is `_if != nullptr`). -/
structure gstreambuf where
  bound : Bool
  ibuffer : List Nat
  icur : Nat
  iend : Nat
  obuffer : List Nat
  ocur : Nat
  curread : Nat
  maxread : Nat
  inlimit : Bool
  deriving DecidableEq, Repr

/-- Store `d` into the buffer from offset `pos` on. -/
def writeAt (buf : List Nat) (pos : Nat) (d : List Nat) : List Nat :=
  buf.take pos ++ d ++ buf.drop (pos + d.length)

/-- `gstreambuf::reset(T t)`: bind to a channel, both buffers cleared. -/
def gstreambuf.reset_bind (sb : gstreambuf) : gstreambuf :=
  { sb with icur := 0, iend := 0, ocur := 0, bound := true }

/-- `gstreambuf::reset()`: unbind, both buffers cleared. -/
def gstreambuf.reset (sb : gstreambuf) : gstreambuf :=
  { sb with icur := 0, iend := 0, ocur := 0, bound := false }

/-- `gstreambuf::enable_data_limit`. -/
def gstreambuf.enable_data_limit (sb : gstreambuf) (count : Nat) : gstreambuf :=
  { sb with curread := 0, maxread := count, inlimit := true }

/-- `gstreambuf::reset_data_limit`. -/
def gstreambuf.reset_data_limit (sb : gstreambuf) : gstreambuf :=
  { sb with curread := 0 }

/-- `gstreambuf::disable_data_limit`. -/
def gstreambuf.disable_data_limit (sb : gstreambuf) : gstreambuf :=
  { sb with inlimit := false }

/-- `tcp::streambuf::readfunc` (with `checksocket`): the bytes stored at
`begin`, at most `len` of them.  No bytes are stored when the data limit is
reached, when `poll` times out, or at end of stream. -/
def readfunc (sb : gstreambuf) (ch : Channel) (len : Nat) :
    Except Exc (List Nat × gstreambuf × Channel) :=
  if sb.inlimit && decide (sb.curread ≥ sb.maxread) then .ok ([], sb, ch)
  else
    match ch.incoming with
    | [] => .ok ([], sb, ch)
    | RecvEvent.timeout :: rest => .ok ([], sb, { ch with incoming := rest })
    | RecvEvent.error :: _ => .error Exc.tcp
    | RecvEvent.data d :: rest =>
      let got := d.take len
      let left := d.drop len
      .ok (got, { sb with curread := (sb.curread + got.length) % 2 ^ 32 },
            { ch with incoming := if left = [] then rest else RecvEvent.data left :: rest,
                      delivered := ch.delivered ++ got })

/-- `tcp::streambuf::writefunc`: the number of bytes the channel took of
`buf` (the `len` bytes at `begin`). -/
def writefunc (ch : Channel) (buf : List Nat) : Except Exc (Nat × Channel) :=
  match ch.outgoing with
  | [] => .ok (0, ch)
  | SendEvent.error :: _ => .error Exc.tcp
  | SendEvent.accept k :: rest =>
    .ok ((buf.take k).length, { ch with outgoing := rest, sent := ch.sent ++ buf.take k })

/-- The `do ... while` loop of `gstreambuf::sync`; `out` bytes are written
so far, `size` are buffered. -/
def sync_loop : Nat → gstreambuf → Channel → Nat → Nat → Except Exc (Int × gstreambuf × Channel)
  | 0, _, _, _, _ => .error Exc.unfinished
  | fuel + 1, sb, ch, out, size =>
    match writefunc ch ((sb.obuffer.drop out).take (size - out)) with
    | .error e => .error e
    | .ok (n, ch1) =>
      if n = 0 then .ok (-1, sb, ch1)
      else if out + n ≠ size then sync_loop fuel sb ch1 (out + n) size
      else .ok (0, { sb with ocur := 0 }, ch1)

/-- `gstreambuf::sync`. -/
def sync (sb : gstreambuf) (ch : Channel) : Except Exc (Int × gstreambuf × Channel) :=
  if sb.ocur > 0 then sync_loop sb.ocur sb ch 0 sb.ocur
  else .ok (0, sb, ch)

/-- `gstreambuf::underflow`. -/
def underflow (sb : gstreambuf) (ch : Channel) : Except Exc (Int × gstreambuf × Channel) :=
  if sb.icur < sb.iend then .ok ((sb.ibuffer.getD sb.icur 0 : Nat), sb, ch)
  else if !sb.bound then .ok (eof, sb, ch)
  else
    let moved := decide (sb.icur = isize) && decide (sb.iend ≠ 0)
    let sb1 : gstreambuf :=
      if moved then
        { sb with ibuffer := writeAt sb.ibuffer 0 ((sb.ibuffer.drop (isize - putback)).take putback),
                  icur := putback }
      else sb
    let delta := if moved then putback else sb.icur
    match readfunc sb1 ch (isize - delta) with
    | .error e => .error e
    | .ok (d, sb2, ch2) =>
      let sb3 := { sb2 with ibuffer := writeAt sb2.ibuffer delta d }
      if d.length = 0 then .ok (eof, sb3, ch2)
      else
        let sb4 := { sb3 with iend := delta + d.length }
        .ok ((sb4.ibuffer.getD sb4.icur 0 : Nat), sb4, ch2)

/-- `gstreambuf::uflow`. -/
def uflow (sb : gstreambuf) (ch : Channel) : Except Exc (Int × gstreambuf × Channel) :=
  if sb.icur = sb.iend then
    match underflow sb ch with
    | .error e => .error e
    | .ok (ret, sb1, ch1) => .ok (ret, { sb1 with icur := sb1.icur + 1 }, ch1)
  else .ok ((sb.ibuffer.getD sb.icur 0 : Nat), { sb with icur := sb.icur + 1 }, ch)

/-- The inner loop of `gstreambuf::xsgetn`,
`while (_icur != _iend && i < count) s[i++] = *_icur++;`
with `k = count - i` and `s` the bytes stored so far. -/
def xsgetn_copy : Nat → gstreambuf → List Nat → gstreambuf × List Nat
  | 0, sb, s => (sb, s)
  | k + 1, sb, s =>
    if sb.icur ≠ sb.iend then
      xsgetn_copy k { sb with icur := sb.icur + 1 } (s ++ [sb.ibuffer.getD sb.icur 0])
    else (sb, s)

/-- The outer loop of `gstreambuf::xsgetn`. -/
def xsgetn_loop : Nat → gstreambuf → Channel → List Nat → Nat →
    Except Exc (List Nat × gstreambuf × Channel)
  | 0, _, _, _, _ => .error Exc.unfinished
  | fuel + 1, sb, ch, s, count =>
    let r := xsgetn_copy (count - s.length) sb s
    if r.2.length ≠ count then
      match underflow r.1 ch with
      | .error e => .error e
      | .ok (ret, sb2, ch2) =>
        if ret = eof then .ok (r.2, sb2, ch2)
        else xsgetn_loop fuel sb2 ch2 r.2 count
    else .ok (r.2, r.1, ch)

/-- `gstreambuf::xsgetn` (`read_n`): the bytes stored into `s`; the C++
return value is their number.  Every pass of the outer loop but the last
stores at least one byte, so `count + 1` passes are enough. -/
def xsgetn (sb : gstreambuf) (ch : Channel) (count : Nat) :
    Except Exc (List Nat × gstreambuf × Channel) :=
  xsgetn_loop (count + 1) sb ch [] count

/-- `gstreambuf::overflow(ch)`; `none` is the default argument
`traits_type::eof()`. -/
def overflow (sb : gstreambuf) (ch : Channel) (c : Option Nat) :
    Except Exc (Int × gstreambuf × Channel) :=
  match c with
  | none => .ok (0, sb, ch)
  | some b =>
    let flushed : Except Exc (Int × gstreambuf × Channel) :=
      if sb.ocur = osize then sync sb ch else .ok (0, sb, ch)
    match flushed with
    | .error e => .error e
    | .ok (r, sb1, ch1) =>
      if r = -1 then .ok (eof, sb1, ch1)
      else if !sb1.bound then .ok (eof, sb1, ch1)
      else .ok (0, { sb1 with obuffer := sb1.obuffer.set sb1.ocur b, ocur := sb1.ocur + 1 }, ch1)

/-- The inner loop of `gstreambuf::xsputn`,
`while (_ocur != _obuffer+_osize && i < count) *_ocur++ = s[i++];`
on the bytes `s[i..count)` still to be written; returns the ones left. -/
def xsputn_copy : List Nat → gstreambuf → gstreambuf × List Nat
  | [], sb => (sb, [])
  | c :: cs, sb =>
    if sb.ocur ≠ osize then
      xsputn_copy cs { sb with obuffer := sb.obuffer.set sb.ocur c, ocur := sb.ocur + 1 }
    else (sb, c :: cs)

/-- The outer loop of `gstreambuf::xsputn`; `rest` are the bytes
`s[i..count)`.  Returns `i`. -/
def xsputn_loop : Nat → gstreambuf → Channel → List Nat → Nat →
    Except Exc (Nat × gstreambuf × Channel)
  | 0, _, _, _, _ => .error Exc.unfinished
  | fuel + 1, sb, ch, rest, count =>
    let r := xsputn_copy rest sb
    if count - r.2.length ≠ count then
      match overflow r.1 ch none with
      | .error e => .error e
      | .ok (ret, sb2, ch2) =>
        if ret = eof then .ok (count - r.2.length, sb2, ch2)
        else xsputn_loop fuel sb2 ch2 r.2 count
    else .ok (count - r.2.length, r.1, ch)

/-- `gstreambuf::xsputn` (`write_n`) run for at most `fuel` passes of its
outer loop. -/
def xsputn (fuel : Nat) (sb : gstreambuf) (ch : Channel) (s : List Nat) :
    Except Exc (Nat × gstreambuf × Channel) :=
  if !sb.bound then .ok (0, sb, ch)
  else xsputn_loop fuel sb ch s s.length

/-- The value of a `char` converted to `int_type` without
`traits_type::to_int_type`, as in `return *_icur;`.  Plain `char` is signed
on the platforms the library is built for (x86 Linux and Windows), so the
bytes from `0x80` on become negative. -/
def char_to_int (b : Nat) : Int := if b < 128 then (b : Int) else (b : Int) - 256

/-- `gstreambuf::pbackfail`; `none` is `traits_type::eof()`.  With a
character the return value is `*_icur`, converted from `char`. -/
def pbackfail (sb : gstreambuf) (c : Option Nat) : Int × gstreambuf :=
  if sb.icur = 0 then (eof, sb)
  else
    match c with
    | none => ((sb.ibuffer.getD (sb.icur - 1) 0 : Nat), { sb with icur := sb.icur - 1 })
    | some b =>
      (char_to_int b, { sb with ibuffer := sb.ibuffer.set (sb.icur - 1) b, icur := sb.icur - 1 })

/-- A sequence of `read_n` calls with the given counts, no other call in
between: the bytes each call returned. -/
def read_seq : List Nat → gstreambuf → Channel →
    Except Exc (List (List Nat) × gstreambuf × Channel)
  | [], sb, ch => .ok ([], sb, ch)
  | n :: ns, sb, ch =>
    match xsgetn sb ch n with
    | .error e => .error e
    | .ok (r, sb1, ch1) =>
      match read_seq ns sb1 ch1 with
      | .error e => .error e
      | .ok (rs, sb2, ch2) => .ok (r :: rs, sb2, ch2)

/-- The input side of a bound stream buffer with no data limit. -/
def inbuf (buf : List Nat) (cur fin rd : Nat) : gstreambuf :=
  { bound := true, ibuffer := buf, icur := cur, iend := fin,
    obuffer := List.replicate osize 0, ocur := 0, curread := rd, maxread := 0, inlimit := false }

/-- A channel with the given reads ahead and the given bytes delivered. -/
def inchan (evs : List RecvEvent) (del : List Nat) : Channel :=
  { incoming := evs, outgoing := [], delivered := del, sent := [] }

/-! ## gconnection -/

/-- A string of the source (`std::string`, `std::string_view`,
`std::vector<char>`). -/
abbrev Str := List Nat

/-- The characters of a string literal. -/
def str (s : String) : Str := s.data.map Char.toNat

/-- `std::string::npos`. -/
def npos : Nat := 2 ^ 64 - 1

/-- The connection as the protocol engines use it: a `std::iostream` over
the stream buffer.  `input` are the bytes the stream buffer hands over, in
order, before its first empty refill (end of stream, time-out or data
limit); `pending` are the bytes written and not yet flushed; `output` are
the bytes flushed to the channel. -/
structure gconnection where
  input : Str
  pending : Str
  output : Str
  connected : Bool          -- `_connected`
  good : Bool               -- `rdstate() == goodbit`
  exceptions : Bool         -- `exceptions(eofbit | failbit | badbit)` is in force
  timeout : Option Nat      -- `enable_timeout(ms)`
  readlimit : Option Nat    -- `enable_read_limit(bytes)`
  deriving DecidableEq, Repr

namespace gconnection

/-- `setstate` with an error bit: throws when exceptions are enabled. -/
def fail (con : gconnection) : Except Exc gconnection :=
  if con.exceptions then .error Exc.ios_failure else .ok { con with good := false }

/-- `is_open()`. -/
def is_open (con : gconnection) : Bool := con.connected

/-- `close()`: the stream buffer is unbound, its buffers are cleared and
the stream state is cleared. -/
def close (con : gconnection) : gconnection :=
  if con.connected then
    { con with connected := false, input := [], pending := [], good := true }
  else con

/-- `enable_timeout(ms)`. -/
def enable_timeout (con : gconnection) (ms : Nat) : gconnection :=
  { con with timeout := some ms }

/-- `enable_read_limit(bytes)`. -/
def enable_read_limit (con : gconnection) (bytes : Nat) : gconnection :=
  { con with readlimit := some bytes }

/-- `disable_read_limit()`. -/
def disable_read_limit (con : gconnection) : gconnection :=
  { con with readlimit := none }

/-- `std::istream::get()`. -/
def get (con : gconnection) : Except Exc (Int × gconnection) :=
  if !con.good then
    match con.fail with
    | .error e => .error e
    | .ok c => .ok (eof, c)
  else
    match con.input with
    | [] =>
      match con.fail with
      | .error e => .error e
      | .ok c => .ok (eof, c)
    | c :: rest => .ok ((c : Nat), { con with input := rest })

/-- `std::istream::read(s, n)`: the characters stored into `s`. -/
def read (con : gconnection) (n : Nat) : Except Exc (Str × gconnection) :=
  if !con.good then
    match con.fail with
    | .error e => .error e
    | .ok c => .ok ([], c)
  else if n ≤ con.input.length then
    .ok (con.input.take n, { con with input := con.input.drop n })
  else
    match ({ con with input := [] } : gconnection).fail with
    | .error e => .error e
    | .ok c => .ok (con.input, c)

/-- `std::istream::ignore(n)`. -/
def ignore (con : gconnection) (n : Nat) : Except Exc gconnection :=
  match con.read n with
  | .error e => .error e
  | .ok (_, c) => .ok c

/-- `std::ostream::write(s, n)` and `operator<<` for strings.  The bytes go
to `gstreambuf::xsputn`, which stores them while the output buffer
(`osize` bytes, `pending` is what it holds) has room.  With bytes left over
and the buffer full, `xsputn` calls `overflow()` with the default argument,
which flushes nothing, and repeats that without end: the call does not
return, which is reported as `Exc.unfinished`. -/
def write (con : gconnection) (s : Str) : Except Exc gconnection :=
  if !con.good then con.fail
  else if !con.connected && !s.isEmpty then con.fail
  else if con.pending.length + s.length ≤ osize then .ok { con with pending := con.pending ++ s }
  else .error Exc.unfinished

/-- `std::ostream::put(c)`.  The byte goes to `gstreambuf::overflow(c)`,
which flushes the output buffer first when it is full. -/
def put (con : gconnection) (c : Nat) : Except Exc gconnection :=
  if !con.good then con.fail
  else if !con.connected then con.fail
  else if con.pending.length < osize then .ok { con with pending := con.pending ++ [c] }
  else .ok { con with output := con.output ++ con.pending, pending := [c] }

/-- `std::ostream::flush()`. -/
def flush (con : gconnection) : Except Exc gconnection :=
  if !con.good then con.fail
  else .ok { con with output := con.output ++ con.pending, pending := [] }

/-- The loop of `getCRLF`. -/
def getCRLF_loop : Nat → gconnection → Bool → Str → Except Exc (gconnection × Str)
  | 0, _, _, _ => .error Exc.unfinished
  | fuel + 1, con, rfound, s =>
    match con.get with
    | .error e => .error e
    | .ok (c, con1) =>
      if c = eof then .ok (con1, s)
      else if rfound then
        if c = 10 then .ok (con1, s.dropLast)
        else getCRLF_loop fuel con1 false (s ++ [c.toNat])
      else if c = 13 then getCRLF_loop fuel con1 true (s ++ [c.toNat])
      else getCRLF_loop fuel con1 rfound (s ++ [c.toNat])

/-- `getCRLF(str)`.  Every pass of the loop but the last takes one
character off the input. -/
def getCRLF (con : gconnection) (s : Str) : Except Exc (gconnection × Str) :=
  getCRLF_loop (con.input.length + 1) con false s

end gconnection

/-! ## Strings and maps of the standard library -/

/-- `std::string::operator[]`: `pos == size()` reads the terminator,
`pos > size()` is undefined. -/
def strAt (s : Str) (pos : Nat) : Except Exc Nat :=
  if pos < s.length then .ok (s.getD pos 0)
  else if pos = s.length then .ok 0
  else .error Exc.undefined

/-- `std::string::substr(pos, n)`; the count `none` is `npos`, the rest
of the string. -/
def substr (s : Str) (pos : Nat) (n : Option Nat) : Except Exc Str :=
  if pos > s.length then .error Exc.out_of_range
  else
    match n with
    | some k => .ok ((s.drop pos).take k)
    | none => .ok (s.drop pos)

/-- `std::string::find(c)`: the first position of `c`; `none` is `npos`. -/
def findChar (c : Nat) : Str → Option Nat
  | [] => none
  | x :: t => if x = c then some 0 else (findChar c t).map (· + 1)

/-- `std::string::find(pat) != npos`. -/
def hasSub (pat : Str) : Str → Bool
  | [] => pat.isEmpty
  | x :: t => pat.isPrefixOf (x :: t) || hasSub pat t

/-- `isspace` in the "C" locale. -/
def isspace (c : Nat) : Bool := c == 32 || (decide (9 ≤ c) && decide (c ≤ 13))

/-- The value of a digit character in a base up to 36. -/
def digitVal (c : Nat) : Option Nat :=
  if 48 ≤ c ∧ c ≤ 57 then some (c - 48)
  else if 97 ≤ c ∧ c ≤ 122 then some (c - 87)
  else if 65 ≤ c ∧ c ≤ 90 then some (c - 55)
  else none

/-- Whether `c` is a digit of the base. -/
def isDigit (base : Nat) (c : Nat) : Bool :=
  match digitVal c with
  | some d => decide (d < base)
  | none => false

/-- The number spelled by the leading digits of `s`, continuing from `acc`,
and whether there was a digit. -/
def readDigits (base : Nat) : Str → Nat → Bool → Nat × Bool
  | [], acc, seen => (acc, seen)
  | c :: t, acc, seen =>
    match digitVal c with
    | some d => if d < base then readDigits base t (acc * base + d) true else (acc, seen)
    | none => (acc, seen)

/-- `std::stoi(str, nullptr, base)` for base 10 and 16: white space, a
sign, for base 16 a `0x` prefix, digits.  `invalid_argument` without a
digit, `out_of_range` outside `int`. -/
def stoi (s : Str) (base : Nat) : Except Exc Int :=
  let s1 := s.dropWhile isspace
  let neg := s1.head? == some 45
  let s2 := if s1.head? == some 45 || s1.head? == some 43 then s1.tail else s1
  let prefixed := base == 16 && s2.head? == some 48
    && (s2.tail.head? == some 120 || s2.tail.head? == some 88)
    && (match s2.tail.tail.head? with
        | some d => isDigit 16 d
        | none => false)
  let s3 := if prefixed then s2.tail.tail else s2
  let r := readDigits base s3 0 false
  if !r.2 then .error Exc.invalid_argument
  else
    let v : Int := if neg then -(r.1 : Int) else (r.1 : Int)
    if v < -(2 ^ 31) ∨ v > 2 ^ 31 - 1 then .error Exc.out_of_range
    else .ok v

/-- `std::map<std::string, std::string>`: the entries in key order. -/
abbrev StrMap := List (Str × Str)

/-- `operator<` of `std::string`. -/
def strLt : Str → Str → Bool
  | [], [] => false
  | [], _ :: _ => true
  | _ :: _, [] => false
  | a :: s, b :: t => if a < b then true else if b < a then false else strLt s t

/-- `map::find`: the value stored under `k`. -/
def map_find : StrMap → Str → Option Str
  | [], _ => none
  | (k1, v) :: t, k => if k1 = k then some v else map_find t k

/-- `map::count(k)`. -/
def map_count (m : StrMap) (k : Str) : Nat :=
  if (map_find m k).isSome then 1 else 0

/-- `m[k]` read for a key that is present (every use in the source follows
a `count` test). -/
def map_at (m : StrMap) (k : Str) : Str := (map_find m k).getD []

/-- `m[k] = v`. -/
def map_set : StrMap → Str → Str → StrMap
  | [], k, v => [(k, v)]
  | (k1, v1) :: t, k, v =>
    if k1 = k then (k, v) :: t
    else if strLt k k1 then (k, v) :: (k1, v1) :: t
    else (k1, v1) :: map_set t k v

/-- `map::erase(k)`. -/
def map_erase : StrMap → Str → StrMap
  | [], _ => []
  | (k1, v1) :: t, k => if k1 = k then t else (k1, v1) :: map_erase t k

/-- `std::vector<char>::resize(n)`. -/
def resize (v : Str) (n : Nat) : Str := v.take n ++ List.replicate (n - v.length) 0

/-! ## inet::http -/

namespace http

/-- `enum class method_e`. -/
inductive method_e
  | GET | HEAD | POST
  deriving DecidableEq, Repr

/-- `enum class version_e`. -/
inductive version_e
  | HTTP09 | HTTP10 | HTTP11 | HTTP20
  deriving DecidableEq, Repr

/-- `std::to_string(method_e)`. -/
def to_string (m : method_e) : Str :=
  match m with
  | method_e.GET => str "GET"
  | method_e.HEAD => str "HEAD"
  | method_e.POST => str "POST"

/-- `class message`: the header map it derives from, `_method`,
`_resource` and the body view (`_body`, `_bsize`; `none` is `nullptr`). -/
structure message where
  header : StrMap
  method : method_e
  resource : Str
  body : Option Str
  deriving DecidableEq, Repr

/-- `message::body(size)`: `_bsize`. -/
def message.bsize (m : message) : Nat := (m.body.getD []).length

/-- `struct response`. -/
structure response where
  version : version_e
  status : Int
  reasonphrase : Str
  header : StrMap
  body : Str
  deriving DecidableEq, Repr

/-- `class client`. -/
structure client where
  host : Str
  encryption : Bool
  con : gconnection
  rstack : List method_e    -- `std::vector`, `back()` is the last element
  deriving DecidableEq, Repr

/-- `client::disconnect`. -/
def client.disconnect (cl : client) : client :=
  if cl.con.is_open then { cl with rstack := [], con := cl.con.close }
  else cl

/-- The header loop of `client::send`:
`(*_con) << pair.first << ": " << pair.second << "\r\n"` for each pair. -/
def send_headers : StrMap → gconnection → Except Exc gconnection
  | [], con => .ok con
  | (k, v) :: t, con =>
    match con.write k with
    | .error e => .error e
    | .ok c1 =>
      match c1.write (str ": ") with
      | .error e => .error e
      | .ok c2 =>
        match c2.write v with
        | .error e => .error e
        | .ok c3 =>
          match c3.write (str "\r\n") with
          | .error e => .error e
          | .ok c4 => send_headers t c4

/-- `client::send(const message&)`. -/
def client.send (cl : client) (m : message) : Except Exc client :=
  if !cl.con.is_open then .error Exc.assertion
  else
    match cl.con.write (to_string m.method ++ str " " ++ m.resource ++ str " " ++ str "HTTP/1.1\r\n") with
    | .error e => .error e
    | .ok c1 =>
      match send_headers m.header c1 with
      | .error e => .error e
      | .ok c2 =>
        match c2.write (str "\r\n") with
        | .error e => .error e
        | .ok c3 =>
          match (if m.bsize > 0 then c3.write (m.body.getD []) else .ok c3) with
          | .error e => .error e
          | .ok c4 =>
            match c4.flush with
            | .error e => .error e
            | .ok c5 => .ok { cl with con := c5, rstack := cl.rstack ++ [m.method] }

/-- The status-line part of `client::retrieve`: the version test by the
characters at offsets 5 and 7. -/
def parse_version (s : Str) : Except Exc version_e :=
  match strAt s 5 with
  | .error e => .error e
  | .ok c5 =>
    if c5 = 48 ∨ c5 = 49 ∨ c5 = 50 then
      match strAt s 7 with
      | .error e => .error e
      | .ok c7 =>
        if c5 = 48 ∧ c7 = 57 then .ok version_e.HTTP09
        else if c5 = 49 ∧ c7 = 48 then .ok version_e.HTTP10
        else if c5 = 49 ∧ c7 = 49 then .ok version_e.HTTP11
        else if c5 = 50 ∧ c7 = 48 then .ok version_e.HTTP20
        else .error Exc.http_UNKOWN_RSP
    else .error Exc.http_UNKOWN_RSP

/-- The status-line part of `client::retrieve`: version, status and reason
phrase stored into the response. -/
def parse_status (s : Str) (r : response) : Except Exc response :=
  match parse_version s with
  | .error e => .error e
  | .ok ver =>
    match substr s 9 (some 3) with
    | .error e => .error e
    | .ok digits =>
      match stoi digits 10 with
      | .error e => .error e
      | .ok st =>
        match substr s 13 none with
        | .error e => .error e
        | .ok reason => .ok { r with version := ver, status := st, reasonphrase := reason }

/-- The statement
`r.header[str.substr(0, str.find(':'))] = str.substr(str.find(':')+2);`
(the right-hand side is evaluated first; `npos + 2` wraps around to 1). -/
def store_header (s : Str) (h : StrMap) : Except Exc StrMap :=
  let vpos := match findChar 58 s with
    | some i => i + 2
    | none => 1
  match substr s vpos none with
  | .error e => .error e
  | .ok v =>
    match substr s 0 (findChar 58 s) with
    | .error e => .error e
    | .ok k => .ok (map_set h k v)

/-- The header loop of `client::retrieve`. -/
def read_headers : Nat → gconnection → StrMap → Except Exc (gconnection × StrMap)
  | 0, _, _ => .error Exc.unfinished
  | fuel + 1, con, h =>
    match con.getCRLF [] with
    | .error e => .error e
    | .ok (con1, s) =>
      if s.length = 0 then .ok (con1, h)
      else
        match store_header s h with
        | .error e => .error e
        | .ok h1 => read_headers fuel con1 h1

/-- The chunk loop of `client::retrieve`.  A negative chunk size would be
passed on as a negative count to `resize` and `read`; the model stops
there. -/
def read_chunks : Nat → gconnection → Bool → response → Except Exc (gconnection × response)
  | 0, _, _, _ => .error Exc.unfinished
  | fuel + 1, con, footer, r =>
    match con.getCRLF [] with
    | .error e => .error e
    | .ok (con1, s) =>
      if footer && s.length == 0 then .ok (con1, r)
      else if !footer then
        match stoi s 16 with
        | .error e => .error e
        | .ok chunksize =>
          if chunksize = 0 then read_chunks fuel con1 true r
          else if chunksize < 0 then .error Exc.undefined
          else
            let oldsize := r.body.length
            let resized := resize r.body (oldsize + chunksize.toNat)
            match con1.read chunksize.toNat with
            | .error e => .error e
            | .ok (d, con2) =>
              match con2.ignore 2 with
              | .error e => .error e
              | .ok con3 =>
                read_chunks fuel con3 footer
                  { r with body := resized.take oldsize ++ d ++ resized.drop (oldsize + d.length) }
      else
        match store_header s r.header with
        | .error e => .error e
        | .ok h1 => read_chunks fuel con1 footer { r with header := h1 }

/-- The body part of `client::retrieve` for a request that was not HEAD. -/
def read_body (con : gconnection) (r : response) : Except Exc (gconnection × response) :=
  if map_count r.header (str "Content-Length") = 1 then
    match stoi (map_at r.header (str "Content-Length")) 10 with
    | .error e => .error e
    | .ok size =>
      if size > 0 then
        let resized := resize r.body size.toNat
        match con.read size.toNat with
        | .error e => .error e
        | .ok (d, con1) => .ok (con1, { r with body := d ++ resized.drop d.length })
      else .ok (con, { r with body := [] })
  else if r.version = version_e.HTTP11 ∧ map_count r.header (str "Transfer-Encoding") = 1
      ∧ hasSub (str "chunked") (map_at r.header (str "Transfer-Encoding")) = true then
    read_chunks (con.input.length + 1) con false r
  else .ok (con, { r with body := [] })

/-- The fields of the response that only the status line sets are the
same in both. -/
def same_status (r1 r2 : response) : Prop :=
  r1.version = r2.version ∧ r1.status = r2.status ∧ r1.reasonphrase = r2.reasonphrase

/-- The test `r.header.count("Connection") &&
r.header["Connection"].find("close") != std::string::npos`. -/
def says_close (r : response) : Prop :=
  map_count r.header (str "Connection") ≠ 0
    ∧ hasSub (str "close") (map_at r.header (str "Connection")) = true

instance (r : response) : Decidable (says_close r) := by
  unfold says_close; infer_instance

/-- The body part of `client::retrieve`: nothing is read for a HEAD
request. -/
def body_step (m : method_e) (con : gconnection) (r : response) :
    Except Exc (gconnection × response) :=
  if m ≠ method_e.HEAD then read_body con r
  else .ok (con, { r with body := [] })

/-- The part of `client::retrieve` after the header loop: the data limit
for the body, the body, the pending stack and the `Connection` header.
`m` is the method taken from the stack on entry. -/
def client.retrieve_tail (cl : client) (m : method_e) (con2 : gconnection) (r2 : response) :
    Except Exc (client × response) :=
  if r2.status = 100 then
    .ok ({ cl with con := con2.enable_read_limit (50 * 1024 * 1024) }, { r2 with body := [] })
  else
    match body_step m (con2.enable_read_limit (50 * 1024 * 1024)) r2 with
    | .error e => .error e
    | .ok (con4, r3) =>
      if says_close r3 then
        .ok (({ cl with con := con4, rstack := cl.rstack.dropLast } : client).disconnect, r3)
      else .ok ({ cl with con := con4, rstack := cl.rstack.dropLast }, r3)

/-- `client::retrieve(response&)`: the client and the response object
after the call. -/
def client.retrieve (cl : client) (r : response) : Except Exc (client × response) :=
  match cl.rstack.getLast? with
  | none => .error Exc.assertion
  | some m =>
    match (cl.con.enable_read_limit (8 * 1024)).getCRLF [] with
    | .error e => .error e
    | .ok (con1, s) =>
      match parse_status s r with
      | .error e => .error e
      | .ok r1 =>
        match read_headers (con1.input.length + 1) con1 r1.header with
        | .error e => .error e
        | .ok (con2, h) => cl.retrieve_tail m con2 { r1 with header := h }

end http

/-! ## The wire format, as the specification words it -/

/-- CR LF. -/
def crlf : Str := [13, 10]

/-- The two version characters `<a>` and `<b>` of `HTTP/<a>.<b>`. -/
def http.version_chars : http.version_e → Nat × Nat
  | http.version_e.HTTP09 => (48, 57)
  | http.version_e.HTTP10 => (49, 48)
  | http.version_e.HTTP11 => (49, 49)
  | http.version_e.HTTP20 => (50, 48)

/-- The status line `HTTP/<a>.<b> <ddd> <reason>` with the decimal digits
`d1 d2 d3`, without its CR LF. -/
def http.status_line (v : http.version_e) (d1 d2 d3 : Nat) (reason : Str) : Str :=
  [72, 84, 84, 80, 47, (http.version_chars v).1, 46, (http.version_chars v).2, 32,
    48 + d1, 48 + d2, 48 + d3, 32] ++ reason

/-- One header line `Name: Value`, without its CR LF. -/
def http.header_line (p : Str × Str) : Str := p.1 ++ [58, 32] ++ p.2

/-- Header lines `Name: Value CRLF`, one per pair. -/
def http.header_block : List (Str × Str) → Str
  | [] => []
  | p :: t => http.header_line p ++ crlf ++ http.header_block t

/-- The header map after the lines were stored in order into `h`. -/
def http.stored (h : StrMap) (hs : List (Str × Str)) : StrMap :=
  hs.foldl (fun m p => map_set m p.1 p.2) h

/-- A response head as the specification words it: the status line
`HTTP/<a>.<b> <ddd> <reason>` and the header lines `Name: Value`. -/
structure http.Head where
  version : http.version_e
  d1 : Nat
  d2 : Nat
  d3 : Nat
  reason : Str
  lines : List (Str × Str)

/-- The number `ddd`. -/
def http.Head.status (hd : http.Head) : Int := ((hd.d1 * 100 + hd.d2 * 10 + hd.d3 : Nat) : Int)

/-- The bytes of the head: status line, CR LF, header lines, empty line. -/
def http.Head.wire (hd : http.Head) : Str :=
  http.status_line hd.version hd.d1 hd.d2 hd.d3 hd.reason ++ crlf
    ++ http.header_block hd.lines ++ crlf

/-- The head is well formed: three decimal digits, no CR inside a line, no
colon inside a header name. -/
def http.Head.wf (hd : http.Head) : Prop :=
  hd.d1 < 10 ∧ hd.d2 < 10 ∧ hd.d3 < 10 ∧ 13 ∉ hd.reason
    ∧ ∀ p ∈ hd.lines, 58 ∉ p.1 ∧ 13 ∉ p.1 ∧ 13 ∉ p.2

instance (hd : http.Head) : Decidable hd.wf := by
  unfold http.Head.wf; infer_instance

/-- The character of a digit value (lower case above 9). -/
def digitChar (d : Nat) : Nat := if d < 10 then 48 + d else 87 + d

/-- The numeral of `n` in the given base, most significant digit first, as
a sender writes it: no sign, no prefix, `0` for zero. -/
def numeral (base n : Nat) : Str :=
  if n = 0 then [48] else ((Nat.digits base n).reverse).map digitChar

/-- One chunk `hex-size CRLF payload CRLF`. -/
def http.chunk_wire (c : Str) : Str := numeral 16 c.length ++ crlf ++ c ++ crlf

/-- The data chunks, one after the other. -/
def http.chunks_wire : List Str → Str
  | [] => []
  | c :: t => http.chunk_wire c ++ http.chunks_wire t

/-- A chunked body: the data chunks, `0 CRLF`, the trailer lines
`Name: Value CRLF`, an empty line. -/
def http.chunked_wire (cs : List Str) (trailers : List (Str × Str)) : Str :=
  http.chunks_wire cs ++ [48] ++ crlf ++ http.header_block trailers ++ crlf

/-- A client on an open connection in good state that will receive `inp`. -/
def http.client_on (inp : Str) (stack : List http.method_e) : http.client :=
  { host := str "example.org", encryption := false,
    con := { input := inp, pending := [], output := [], connected := true, good := true,
             exceptions := true, timeout := some 5000, readlimit := none },
    rstack := stack }

/-- A freshly constructed response object. -/
def http.fresh_response : http.response :=
  { version := http.version_e.HTTP09, status := 0, reasonphrase := [], header := [], body := [] }

/-- The head `HTTP/1.1 200 OK` with the single header line given. -/
def http.head_200 (name value : Str) : http.Head :=
  { version := http.version_e.HTTP11, d1 := 2, d2 := 0, d3 := 0, reason := str "OK",
    lines := [(name, value)] }

/-- The head of the response `HTTP/1.1 200 OK`, `Content-Length: 5`,
`Connection: close`. -/
def http.close_head : http.Head :=
  { version := http.version_e.HTTP11, d1 := 2, d2 := 0, d3 := 0, reason := str "OK",
    lines := [(str "Content-Length", str "5"), (str "Connection", str "close")] }

/-- The head of a response `HTTP/1.1 200 OK` with `Content-Length: 100`. -/
def http.length_head : http.Head :=
  { version := http.version_e.HTTP11, d1 := 2, d2 := 0, d3 := 0, reason := str "OK",
    lines := [(str "Content-Length", str "100")] }

/-- A request `POST /a` with two headers and the body `BODY`. -/
def http.post_message : http.message :=
  { header := [(str "Host", str "h"), (str "User-Agent", str "x")],
    method := http.method_e.POST, resource := str "/a", body := some (str "BODY") }

/-- The response object after the response of `close_head` with the body
`hello` was retrieved. -/
def http.close_response : http.response :=
  { version := http.version_e.HTTP11, status := 200, reasonphrase := str "OK",
    header := [(str "Connection", str "close"), (str "Content-Length", str "5")],
    body := str "hello" }

/-- The client after that response was retrieved: connection closed, no
request pending. -/
def http.close_client : http.client :=
  { host := str "example.org", encryption := false,
    con := { input := [], pending := [], output := [], connected := false, good := true,
             exceptions := true, timeout := some 5000, readlimit := some (50 * 1024 * 1024) },
    rstack := [] }

/-- A response object that still holds the body of an earlier response. -/
def http.stale_response : http.response :=
  { version := http.version_e.HTTP09, status := 0, reasonphrase := [], header := [],
    body := str "stale" }

/-- The head `HTTP/1.1 100 Continue` with `Transfer-Encoding: chunked`. -/
def http.continue_head : http.Head :=
  { version := http.version_e.HTTP11, d1 := 1, d2 := 0, d3 := 0, reason := str "Continue",
    lines := [(str "Transfer-Encoding", str "chunked")] }

/-! ## inet::websocket -/

namespace websocket

/-- `enum class response_e`. -/
inductive response_e
  | TEXT | BIN | PONG | CLOSE
  deriving DecidableEq, Repr

/-- `class client`; `bigendian` is what `isbigendian()` answers on the
host. -/
structure client where
  host : Str
  encryption : Bool
  con : gconnection
  bigendian : Bool
  deriving DecidableEq, Repr

/-- The `w` bytes of an unsigned value as they lie in memory. -/
def to_mem (big : Bool) (w v : Nat) : List Nat :=
  if big then ((List.range w).map (fun i => v / 256 ^ i % 256)).reverse
  else (List.range w).map (fun i => v / 256 ^ i % 256)

/-- The unsigned value whose bytes lie in memory as `bs`. -/
def of_mem (big : Bool) (bs : List Nat) : Nat :=
  (if big then bs.reverse else bs).foldr (fun b acc => b + 256 * acc) 0

/-- The loop of `hton` on the bytes of the value:
`for (i = 0; i < sizeof(value) / 2; ++i) p[i] = p[sizeof(value)-i-1];`. -/
def hton_loop (bs : List Nat) : List Nat :=
  (List.range (bs.length / 2)).foldl (fun b i => b.set i (b.getD (bs.length - i - 1) 0)) bs

/-- `client::hton<T>(value)` for a `T` of `w` bytes. -/
def hton (big : Bool) (w v : Nat) : Nat :=
  if w = 1 ∨ big = true then v
  else of_mem false (hton_loop (to_mem false w v))

/-- The mask key every frame is sent with. -/
def mask_key : Nat := 0xDEADBEAF

/-- The byte-wise tail of the payload loops of `send`, `ping` and `pong`:
`while (i < size) { _con->put(data[i] ^ ((char*)&mask)[i % 4]); ++i; }`. -/
def put_tail (maskmem : List Nat) : Str → Nat → gconnection → Except Exc gconnection
  | [], _, con => .ok con
  | b :: t, i, con =>
    match con.put (b ^^^ maskmem.getD (i % 4) 0) with
    | .error e => .error e
    | .ok c1 => put_tail maskmem t (i + 1) c1

/-- The payload loop of `send`, `ping` and `pong` on the bytes
`data[i..size)`: four bytes at a time XORed as a 32-bit word, fewer than
four one by one. -/
def put_payload (big : Bool) (mask : Nat) : Str → Nat → gconnection → Except Exc gconnection
  | a :: b :: c :: d :: t, i, con =>
    match con.write (to_mem big 4 (of_mem big [a, b, c, d] ^^^ mask)) with
    | .error e => .error e
    | .ok c1 => put_payload big mask t (i + 4) c1
  | rest, i, con => put_tail (to_mem big 4 mask) rest i con

/-- `client::send(data, size, text)` with `size` the length of `data`
(below 2^32). -/
def client.send (cl : client) (data : Str) (text : Bool) : Except Exc client :=
  let size := data.length
  let head0 := if text then 0x81 else 0x82
  let head1 := if size < 126 then 0x80 ||| size else if size < 65535 then 0x80 ||| 126
    else 0x80 ||| 127
  let exlena := if size < 126 then 0 else if size < 65535 then hton cl.bigendian 4 size % 2 ^ 16
    else 0
  let exlenb := if size < 126 then 0 else if size < 65535 then 0 else hton cl.bigendian 4 size
  match cl.con.write [head0, head1] with
  | .error e => .error e
  | .ok c1 =>
    -- `write(&exlena, 4)` reads two bytes past the 16-bit object
    match (if exlena ≠ 0 then .error Exc.undefined
           else if exlenb ≠ 0 then c1.write (to_mem cl.bigendian 8 exlenb)
           else .ok c1) with
    | .error e => .error e
    | .ok c2 =>
      match c2.write (to_mem cl.bigendian 4 mask_key) with
      | .error e => .error e
      | .ok c3 =>
        match put_payload cl.bigendian mask_key data 0 c3 with
        | .error e => .error e
        | .ok c4 =>
          match c4.flush with
          | .error e => .error e
          | .ok c5 => .ok { cl with con := c5 }

/-- `client::ping(data, size)` with `size` the length of `data`. -/
def client.ping (cl : client) (data : Str) : Except Exc client :=
  let size := min data.length 125
  match cl.con.write [0x89, 0x80 ||| size] with
  | .error e => .error e
  | .ok c1 =>
    match c1.write (to_mem cl.bigendian 4 mask_key) with
    | .error e => .error e
    | .ok c2 =>
      match put_payload cl.bigendian mask_key (data.take size) 0 c2 with
      | .error e => .error e
      | .ok c3 =>
        match c3.flush with
        | .error e => .error e
        | .ok c4 => .ok { cl with con := c4 }

/-- `client::pong(mask, size)`. -/
def client.pong (cl : client) (mask size : Nat) : Except Exc client :=
  match cl.con.read size with
  | .error e => .error e
  | .ok (buffer, c1) =>
    if buffer.length ≠ size then .error Exc.undefined
    else
      match c1.write [0x8A, 0x80 ||| (size % 256)] with
      | .error e => .error e
      | .ok c2 =>
        match (if mask = 0 then put_payload cl.bigendian mask_key buffer 0 c2
               else c2.write buffer) with
        | .error e => .error e
        | .ok c3 =>
          match c3.flush with
          | .error e => .error e
          | .ok c4 => .ok { cl with con := c4 }

/-- The byte-wise tail of the payload loop of `retrieve`:
`out[offset + i] = static_cast<char>(_con->get()) ^ ((char*)&mask)[i % 4]`
for the `k` bytes left. -/
def get_tail (maskmem : List Nat) : Nat → Nat → gconnection → Str → Except Exc (gconnection × Str)
  | 0, _, con, acc => .ok (con, acc)
  | k + 1, i, con, acc =>
    match con.get with
    | .error e => .error e
    | .ok (c, c1) =>
      get_tail maskmem k (i + 1) c1 (acc ++ [(c % 256).toNat ^^^ maskmem.getD (i % 4) 0])

/-- The payload loop of `retrieve` for a masked frame with `n` bytes left:
four bytes at a time XORed as a 32-bit word, fewer than four one by one.
`acc` are the payload bytes stored so far. -/
def get_payload (big : Bool) (mask : Nat) : Nat → Nat → gconnection → Str →
    Except Exc (gconnection × Str)
  | n + 4, i, con, acc =>
    match con.read 4 with
    | .error e => .error e
    | .ok (w, c1) =>
      if w.length ≠ 4 then .error Exc.undefined
      else get_payload big mask n (i + 4) c1 (acc ++ to_mem big 4 (of_mem big w ^^^ mask))
  | n, i, con, acc => get_tail (to_mem big 4 mask) n i con acc

/-- The opcode test at the start of `retrieve`. -/
def frame_type (op : Nat) (rtype : response_e) : Except Exc response_e :=
  if op = 0x1 then .ok response_e.TEXT
  else if op = 0x2 then .ok response_e.BIN
  else if op = 0xA then .ok response_e.PONG
  else if op = 0x8 then .ok response_e.CLOSE
  else if op ≠ 0x0 ∨ op ≠ 0x9 then .error Exc.ws_UNKOWN_RSP
  else .ok rtype

/-- The payload length of `retrieve`: the 7-bit field or the extended
field that follows the header. -/
def frame_length (big : Bool) (h1 : Nat) (con : gconnection) : Except Exc (Nat × gconnection) :=
  if h1 &&& 0x7F < 126 then .ok (h1 &&& 0x7F, con)
  else if h1 &&& 0x7F = 126 then
    match con.read 2 with
    | .error e => .error e
    | .ok (b, c1) =>
      if b.length ≠ 2 then .error Exc.undefined
      else .ok (hton big 2 (of_mem big b), c1)
  else
    match con.read 8 with
    | .error e => .error e
    | .ok (b, c1) =>
      if b.length ≠ 8 then .error Exc.undefined
      else .ok (hton big 8 (of_mem big b) % 2 ^ 32, c1)

/-- `client::retrieve(out, rtype)`, at most `fuel` calls deep: the client,
the output buffer and the frame type after the call. -/
def client.retrieve_rec : Nat → client → Str → response_e →
    Except Exc (client × Str × response_e)
  | 0, _, _, _ => .error Exc.unfinished
  | fuel + 1, cl, out, rtype =>
    match cl.con.read 2 with
    | .error e => .error e
    | .ok (head, c1) =>
      if head.length ≠ 2 then .error Exc.undefined
      else
        let h0 := head.getD 0 0
        let h1 := head.getD 1 0
        match frame_type (h0 &&& 0x0F) rtype with
        | .error e => .error e
        | .ok rtype1 =>
          match frame_length cl.bigendian h1 c1 with
          | .error e => .error e
          | .ok (len, c2) =>
            match (if h1 &&& 0x80 ≠ 0 then c2.read 4 else .ok (to_mem cl.bigendian 4 0, c2)) with
            | .error e => .error e
            | .ok (key, c3) =>
              if key.length ≠ 4 then .error Exc.undefined
              else if h1 &&& 0x0F = 0x9 then
                match ({ cl with con := c3 } : client).pong (of_mem cl.bigendian key) len with
                | .error e => .error e
                | .ok cl1 => client.retrieve_rec fuel cl1 out rtype1
              else
                match (if of_mem cl.bigendian key ≠ 0 then
                         get_payload cl.bigendian (of_mem cl.bigendian key) len 0 c3 out
                       else
                         match c3.read len with
                         | .error e => .error e
                         | .ok (d, c4) =>
                           .ok (c4, out ++ d ++ List.replicate (len - d.length) 0)) with
                | .error e => .error e
                | .ok (c5, out1) =>
                  match (if h0 &&& 0x80 = 0 then
                           client.retrieve_rec fuel { cl with con := c5 } out1 rtype1
                         else .ok ({ cl with con := c5 }, out1, rtype1)) with
                  | .error e => .error e
                  | .ok (cl2, out2, rtype2) =>
                    if rtype2 = response_e.CLOSE then
                      .ok ({ cl2 with con := cl2.con.close }, out2, rtype2)
                    else .ok (cl2, out2, rtype2)

/-- `client::retrieve(out, rtype)`.  Every call reads at least the two
header bytes of a frame, so the recursion is never deeper than the number
of bytes that arrive. -/
def client.retrieve (cl : client) (out : Str) (rtype : response_e) :
    Except Exc (client × Str × response_e) :=
  client.retrieve_rec (cl.con.input.length + 1) cl out rtype

/-- A client whose connection is open, in good state, with exceptions
enabled as `connect` leaves it, on a little-endian host, that will receive
`inp`. -/
def client_on (inp : Str) : client :=
  { host := str "example.org", encryption := false,
    con := { input := inp, pending := [], output := [], connected := true, good := true,
             exceptions := true, timeout := some 5000, readlimit := none },
    bigendian := false }

end websocket

/-! ## Further scenarios -/

/-- The head `HTTP/1.1 100 Continue` with `Connection: close` and
`Content-Length: 5`. -/
def http.continue_close_head : http.Head :=
  { version := http.version_e.HTTP11, d1 := 1, d2 := 0, d3 := 0, reason := str "Continue",
    lines := [(str "Connection", str "close"), (str "Content-Length", str "5")] }

/-- A request `HEAD /a` without headers or body. -/
def http.head_message : http.message :=
  { header := [], method := http.method_e.HEAD, resource := str "/a", body := none }

/-- A request `GET /b` without headers or body. -/
def http.get_message : http.message :=
  { header := [], method := http.method_e.GET, resource := str "/b", body := none }

/-- The head `HTTP/1.1 200 OK` with `Content-Length: 5`. -/
def http.five_head : http.Head := http.head_200 (str "Content-Length") (str "5")

/-- The answers to `HEAD /a` and `GET /b` in the order of the requests: the
head alone, then the head and the body `hello`. -/
def http.two_answers : Str := http.five_head.wire ++ (http.five_head.wire ++ str "hello")

/-- A response object as an earlier `retrieve` left it: a cookie header and
the body `stale`. -/
def http.used_response : http.response :=
  { version := http.version_e.HTTP11, status := 200, reasonphrase := str "OK",
    header := [(str "Set-Cookie", str "id=1")], body := str "stale" }

/-- A connection that is open and in good state and will receive `inp`;
`exc` tells whether stream exceptions are enabled. -/
def stream_on (inp : Str) (exc : Bool) : gconnection :=
  { input := inp, pending := [], output := [], connected := true, good := true,
    exceptions := exc, timeout := none, readlimit := none }

namespace websocket

/-- The payload masked byte by byte, as the specification words it: byte
`i` is `data[i]` XOR `key[i mod 4]`. -/
def mask_bytewise (key : List Nat) (data : Str) : Str :=
  (List.range data.length).map (fun i => data.getD i 0 ^^^ key.getD (i % 4) 0)

/-- The frame of a payload under 126 bytes, as the specification words it:
the header byte `0x81` for text and `0x82` for binary, the byte `0x80 | n`,
the four key bytes, the payload masked byte by byte. -/
def small_frame (text : Bool) (key : List Nat) (data : Str) : Str :=
  [if text then 0x81 else 0x82, 0x80 ||| data.length] ++ key ++ mask_bytewise key data

/-- The bytes `data[0..]` masked as the bytes `i, i+1, ...` of a payload. -/
def mask_from (key : List Nat) : Nat → Str → Str
  | _, [] => []
  | i, b :: t => (b ^^^ key.getD (i % 4) 0) :: mask_from key (i + 1) t

end websocket

/-! ## WebSocket: ping and close frames, the handshake -/

/-- What `open(node, service)` of the transport meets: a name that cannot
be resolved, no address that accepts the connection, or a peer that
accepts it and will send `inp`. -/
inductive Peer
  | unresolved
  | refused
  | accepts (inp : Str)
  deriving DecidableEq, Repr

/-- `open(node, service)` as the protocol engines see it: the connection
is closed first; `getaddrinfo` failing throws, no address accepting sets
`badbit`, and on success the stream buffer is rebound to the new channel
(nothing received, nothing sent yet) and the stream state cleared. -/
def gconnection.open (con : gconnection) (peer : Peer) : Except Exc gconnection :=
  match peer with
  | Peer.unresolved => .error Exc.tcp
  | Peer.refused => con.close.fail
  | Peer.accepts inp =>
    .ok { con.close with input := inp, pending := [], output := [], connected := true,
                         good := true }

namespace websocket

/-- The frame of `ping`, as the specification words it: `0x89`, the byte
`0x80 | m` with `m = min(size, 125)`, the four key bytes, the first `m`
bytes of the data masked byte by byte. -/
def ping_frame (key : List Nat) (data : Str) : Str :=
  [0x89, 0x80 ||| min data.length 125] ++ key ++ mask_bytewise key (data.take 125)

/-- A CLOSE frame with the status code 1000 and the reason `goodbye`: nine
payload bytes, final, unmasked. -/
def close_frame_9 : Str := [0x88, 0x09, 0x03, 0xE8] ++ str "goodbye"

/-- The upgrade request of `connect(resource)`. -/
def upgrade_request (host resource : Str) : Str :=
  str "GET " ++ resource ++ str " HTTP/1.1\r\nHost: " ++ host
    ++ str ("\r\nUpgrade: websocket\r\nConnection: Upgrade\r\n"
      ++ "Sec-WebSocket-Key: dGhlIHNhbXBsZSBub25jZQ==\r\nSec-WebSocket-Version: 13\r\n\r\n")

/-- The loop `while (line.size() != 0) { line.clear(); _con->getCRLF(line); }`
of `connect(resource)`. -/
def skip_headers : Nat → gconnection → Str → Except Exc gconnection
  | 0, _, _ => .error Exc.unfinished
  | fuel + 1, con, line =>
    if line.length ≠ 0 then
      match con.getCRLF [] with
      | .error e => .error e
      | .ok (c1, l1) => skip_headers fuel c1 l1
    else .ok con

/-- `client::connect(resource)`.  Stream exceptions are enabled before the
first line is read, so every pass of the header loop that returns has
taken a CR LF off the stream. -/
def client.connect (cl : client) (resource : Str) (peer : Peer) : Except Exc client :=
  if cl.con.is_open then .error Exc.assertion
  else
    match cl.con.open peer with
    | .error e => .error e
    | .ok c0 =>
      if !c0.is_open then .error Exc.ws_OPEN_FAIL
      else
        match (({ c0 with exceptions := true } : gconnection).enable_timeout 5000).write
            (upgrade_request cl.host resource) with
        | .error e => .error e
        | .ok c2 =>
          match c2.flush with
          | .error e => .error e
          | .ok c3 =>
            match c3.getCRLF [] with
            | .error e => .error e
            | .ok (c4, line) =>
              if line.length < 13 then .error Exc.ws_HANDSHAKE_FAIL
              else
                match substr line 9 (some 3) with
                | .error e => .error e
                | .ok code =>
                  if code ≠ str "101" then .error Exc.ws_HANDSHAKE_FAIL
                  else
                    match skip_headers (c4.input.length + 2) c4 line with
                    | .error e => .error e
                    | .ok c5 => .ok { cl with con := c5 }

/-- Lines, each followed by CR LF. -/
def lines_wire : List Str → Str
  | [] => []
  | l :: t => l ++ crlf ++ lines_wire t

/-- A client that is not connected, on a little-endian host. -/
def idle_client : client :=
  { host := str "example.org", encryption := false,
    con := { input := [], pending := [], output := [], connected := false, good := true,
             exceptions := false, timeout := none, readlimit := none },
    bigendian := false }

end websocket

/-! ## The stream buffer: further back ends and scenarios -/

/-- `tls::streambuf::readfunc` (with `checksocket`): as the socket back
end, but `SSL_read` returning no byte is an exception. -/
def tls.readfunc (sb : gstreambuf) (ch : Channel) (len : Nat) :
    Except Exc (List Nat × gstreambuf × Channel) :=
  if sb.inlimit && decide (sb.curread ≥ sb.maxread) then .ok ([], sb, ch)
  else
    match ch.incoming with
    | [] => .ok ([], sb, ch)
    | RecvEvent.timeout :: rest => .ok ([], sb, { ch with incoming := rest })
    | RecvEvent.error :: _ => .error Exc.tls
    | RecvEvent.data d :: rest =>
      if d.take len = [] then .error Exc.tls
      else
        .ok (d.take len, { sb with curread := (sb.curread + (d.take len).length) % 2 ^ 32 },
              { ch with incoming := if d.drop len = [] then rest
                                    else RecvEvent.data (d.drop len) :: rest,
                        delivered := ch.delivered ++ d.take len })

/-- Whether the channel takes `k` bytes offered to it in repeated writes,
every write taking at least one byte: the writes that `flush` needs, as the
specification words them. -/
def takes_all : List SendEvent → Nat → Bool
  | _, 0 => true
  | [], _ + 1 => false
  | SendEvent.error :: _, _ + 1 => false
  | SendEvent.accept j :: rest, k + 1 =>
    if j = 0 then false else takes_all rest (k + 1 - min j (k + 1))

/-- A bound stream buffer with `k` bytes buffered for output. -/
def outbuf (buf : List Nat) (k : Nat) : gstreambuf :=
  { bound := true, ibuffer := List.replicate isize 0, icur := 0, iend := 0,
    obuffer := buf, ocur := k, curread := 0, maxread := 0, inlimit := false }

/-- A channel with the given answers to the writes ahead. -/
def outchan (evs : List SendEvent) : Channel :=
  { incoming := [], outgoing := evs, delivered := [], sent := [] }

/-- One read call on the stream buffer. -/
inductive ReadOp
  | get_byte               -- `sbumpc`: `uflow`
  | peek                   -- `sgetc`: `underflow`
  | read_n (count : Nat)   -- `sgetn`: `xsgetn`
  | push_back (b : Nat)    -- `sputbackc`: `pbackfail`
  deriving DecidableEq, Repr

/-- A sequence of read calls, one after the other: the stream buffer and
the channel after the last one. -/
def run_reads : List ReadOp → gstreambuf → Channel → Except Exc (gstreambuf × Channel)
  | [], sb, ch => .ok (sb, ch)
  | ReadOp.get_byte :: ops, sb, ch =>
    match uflow sb ch with
    | .error e => .error e
    | .ok (_, sb1, ch1) => run_reads ops sb1 ch1
  | ReadOp.peek :: ops, sb, ch =>
    match underflow sb ch with
    | .error e => .error e
    | .ok (_, sb1, ch1) => run_reads ops sb1 ch1
  | ReadOp.read_n count :: ops, sb, ch =>
    match xsgetn sb ch count with
    | .error e => .error e
    | .ok (_, sb1, ch1) => run_reads ops sb1 ch1
  | ReadOp.push_back b :: ops, sb, ch => run_reads ops (pbackfail sb (some b)).2 ch
/-- The invariant of the data limit `n`: the limit is on, the counter is
the number of bytes the channel has handed over since `base`, and it is
below `n` plus one buffer. -/
def quota_inv (n base : Nat) (sb : gstreambuf) (ch : Channel) : Prop :=
  sb.inlimit = true ∧ sb.maxread = n ∧ sb.curread < n + isize
    ∧ ch.delivered.length = base + sb.curread

/-- A freshly bound stream buffer on which `enable_read_limit(10)` was
called. -/
def limited_stream : gstreambuf := (inbuf (List.replicate isize 0) 0 0 0).enable_data_limit 10

/-- That stream buffer after one refill of 100 bytes `A`, all of them
read. -/
def limited_stream_after : gstreambuf :=
  { limited_stream with
      ibuffer := writeAt (List.replicate isize 0) 0 (List.replicate 100 65),
      icur := 100, iend := 100, curread := (0 + 100) % 2 ^ 32 }

/-! ## The time-out of the socket back end, with the clock explicit -/

namespace clock

/-- The time-out members of `gstreambuf`: `_duration` in ms (-1: none) and
`_begin`, a time in ms. -/
structure Timer where
  duration : Int
  begin : Nat
  deriving DecidableEq, Repr

/-- `enable_timeout(ms)` called at the time `now`:
`_duration = static_cast<int>(ms); _begin = now()`. -/
def Timer.enable (ms now : Nat) : Timer :=
  { duration := if ms % 2 ^ 32 < 2 ^ 31 then ((ms % 2 ^ 32 : Nat) : Int)
                else ((ms % 2 ^ 32 : Nat) : Int) - 2 ^ 32,
    begin := now }

/-- The receive side of the socket when `poll` is called: the bytes that
can be read at once and, if more are on their way, the time in ms after
which they arrive. -/
structure Socket where
  queued : List Nat
  arriving : Option (Nat × List Nat)
  deriving DecidableEq, Repr

/-- What `poll(&pfd, 1, timeout)` answers: 1 after `waited` ms, 0 after the
time-out, or nothing at all (it waits for ever). -/
inductive PollResult
  | ready (waited : Nat)
  | expired (waited : Nat)
  | never
  deriving DecidableEq, Repr

/-- `poll` for `POLLIN` on the socket; a negative time-out waits without
limit. -/
def poll (s : Socket) (timeout : Int) : PollResult :=
  if s.queued ≠ [] then PollResult.ready 0
  else
    match s.arriving with
    | some (w, _) =>
      if timeout < 0 ∨ (w : Int) ≤ timeout then PollResult.ready w
      else PollResult.expired timeout.toNat
    | none => if timeout < 0 then PollResult.never else PollResult.expired timeout.toNat

/-- The third argument of `poll` in `checksocket`:
`_duration > 0 ? timeleft : -1` with
`timeleft = max(_duration - (now - _begin), 0)`. -/
def poll_timeout (t : Timer) (now : Nat) : Int :=
  if t.duration > 0 then max (t.duration - ((now - t.begin : Nat) : Int)) 0 else -1

/-- What a refill does with the socket. -/
inductive Refill
  | blocked                                   -- `poll` never returns
  | nothing (waited : Nat)                    -- `checksocket` is false: `recv` is not called
  | received (waited : Nat) (d : List Nat)    -- `recv` was called and stored `d`
  deriving DecidableEq, Repr

/-- `tcp::streambuf::checksocket`: `none` when `poll` never returns, else
the answer and the time spent in `poll`. -/
def checksocket (sb : gstreambuf) (t : Timer) (now : Nat) (s : Socket) : Option (Bool × Nat) :=
  if sb.inlimit && decide (sb.curread ≥ sb.maxread) then some (false, 0)
  else
    match poll s (poll_timeout t now) with
    | PollResult.never => none
    | PollResult.expired w => some (false, w)
    | PollResult.ready w => some (true, w)

/-- `tcp::streambuf::readfunc` at the time `now`: `recv` is called when
`checksocket` allows it and stores at most `len` of the bytes that are
there. -/
def readfunc (sb : gstreambuf) (t : Timer) (now : Nat) (s : Socket) (len : Nat) : Refill :=
  match checksocket sb t now s with
  | none => Refill.blocked
  | some (false, w) => Refill.nothing w
  | some (true, w) =>
    Refill.received w
      ((if s.queued ≠ [] then s.queued else (s.arriving.map (fun p => p.2)).getD []).take len)

end clock

/-! ## inet::tcp::client -/

namespace tcp

/-- The members of `tcp::client` that `open` and `close` work on: the
stream buffer `_sb` (`none` is the null pointer a new `gconnection` starts
with), `_connected`, and whether the stream state is good. -/
structure client where
  sb : Option gstreambuf
  connected : Bool
  good : Bool
  deriving DecidableEq, Repr

/-- A newly constructed `tcp::client`. -/
def new_client : client := { sb := none, connected := false, good := true }

/-- A default-constructed `tcp::streambuf`: not bound, both buffers
empty. -/
def new_streambuf : gstreambuf :=
  { bound := false, ibuffer := List.replicate isize 0, icur := 0, iend := 0,
    obuffer := List.replicate osize 0, ocur := 0, curread := 0, maxread := 0, inlimit := false }

/-- `client::_createsb`. -/
def client._createsb (cl : client) : client :=
  { cl with sb := some new_streambuf, good := true }

/-- `client::_resetsb`: binds the stream buffer when the client is not
connected, unbinds it when it is.  `_sb` is dereferenced. -/
def client._resetsb (cl : client) : Except Exc client :=
  match cl.sb with
  | none => .error Exc.undefined
  | some sb =>
    if cl.connected = false then .ok { cl with sb := some sb.reset_bind, good := true }
    else .ok { cl with sb := some sb.reset, good := true }

/-- `client::_disconnect`. -/
def client._disconnect (cl : client) : Except Exc client :=
  if cl.connected then
    match cl._resetsb with
    | .error e => .error e
    | .ok c => .ok { c with connected := false }
  else .ok cl

/-- What a call has left behind: the flag `static bool sb_init` of
`_connect`, which all instances of the process share, the client, and the
exception the call was left with, if any. -/
structure Outcome where
  sb_init : Bool
  cl : client
  thrown : Option Exc
  deriving DecidableEq, Repr

/-- `client::_connect`; `sb_init` is the value of the static flag on
entry. -/
def client._connect (sb_init : Bool) (cl : client) (peer : Peer) : Except Exc Outcome :=
  match peer with
  | Peer.unresolved =>
    .ok { sb_init := true, cl := if sb_init = false then cl._createsb else cl,
          thrown := some Exc.tcp }
  | Peer.refused =>
    .ok { sb_init := true,
          cl := { (if sb_init = false then cl._createsb else cl) with good := false },
          thrown := none }
  | Peer.accepts _ =>
    match (if sb_init = false then cl._createsb else cl)._resetsb with
    | .error e => .error e
    | .ok c => .ok { sb_init := true, cl := { c with connected := true }, thrown := none }

/-- `client::open(node, service)`. -/
def client.open (sb_init : Bool) (cl : client) (peer : Peer) : Except Exc Outcome :=
  match cl._disconnect with
  | .error e => .error e
  | .ok c => c._connect sb_init peer

/-- `client::close`. -/
def client.close (cl : client) : Except Exc client := cl._disconnect

/-- `client::is_open`. -/
def client.is_open (cl : client) : Bool := cl.connected

/-- Whether the stream buffer of the client is bound to a channel. -/
def client.bound (cl : client) : Bool :=
  match cl.sb with
  | none => false
  | some sb => sb.bound

/-- Whether both buffers of the stream buffer of the client are empty. -/
def client.buffers_empty (cl : client) : Bool :=
  match cl.sb with
  | none => true
  | some sb => sb.icur == 0 && sb.iend == 0 && sb.ocur == 0

end tcp

/-- A bound stream buffer without a data limit, nothing buffered. -/
def clock.new_limitless : gstreambuf := inbuf (List.replicate isize 0) 0 0 0

/-! ## inet::http: the cookie parser and the request message -/

/-- `std::string_view::find(c, pos)`: the first position of `c` from `pos`
on; `none` is `npos`. -/
def find_from (c : Nat) (s : Str) (pos : Nat) : Option Nat :=
  if pos > s.length then none else (findChar c (s.drop pos)).map (· + pos)

namespace http

/-- The loop of `cookieParser`; `begin` is the position where the next key
starts.  A count `cur - begin` with `cur == npos` is the rest of the
string. -/
def cookieParser_loop : Nat → Str → Nat → StrMap → Except Exc StrMap
  | 0, _, _, _ => .error Exc.unfinished
  | fuel + 1, s, begin, cookies =>
    match find_from 61 s begin with
    | none => .ok cookies
    | some cur =>
      match substr s begin (some (cur - begin)) with
      | .error e => .error e
      | .ok key =>
        match substr s (cur + 1) ((find_from 59 s (cur + 1)).map (· - (cur + 1))) with
        | .error e => .error e
        | .ok value =>
          match find_from 59 s (cur + 1) with
          | none => .ok (map_set cookies key value)
          | some cur1 => cookieParser_loop fuel s (cur1 + 1) (map_set cookies key value)

/-- `inet::http::cookieParser(str)`.  Every pass of the loop but the last
moves `begin` forward, so `size + 1` passes are enough. -/
def cookieParser (s : Str) : Except Exc StrMap :=
  cookieParser_loop (s.length + 1) s 0 []

/-- Cookie pairs as `key=value;`, one after the other. -/
def pairs_wire : List (Str × Str) → Str
  | [] => []
  | p :: t => p.1 ++ [61] ++ p.2 ++ [59] ++ pairs_wire t

end http

/-! ## inet::http::message -/

/-- The keys of the map are in strictly increasing order, as in every
`std::map`. -/
def map_wf (m : StrMap) : Prop := m.Pairwise (fun a b => strLt a.1 b.1 = true)

namespace http

/-- `message::message()`.  `_method` is not initialised by this
constructor; `m0` stands for what it holds. -/
def message.init (m0 : method_e) : message :=
  { header := map_set [] (str "User-Agent") (str "cppclient/0.10"), method := m0,
    resource := [], body := none }

/-- `message::message(host)`; `_method` as for `message()`. -/
def message.init_host (m0 : method_e) (host : Str) : message :=
  { header := map_set (map_set [] (str "Host") host) (str "User-Agent") (str "cppclient/0.10"),
    method := m0, resource := [], body := none }

/-- `message::message(m, host)`. -/
def message.init_method (m : method_e) (host : Str) : message :=
  { header := map_set (map_set (map_set [] (str "Host") host) (str "User-Agent")
      (str "cppclient/0.10")) (str "Connection") (str "close"),
    method := m, resource := str "/", body := none }

/-- `message::host(h)`, the setter. -/
def message.set_host (m : message) (h : Str) : message :=
  { m with header := map_set m.header (str "Host") h }

/-- `message::method(m)`, the setter. -/
def message.set_method (m : message) (x : method_e) : message := { m with method := x }

/-- `message::resource(r)`, the setter. -/
def message.set_resource (m : message) (r : Str) : message := { m with resource := r }

/-- `message::body(body, size)`, the setter; `data` are the `size` bytes at
`body`, `size` being an `unsigned int`.  `std::to_string(size)` is the
decimal numeral. -/
def message.set_body (m : message) (data : Str) : message :=
  { m with body := some data,
           header := map_set m.header (str "Content-Length") (numeral 10 data.length) }

/-- `message::body(std::string_view)`, the setter: `_bsize` is the size of
the view cut to 32 bits. -/
def message.set_body_view (m : message) (view : Str) : message :=
  { m with body := some (view.take (view.length % 2 ^ 32)),
           header := map_set m.header (str "Content-Length")
             (numeral 10 (view.length % 2 ^ 32)) }

/-- `message::clearbody()`. -/
def message.clearbody (m : message) : message :=
  { m with body := none, header := map_erase m.header (str "Content-Length") }

/-- `message::clear()`. -/
def message.clear (m : message) : message :=
  ({ m with header := [] } : message).clearbody

/-- One call of an operation of `message` that changes it. -/
inductive MsgOp
  | host (h : Str)
  | method (x : method_e)
  | resource (r : Str)
  | body (data : Str)
  | body_view (view : Str)
  | clear
  | clearbody
  deriving DecidableEq, Repr

/-- The message after one such call. -/
def message.apply (m : message) : MsgOp → message
  | MsgOp.host h => m.set_host h
  | MsgOp.method x => m.set_method x
  | MsgOp.resource r => m.set_resource r
  | MsgOp.body data => m.set_body data
  | MsgOp.body_view view => m.set_body_view view
  | MsgOp.clear => m.clear
  | MsgOp.clearbody => m.clearbody

/-- The message after a sequence of such calls. -/
def message.run (m : message) (ops : List MsgOp) : message := ops.foldl message.apply m

/-- Whenever a body is set, `Content-Length` holds the decimal text of its
size. -/
def message.length_kept (m : message) : Prop :=
  ∀ d, m.body = some d → map_find m.header (str "Content-Length") = some (numeral 10 d.length)

end http

/-- Consecutive `push_back` calls with the bytes `bs`: what each call
returned, and the stream buffer after the last one. -/
def push_back_all : List Nat → gstreambuf → List Int × gstreambuf
  | [], sb => ([], sb)
  | b :: t, sb =>
    ((pbackfail sb (some b)).1 :: (push_back_all t (pbackfail sb (some b)).2).1,
     (push_back_all t (pbackfail sb (some b)).2).2)

/-- A bound stream buffer whose input buffer holds `buf`, all of it
consumed: cursor and fill end are at the capacity. -/
def full_inbuf (buf : List Nat) : gstreambuf := inbuf buf isize isize 0

/-- The head `HTTP/1.1 <d1>00 <reason>` whose first header line is
`content-length: 5`, in lower case, followed by the lines `more`. -/
def http.lower_length_head (d1 : Nat) (reason : Str) (more : List (Str × Str)) : http.Head :=
  { version := http.version_e.HTTP11, d1 := d1, d2 := 0, d3 := 0, reason := reason,
    lines := (str "content-length", str "5") :: more }

/-- A response object that still holds `Content-Length: 3` from an earlier
response. -/
def http.length3_response : http.response :=
  { version := http.version_e.HTTP11, status := 200, reasonphrase := str "OK",
    header := [(str "Content-Length", str "3")], body := [] }

/-- A request `POST /upload` with one header and a body of 20000 bytes. -/
def http.large_post_message : http.message :=
  { header := [(str "Host", str "h")], method := http.method_e.POST, resource := str "/upload",
    body := some (List.replicate 20000 120) }

/-! ## Theorems: gstreambuf -/

theorem xsgetn_copy_spec (k : Nat) : ∀ (sb : gstreambuf) (s : List Nat),
    sb.icur ≤ sb.iend → sb.iend ≤ sb.ibuffer.length →
    xsgetn_copy k sb s =
      ({ sb with icur := sb.icur + min k (sb.iend - sb.icur) },
        s ++ (sb.ibuffer.drop sb.icur).take (min k (sb.iend - sb.icur))) := by
  induction k with
  | zero => intro sb s _ _; simp [xsgetn_copy]
  | succ k ih =>
    intro sb s h1 h2
    unfold xsgetn_copy
    by_cases hc : sb.icur = sb.iend
    · cases sb
      simp only at hc
      subst hc
      simp
    · have hlt : sb.icur < sb.iend := lt_of_le_of_ne h1 hc
      have hlen : sb.icur < sb.ibuffer.length := lt_of_lt_of_le hlt h2
      simp only [ne_eq, hc, not_false_eq_true, if_true]
      rw [ih _ _ (by simpa using hlt) (by simpa using h2)]
      have hm : min (k + 1) (sb.iend - sb.icur) = min k (sb.iend - (sb.icur + 1)) + 1 := by
        omega
      simp only [hm]
      have hd : sb.ibuffer.drop sb.icur = sb.ibuffer.getD sb.icur 0 :: sb.ibuffer.drop (sb.icur + 1) := by
        rw [List.getD_eq_getElem _ _ hlen]
        exact List.drop_eq_getElem_cons hlen
      rw [hd, List.take_succ_cons]
      simp [Nat.add_assoc, Nat.add_comm 1]

theorem isize_val : isize = 18432 := by decide
theorem putback_val : putback = 2048 := by decide
theorem osize_val : osize = 16384 := by decide

theorem writeAt_zero_full (buf d : List Nat) (h : buf.length = d.length) :
    writeAt buf 0 d = d := by
  simp [writeAt, ← h]

theorem writeAt_nil (buf : List Nat) (pos : Nat) : writeAt buf pos [] = buf := by
  simp [writeAt]

theorem natCast_ne_eof (n : Nat) : ((n : Int) = eof) = False := by
  simp only [eof, eq_iff_iff, iff_false]; omega

/-- A refill that finds the cursor at the end of a completely filled buffer
and gets no byte from the channel (time-out): the cursor is moved to the
put-back window, the fill end stays where it was. -/
theorem underflow_full_timeout (sb : gstreambuf) (ch : Channel) (rest : List RecvEvent)
    (hb : sb.bound = true) (hc : sb.icur = isize) (he : sb.iend = isize)
    (hin : ch.incoming = RecvEvent.timeout :: rest) (hl : sb.inlimit = false) :
    underflow sb ch = .ok (eof,
      { sb with ibuffer := writeAt sb.ibuffer 0 ((sb.ibuffer.drop (isize - putback)).take putback),
                icur := putback },
      { ch with incoming := rest }) := by
  have hne2 : isize ≠ 0 := by decide
  unfold underflow
  rw [if_neg (by omega)]
  simp only [hb, hc, he, Bool.not_true, Bool.false_eq_true, if_false, decide_True, ne_eq, hne2,
    not_false_eq_true, Bool.and_self, if_true]
  simp only [readfunc, hl, Bool.false_and, Bool.false_eq_true, if_false, hin, writeAt_nil,
    List.length_nil, if_true]

/-- A refill into a buffer with room, answered by the channel with the
bytes `d`. -/
theorem underflow_fill (sb : gstreambuf) (ch : Channel) (d : List Nat) (rest : List RecvEvent)
    (hb : sb.bound = true) (hc : sb.icur = sb.iend) (hlt : sb.icur < isize)
    (hin : ch.incoming = RecvEvent.data d :: rest) (hl : sb.inlimit = false)
    (hd : d ≠ []) (hdl : d.length ≤ isize - sb.icur) :
    underflow sb ch = .ok (((writeAt sb.ibuffer sb.icur d).getD sb.icur 0 : Nat),
      { sb with ibuffer := writeAt sb.ibuffer sb.icur d, iend := sb.icur + d.length,
                curread := (sb.curread + d.length) % 2 ^ 32 },
      { ch with incoming := rest, delivered := ch.delivered ++ d }) := by
  have hne : sb.icur ≠ isize := by omega
  have hlen : d.length ≠ 0 := by
    intro h; exact hd (List.length_eq_zero.mp h)
  unfold underflow
  rw [if_neg (by omega)]
  simp only [hb, Bool.not_true, Bool.false_eq_true, if_false, hne, decide_False, Bool.false_and]
  simp only [readfunc, hl, Bool.false_and, Bool.false_eq_true, if_false, hin,
    List.take_of_length_le hdl, List.drop_of_length_le hdl, if_true, hlen]
  simp [hb]

theorem xsgetn_copy_inbuf (k : Nat) (buf : List Nat) (cur fin rd : Nat) (s : List Nat)
    (h1 : cur ≤ fin) (h2 : fin ≤ buf.length) :
    xsgetn_copy k (inbuf buf cur fin rd) s =
      (inbuf buf (cur + min k (fin - cur)) fin rd, s ++ (buf.drop cur).take (min k (fin - cur))) := by
  rw [xsgetn_copy_spec k _ _ h1 h2]
  rfl

theorem underflow_inbuf_fill (buf : List Nat) (cur rd : Nat) (d del : List Nat)
    (rest : List RecvEvent) (hlt : cur < isize) (hd : d ≠ []) (hdl : d.length ≤ isize - cur) :
    underflow (inbuf buf cur cur rd) (inchan (RecvEvent.data d :: rest) del) =
      .ok (((writeAt buf cur d).getD cur 0 : Nat),
        inbuf (writeAt buf cur d) cur (cur + d.length) ((rd + d.length) % 2 ^ 32),
        inchan rest (del ++ d)) := by
  rw [underflow_fill _ _ d rest rfl rfl hlt rfl rfl hd hdl]
  rfl

theorem underflow_inbuf_full_timeout (buf : List Nat) (rd : Nat) (del : List Nat)
    (rest : List RecvEvent) :
    underflow (inbuf buf isize isize rd) (inchan (RecvEvent.timeout :: rest) del) =
      .ok (eof, inbuf (writeAt buf 0 ((buf.drop (isize - putback)).take putback)) putback isize rd,
        inchan rest del) := by
  rw [underflow_full_timeout _ _ rest rfl rfl rfl rfl rfl]
  rfl

theorem xsgetn_loop_step (fuel : Nat) (h : 0 < fuel) (sb : gstreambuf) (ch : Channel)
    (s : List Nat) (count : Nat) :
    xsgetn_loop fuel sb ch s count =
      if (xsgetn_copy (count - s.length) sb s).2.length ≠ count then
         match underflow (xsgetn_copy (count - s.length) sb s).1 ch with
         | .error e => .error e
         | .ok (ret, sb2, ch2) =>
           if ret = eof then .ok ((xsgetn_copy (count - s.length) sb s).2, sb2, ch2)
           else xsgetn_loop (fuel - 1) sb2 ch2 (xsgetn_copy (count - s.length) sb s).2 count
       else .ok ((xsgetn_copy (count - s.length) sb s).2, (xsgetn_copy (count - s.length) sb s).1, ch) := by
  cases fuel with
  | zero => omega
  | succ n => rfl

/-- C1 at a failing input: the channel hands over the 18432 bytes `D` in one
refill and then times out once.  Three `read_n` calls with counts 18432, 1
and 1 return `D`, nothing, and then the byte `D[2048]` a second time: the
empty refill has moved the cursor back to the put-back window and left the
fill end where it was.  The bytes returned are not a prefix of the bytes
the channel produced. -/
theorem read_n_repeats_after_empty_refill (D : List Nat) (hD : D.length = isize) :
    read_seq [isize, 1, 1] (inbuf (List.replicate isize 0) 0 0 0)
        (inchan [RecvEvent.data D, RecvEvent.timeout] [])
      = .ok ([D, [], [D.getD putback 0]],
          inbuf (writeAt D 0 ((D.drop (isize - putback)).take putback)) (putback + 1) isize isize,
          inchan [] D)
    ∧ ¬ (List.flatten [D, [], [D.getD putback 0]] <+: (inchan [] D).delivered) := by
  have hi := isize_val
  have hp := putback_val
  have hne : (0:Nat) ≠ isize := by omega
  have hne2 : isize ≠ 0 := by omega
  have hmod : isize % 2 ^ 32 = isize := by omega
  have hDne : D ≠ [] := by
    intro h; rw [h] at hD; simp at hD; omega
  have h1 : xsgetn (inbuf (List.replicate isize 0) 0 0 0)
        (inchan [RecvEvent.data D, RecvEvent.timeout] []) isize
      = .ok (D, inbuf D isize isize isize, inchan [RecvEvent.timeout] D) := by
    unfold xsgetn
    rw [xsgetn_loop_step _ (by omega)]
    rw [xsgetn_copy_inbuf _ _ _ _ _ _ (le_refl _) (Nat.zero_le _)]
    simp only [List.length_nil, Nat.sub_zero, Nat.min_zero, Nat.add_zero, List.take_zero,
      List.append_nil, ne_eq, hne, not_false_eq_true, if_true]
    rw [underflow_inbuf_fill _ _ _ D _ _ (by omega) hDne (by omega)]
    simp only [natCast_ne_eof, if_false, Nat.zero_add, hD, hmod, List.nil_append,
      writeAt_zero_full (List.replicate isize 0) D (by simp [hD])]
    rw [xsgetn_loop_step _ (by omega)]
    rw [xsgetn_copy_inbuf _ _ _ _ _ _ (Nat.zero_le _) (by omega)]
    simp [hD]
  have h2 : xsgetn (inbuf D isize isize isize) (inchan [RecvEvent.timeout] D) 1
      = .ok ([], inbuf (writeAt D 0 ((D.drop (isize - putback)).take putback)) putback isize isize,
          inchan [] D) := by
    unfold xsgetn
    rw [xsgetn_loop_step _ (by omega)]
    rw [xsgetn_copy_inbuf _ _ _ _ _ _ (le_refl _) (by omega)]
    simp only [List.length_nil, Nat.sub_zero, Nat.sub_self, Nat.min_zero, Nat.add_zero,
      List.take_zero, List.append_nil, ne_eq, not_false_eq_true, if_true, zero_ne_one]
    rw [underflow_inbuf_full_timeout]
    simp
  have h3 : xsgetn (inbuf (writeAt D 0 ((D.drop (isize - putback)).take putback)) putback isize isize)
        (inchan [] D) 1
      = .ok ([D.getD putback 0],
          inbuf (writeAt D 0 ((D.drop (isize - putback)).take putback)) (putback + 1) isize isize,
          inchan [] D) := by
    unfold xsgetn
    rw [xsgetn_loop_step _ (by omega)]
    have hwl : (writeAt D 0 ((D.drop (isize - putback)).take putback)).length = isize := by
      simp [writeAt]; omega
    rw [xsgetn_copy_inbuf _ _ _ _ _ _ (by omega) (by omega)]
    have hm : min (1 - ([] : List Nat).length) (isize - putback) = 1 := by
      simp; omega
    rw [hm]
    have hX : ((D.drop (isize - putback)).take putback).length = putback := by
      simp; omega
    have hdrop : (writeAt D 0 ((D.drop (isize - putback)).take putback)).drop putback
        = D.drop putback := by
      unfold writeAt
      rw [hX, List.take_zero, List.nil_append, Nat.zero_add]
      rw [List.drop_append_of_le_length (by omega)]
      rw [List.drop_of_length_le (by omega), List.nil_append]
    have hlt : putback < D.length := by omega
    have ht : List.take 1 (List.drop putback D) = [D.getD putback 0] := by
      rw [List.drop_eq_getElem_cons hlt, List.getD_eq_getElem _ _ hlt]
      rfl
    have hz : ¬ (D.length - putback = 0) := by omega
    rw [hdrop, ht]
    simp [hz]
  refine ⟨?_, ?_⟩
  · simp only [read_seq, h1, h2, h3]
  · intro hpre
    have := hpre.length_le
    simp [inchan] at this

theorem xsputn_copy_full : ∀ (rest : List Nat) (sb : gstreambuf),
    sb.ocur ≤ osize → osize - sb.ocur < rest.length →
    (xsputn_copy rest sb).1.ocur = osize ∧ 0 < (xsputn_copy rest sb).2.length
      ∧ (xsputn_copy rest sb).2.length ≤ rest.length := by
  intro rest
  induction rest with
  | nil => intro sb _ h; simp at h
  | cons c cs ih =>
    intro sb h1 h2
    unfold xsputn_copy
    by_cases hc : sb.ocur = osize
    · simp [hc]
    · simp only [ne_eq, hc, not_false_eq_true, if_true]
      have hlt : sb.ocur < osize := lt_of_le_of_ne h1 hc
      simp only [List.length_cons] at h2
      have := ih { sb with obuffer := sb.obuffer.set sb.ocur c, ocur := sb.ocur + 1 }
        (by simpa using hlt) (by simp only; omega)
      refine ⟨this.1, this.2.1, ?_⟩
      simp only [List.length_cons]
      omega

theorem xsputn_loop_stuck (ch : Channel) (count : Nat) : ∀ (fuel : Nat) (sb : gstreambuf)
    (rest : List Nat), sb.ocur ≤ osize → osize - sb.ocur < rest.length → rest.length ≤ count →
    xsputn_loop fuel sb ch rest count = .error Exc.unfinished := by
  intro fuel
  induction fuel with
  | zero => intro sb rest _ _ _; rfl
  | succ n ih =>
    intro sb rest h1 h2 h3
    obtain ⟨ha, hb, hc⟩ := xsputn_copy_full rest sb h1 h2
    unfold xsputn_loop
    have hne : count - (xsputn_copy rest sb).2.length ≠ count := by omega
    simp only [ne_eq, hne, not_false_eq_true, if_true, overflow]
    have h0 : ((0:Int) = eof) = False := by simp [eof]
    simp only [h0, if_false]
    exact ih _ _ (by omega) (by omega) (by omega)

/-- C2 at its failing inputs: on a bound stream, `write_n` of more bytes
than the output buffer has room for never returns, whatever the channel
does: once the buffer is full every pass of the outer loop calls
`overflow()` with its default argument, which returns 0 without flushing,
so no bound on the number of passes is enough. -/
theorem xsputn_never_returns (fuel : Nat) (sb : gstreambuf) (ch : Channel) (s : List Nat)
    (hb : sb.bound = true) (ho : sb.ocur ≤ osize) (hn : osize - sb.ocur < s.length) :
    xsputn fuel sb ch s = .error Exc.unfinished := by
  unfold xsputn
  simp only [hb, Bool.not_true, Bool.false_eq_true, if_false]
  exact xsputn_loop_stuck ch _ fuel sb s ho hn (le_refl _)

theorem read_n_repeats_after_empty_refill_witness :
    (List.replicate isize 7).length = isize
    ∧ read_seq [isize, 1, 1] (inbuf (List.replicate isize 0) 0 0 0)
        (inchan [RecvEvent.data (List.replicate isize 7), RecvEvent.timeout] [])
      = .ok ([List.replicate isize 7, [], [(List.replicate isize 7).getD putback 0]],
          inbuf (writeAt (List.replicate isize 7) 0
            (((List.replicate isize 7).drop (isize - putback)).take putback))
            (putback + 1) isize isize,
          inchan [] (List.replicate isize 7)) :=
  ⟨List.length_replicate _ _,
    (read_n_repeats_after_empty_refill (List.replicate isize 7) (List.length_replicate _ _)).1⟩

theorem xsputn_never_returns_witness :
    xsputn 1000 (inbuf [] 0 0 0) (inchan [] []) (List.replicate (osize + 1) 0)
      = .error Exc.unfinished :=
  xsputn_never_returns 1000 (inbuf [] 0 0 0) (inchan [] []) (List.replicate (osize + 1) 0)
    rfl (Nat.zero_le _) (by simp [inbuf])

/-! ## Theorems: gconnection and the standard library -/

theorem str_colon_space : str ": " = [58, 32] := by decide
theorem str_crlf : str "\r\n" = [13, 10] := by decide
theorem str_space : str " " = [32] := by decide

theorem gconnection.get_cons (con : gconnection) (c : Nat) (rest : Str)
    (hg : con.good = true) (hi : con.input = c :: rest) :
    con.get = .ok ((c : Nat), { con with input := rest }) := by
  simp [gconnection.get, hg, hi]

theorem gconnection.read_append (con : gconnection) (d rest : Str)
    (hg : con.good = true) (hi : con.input = d ++ rest) :
    con.read d.length = .ok (d, { con with input := rest }) := by
  simp [gconnection.read, hg, hi]

theorem gconnection.ignore_append (con : gconnection) (d rest : Str)
    (hg : con.good = true) (hi : con.input = d ++ rest) :
    con.ignore d.length = .ok { con with input := rest } := by
  simp [gconnection.ignore, gconnection.read_append con d rest hg hi]

/-- One pass of the loop of `getCRLF` on a stream that has a character. -/
theorem gconnection.getCRLF_loop_step (fuel : Nat) (con : gconnection) (c : Nat) (rest : Str)
    (rfound : Bool) (s : Str) (hg : con.good = true) (hi : con.input = c :: rest) :
    gconnection.getCRLF_loop (fuel + 1) con rfound s =
      if rfound = true then
        if c = 10 then .ok ({ con with input := rest }, s.dropLast)
        else gconnection.getCRLF_loop fuel { con with input := rest } false (s ++ [c])
      else if c = 13 then gconnection.getCRLF_loop fuel { con with input := rest } true (s ++ [c])
      else gconnection.getCRLF_loop fuel { con with input := rest } false (s ++ [c]) := by
  rw [gconnection.getCRLF_loop, gconnection.get_cons con c rest hg hi]
  have e1 : (((c : Nat) : Int) = eof) = False := natCast_ne_eof c
  have e2 : (((c : Nat) : Int) = 10) = (c = 10) := by
    apply propext
    constructor
    · intro h; exact_mod_cast h
    · intro h; rw [h]; rfl
  have e3 : (((c : Nat) : Int) = 13) = (c = 13) := by
    apply propext
    constructor
    · intro h; exact_mod_cast h
    · intro h; rw [h]; rfl
  have e4 : ((c : Nat) : Int).toNat = c := by simp
  simp only [e1, e2, e3, e4, if_false]
  cases rfound <;> simp

/-- A line without CR, followed by CR LF: `getCRLF` appends the line and
leaves the stream right after the CR LF. -/
theorem gconnection.getCRLF_loop_line (rest : Str) : ∀ (line : Str) (fuel : Nat)
    (con : gconnection) (s : Str),
    13 ∉ line → con.good = true → con.input = line ++ 13 :: 10 :: rest →
    line.length + 2 ≤ fuel →
    gconnection.getCRLF_loop fuel con false s = .ok ({ con with input := rest }, s ++ line) := by
  intro line
  induction line with
  | nil =>
    intro fuel con s _ hg hi hf
    obtain ⟨f1, rfl⟩ : ∃ f1, fuel = f1 + 1 + 1 := ⟨fuel - 2, by simp at hf; omega⟩
    simp only [List.nil_append] at hi
    rw [gconnection.getCRLF_loop_step _ con 13 (10 :: rest) _ _ hg hi]
    simp only [Bool.false_eq_true, if_false, if_true]
    rw [gconnection.getCRLF_loop_step _ { con with input := 10 :: rest } 10 rest _ _ hg rfl]
    simp
  | cons c t ih =>
    intro fuel con s hn hg hi hf
    obtain ⟨f1, rfl⟩ : ∃ f1, fuel = f1 + 1 := ⟨fuel - 1, by simp at hf; omega⟩
    have hc : c ≠ 13 := fun h => hn (by simp [h])
    have ht : 13 ∉ t := fun h => hn (by simp [h])
    rw [gconnection.getCRLF_loop_step _ con c (t ++ 13 :: 10 :: rest) _ _ hg (by simpa using hi)]
    simp only [Bool.false_eq_true, if_false, hc]
    rw [ih f1 { con with input := t ++ 13 :: 10 :: rest } (s ++ [c]) ht hg rfl
      (by simp at hf ⊢; omega)]
    simp

theorem gconnection.getCRLF_line (con : gconnection) (line rest s : Str)
    (hn : 13 ∉ line) (hg : con.good = true) (hi : con.input = line ++ 13 :: 10 :: rest) :
    con.getCRLF s = .ok ({ con with input := rest }, s ++ line) := by
  unfold gconnection.getCRLF
  exact gconnection.getCRLF_loop_line rest line _ con s hn hg hi (by simp [hi])

theorem findChar_append (c : Nat) : ∀ (k t : Str), c ∉ k →
    findChar c (k ++ c :: t) = some k.length := by
  intro k
  induction k with
  | nil => intro t _; simp [findChar]
  | cons x k ih =>
    intro t h
    have hx : x ≠ c := fun e => h (by simp [e])
    have hk : c ∉ k := fun e => h (by simp [e])
    simp [findChar, hx, ih t hk]

theorem digitVal_digitChar (d : Nat) (h : d < 16) : digitVal (digitChar d) = some d := by
  unfold digitChar digitVal
  by_cases h10 : d < 10
  · have h1 : 48 ≤ 48 + d ∧ 48 + d ≤ 57 := by omega
    simp [h10, h1]
  · have h1 : ¬ (48 ≤ 87 + d ∧ 87 + d ≤ 57) := by omega
    have h2 : 97 ≤ 87 + d ∧ 87 + d ≤ 122 := by omega
    simp only [h10, if_false, h1, h2, and_self, if_true, Option.some.injEq]
    omega

theorem digitChar_range (d : Nat) (h : d < 16) :
    (48 ≤ digitChar d ∧ digitChar d ≤ 57) ∨ (97 ≤ digitChar d ∧ digitChar d ≤ 102) := by
  unfold digitChar
  by_cases h10 : d < 10
  · simp only [h10, if_true]; omega
  · simp only [h10, if_false]; omega

theorem readDigits_map (base : Nat) (hb : base ≤ 16) : ∀ (L : List Nat) (acc : Nat) (seen : Bool),
    (∀ d ∈ L, d < base) →
    readDigits base (L.map digitChar) acc seen
      = (L.foldl (fun a d => a * base + d) acc, seen || !L.isEmpty) := by
  intro L
  induction L with
  | nil => intro acc seen _; simp [readDigits]
  | cons d t ih =>
    intro acc seen h
    have hd : d < base := h d (by simp)
    simp only [List.map_cons, readDigits, digitVal_digitChar d (by omega), hd, if_true,
      List.foldl_cons]
    rw [ih _ _ (fun x hx => h x (by simp [hx]))]
    simp

/-- `stoi` on a non-empty run of digits of the base whose value fits an
`int`. -/
theorem stoi_digits (base : Nat) (hb : base = 10 ∨ base = 16) (L : List Nat) (hne : L ≠ [])
    (hL : ∀ d ∈ L, d < base) (hv : L.foldl (fun a d => a * base + d) 0 < 2 ^ 31) :
    stoi (L.map digitChar) base = .ok ((L.foldl (fun a d => a * base + d) 0 : Nat) : Int) := by
  have hb16 : base ≤ 16 := by omega
  obtain ⟨d, t, rfl⟩ := List.exists_cons_of_ne_nil hne
  have hd : d < 16 := by have := hL d (by simp); omega
  have hr := digitChar_range d hd
  have hsp : isspace (digitChar d) = false := by
    unfold isspace
    rcases hr with hr | hr <;> simp <;> omega
  have h45 : digitChar d ≠ 45 := by omega
  have h43 : digitChar d ≠ 43 := by omega
  have hpre : (((digitChar d :: t.map digitChar).tail.head? == some 120
      || (digitChar d :: t.map digitChar).tail.head? == some 88)) = false := by
    cases t with
    | nil => simp
    | cons e t2 =>
      have he : e < 16 := by have := hL e (by simp); omega
      have hr2 := digitChar_range e he
      have h120 : digitChar e ≠ 120 := by omega
      have h88 : digitChar e ≠ 88 := by omega
      simp [h120, h88]
  unfold stoi
  simp only [List.map_cons, List.dropWhile_cons, hsp, Bool.false_eq_true, if_false, List.head?_cons]
  have e45 : (some (digitChar d) == some 45) = false := by simp [h45]
  have e43 : (some (digitChar d) == some 43) = false := by simp [h43]
  simp only [e45, e43, Bool.or_self, Bool.false_eq_true, if_false, hpre, Bool.and_false,
    Bool.false_and]
  have := readDigits_map base hb16 (d :: t) 0 false hL
  simp only [List.map_cons] at this
  rw [this]
  simp only [List.isEmpty_cons, Bool.not_false, Bool.or_true, Bool.not_true, Bool.false_eq_true,
    if_false]
  have hv' : ¬ (((List.foldl (fun a d => a * base + d) 0 (d :: t) : Nat) : Int) < -(2 ^ 31)
      ∨ ((List.foldl (fun a d => a * base + d) 0 (d :: t) : Nat) : Int) > 2 ^ 31 - 1) := by
    push_cast
    omega
  simp only [hv', if_false]

theorem foldl_digits_reverse (base : Nat) (L : List Nat) :
    L.reverse.foldl (fun a d => a * base + d) 0 = Nat.ofDigits base L := by
  induction L with
  | nil => simp [Nat.ofDigits]
  | cons d t ih =>
    simp only [List.reverse_cons, List.foldl_append, List.foldl_cons, List.foldl_nil, ih,
      Nat.ofDigits_cons]
    ring

/-- `stoi` reads back the numeral of a number that fits an `int`. -/
theorem stoi_numeral (base : Nat) (hb : base = 10 ∨ base = 16) (n : Nat) (hn : n < 2 ^ 31) :
    stoi (numeral base n) base = .ok (n : Int) := by
  have hb2 : 1 < base := by omega
  unfold numeral
  by_cases h0 : n = 0
  · subst h0
    have := stoi_digits base hb [0] (by simp) (by intro d hd; simp at hd; omega) (by simp)
    simpa [digitChar] using this
  · simp only [h0, if_false]
    have hval : (Nat.digits base n).reverse.foldl (fun a d => a * base + d) 0 = n := by
      rw [foldl_digits_reverse, Nat.ofDigits_digits]
    have := stoi_digits base hb (Nat.digits base n).reverse
      (by simpa using (Nat.digits_ne_nil_iff_ne_zero.mpr h0))
      (by intro d hd; exact Nat.digits_lt_base hb2 (by simpa using hd))
      (by rw [hval]; exact hn)
    rw [hval] at this
    exact this

/-! ### Reading leaves the open state alone -/

theorem gconnection.fail_connected (con c : gconnection) (h : con.fail = .ok c) :
    c.connected = con.connected := by
  unfold gconnection.fail at h
  split at h
  · cases h
  · cases h; rfl

theorem gconnection.get_connected (con : gconnection) (c : Int) (con1 : gconnection)
    (h : con.get = .ok (c, con1)) : con1.connected = con.connected := by
  unfold gconnection.get at h
  split at h
  · split at h
    · cases h
    · rename_i c2 hf
      cases h
      exact gconnection.fail_connected _ _ hf
  · split at h
    · split at h
      · cases h
      · rename_i c2 hf
        cases h
        exact gconnection.fail_connected _ _ hf
    · cases h; rfl

theorem gconnection.read_connected (con : gconnection) (n : Nat) (d : Str) (con1 : gconnection)
    (h : con.read n = .ok (d, con1)) : con1.connected = con.connected := by
  unfold gconnection.read at h
  split at h
  · split at h
    · cases h
    · rename_i c2 hf
      cases h
      exact gconnection.fail_connected _ _ hf
  · split at h
    · cases h; rfl
    · split at h
      · cases h
      · rename_i c2 hf
        cases h
        have := gconnection.fail_connected _ _ hf
        exact this

theorem gconnection.ignore_connected (con : gconnection) (n : Nat) (con1 : gconnection)
    (h : con.ignore n = .ok con1) : con1.connected = con.connected := by
  unfold gconnection.ignore at h
  split at h
  · cases h
  · rename_i d c2 hr
    cases h
    exact gconnection.read_connected _ _ _ _ hr

theorem gconnection.getCRLF_loop_connected : ∀ (fuel : Nat) (con : gconnection) (rfound : Bool)
    (s : Str) (con1 : gconnection) (s1 : Str),
    gconnection.getCRLF_loop fuel con rfound s = .ok (con1, s1) →
    con1.connected = con.connected := by
  intro fuel
  induction fuel with
  | zero => intro con rfound s con1 s1 h; cases h
  | succ n ih =>
    intro con rfound s con1 s1 h
    unfold gconnection.getCRLF_loop at h
    split at h
    · cases h
    · rename_i c c2 hget
      have hc := gconnection.get_connected _ _ _ hget
      split_ifs at h
      · cases h; exact hc
      · cases h; exact hc
      · rw [ih _ _ _ _ _ h, hc]
      · rw [ih _ _ _ _ _ h, hc]
      · rw [ih _ _ _ _ _ h, hc]

theorem gconnection.getCRLF_connected (con : gconnection) (s : Str) (con1 : gconnection)
    (s1 : Str) (h : con.getCRLF s = .ok (con1, s1)) : con1.connected = con.connected :=
  gconnection.getCRLF_loop_connected _ _ _ _ _ _ h

/-! ### The header map -/

theorem map_find_set_same : ∀ (h : StrMap) (k v : Str), map_find (map_set h k v) k = some v := by
  intro h
  induction h with
  | nil => intro k v; simp [map_set, map_find]
  | cons p t ih =>
    intro k v
    obtain ⟨k1, v1⟩ := p
    unfold map_set
    split_ifs with h1 h2
    · simp [map_find]
    · simp [map_find]
    · simp [map_find, h1, ih]

theorem map_find_set_other : ∀ (h : StrMap) (k v k2 : Str), k ≠ k2 →
    map_find (map_set h k v) k2 = map_find h k2 := by
  intro h
  induction h with
  | nil => intro k v k2 hne; simp [map_set, map_find, hne]
  | cons p t ih =>
    intro k v k2 hne
    obtain ⟨k1, v1⟩ := p
    unfold map_set
    split_ifs with h1 h2
    · subst h1; simp [map_find, hne]
    · simp [map_find, hne]
    · by_cases h3 : k1 = k2
      · simp [map_find, h3]
      · simp [map_find, h3, ih k v k2 hne]

theorem numeral_no_cr (base n : Nat) : 13 ∉ numeral base n := by
  unfold numeral
  split_ifs
  · simp
  · intro h
    simp only [List.mem_map] at h
    obtain ⟨d, _, hd⟩ := h
    unfold digitChar at hd
    split_ifs at hd <;> omega

theorem findChar_exists (c : Nat) : ∀ (k t : Str),
    ∃ i, findChar c (k ++ c :: t) = some i ∧ i ≤ k.length := by
  intro k
  induction k with
  | nil => intro t; exact ⟨0, by simp [findChar], le_refl _⟩
  | cons x k ih =>
    intro t
    by_cases hx : x = c
    · exact ⟨0, by simp [findChar, hx], Nat.zero_le _⟩
    · obtain ⟨i, hi, hle⟩ := ih t
      exact ⟨i + 1, by simp [findChar, hx, hi], by simp; omega⟩

/-! ## Theorems: inet::http -/

namespace http

theorem store_header_line (p : Str × Str) (h : StrMap) (hk : 58 ∉ p.1) :
    store_header (header_line p) h = .ok (map_set h p.1 p.2) := by
  unfold store_header header_line
  have hf : findChar 58 (p.1 ++ [58, 32] ++ p.2) = some p.1.length := by
    have := findChar_append 58 p.1 (32 :: p.2) hk
    simpa using this
  rw [hf]
  have h2 : ¬ (List.length p.2 + 1 + 1 < 2) := by omega
  simp [substr, h2]

theorem header_line_ne_nil (p : Str × Str) : (header_line p).length ≠ 0 := by
  simp [header_line]

/-- The header loop on a block of well-formed lines followed by an empty
line: it stops right after the empty line, the lines stored in order. -/
theorem read_headers_block (rest : Str) : ∀ (hs : List (Str × Str)) (fuel : Nat)
    (con : gconnection) (h : StrMap),
    (∀ p ∈ hs, 58 ∉ p.1 ∧ 13 ∉ p.1 ∧ 13 ∉ p.2) → con.good = true →
    con.input = header_block hs ++ crlf ++ rest → hs.length + 1 ≤ fuel →
    read_headers fuel con h = .ok ({ con with input := rest }, stored h hs) := by
  intro hs
  induction hs with
  | nil =>
    intro fuel con h _ hg hi hf
    obtain ⟨f1, rfl⟩ : ∃ f1, fuel = f1 + 1 := ⟨fuel - 1, by simp at hf; omega⟩
    rw [read_headers, gconnection.getCRLF_line con [] rest [] (by simp) hg
      (by simpa [header_block, crlf] using hi)]
    simp [stored]
  | cons p t ih =>
    intro fuel con h hw hg hi hf
    obtain ⟨f1, rfl⟩ : ∃ f1, fuel = f1 + 1 := ⟨fuel - 1, by simp at hf; omega⟩
    have hp := hw p (by simp)
    have hline : 13 ∉ header_line p := by
      simp [header_line, hp.2.1, hp.2.2]
    rw [read_headers, gconnection.getCRLF_line con (header_line p)
      (header_block t ++ crlf ++ rest) [] hline hg
      (by simpa [header_block, crlf, List.append_assoc] using hi)]
    simp only [List.nil_append, header_line_ne_nil, if_false, store_header_line p h hp.1]
    rw [ih f1 { con with input := header_block t ++ crlf ++ rest } (map_set h p.1 p.2)
      (fun q hq => hw q (by simp [hq])) hg rfl (by simp at hf ⊢; omega)]
    simp [stored]

theorem parse_version_status_line (v : version_e) (d1 d2 d3 : Nat) (reason : Str) :
    parse_version (status_line v d1 d2 d3 reason) = .ok v := by
  cases v <;> simp [parse_version, status_line, version_chars, strAt]

/-- The status-line step on a well-formed status line. -/
theorem parse_status_line (v : version_e) (d1 d2 d3 : Nat) (reason : Str) (r : response)
    (h1 : d1 < 10) (h2 : d2 < 10) (h3 : d3 < 10) :
    parse_status (status_line v d1 d2 d3 reason) r
      = .ok { r with version := v, status := ((d1 * 100 + d2 * 10 + d3 : Nat) : Int),
                     reasonphrase := reason } := by
  unfold parse_status
  rw [parse_version_status_line]
  have hs : substr (status_line v d1 d2 d3 reason) 9 (some 3) = .ok ([d1, d2, d3].map digitChar) := by
    simp [substr, status_line, digitChar, h1, h2, h3]
  have hr : substr (status_line v d1 d2 d3 reason) 13 none = .ok reason := by
    simp [substr, status_line]
  have hst := stoi_digits 10 (Or.inl rfl) [d1, d2, d3] (by simp)
    (by intro d hd; simp at hd; rcases hd with h | h | h <;> omega)
    (by simp only [List.foldl_cons, List.foldl_nil]; omega)
  simp only [hs, hr, hst, List.foldl_cons, List.foldl_nil]
  have : (0 * 10 + d1) * 10 + d2 = d1 * 10 + d2 := by omega
  have e : ((0 * 10 + d1) * 10 + d2) * 10 + d3 = d1 * 100 + d2 * 10 + d3 := by omega
  rw [e]

theorem status_line_no_cr (v : version_e) (d1 d2 d3 : Nat) (reason : Str)
    (h1 : d1 < 10) (h2 : d2 < 10) (h3 : d3 < 10) (hr : 13 ∉ reason) :
    13 ∉ status_line v d1 d2 d3 reason := by
  have h4 : 13 ≠ 48 + d1 := by omega
  have h5 : 13 ≠ 48 + d2 := by omega
  have h6 : 13 ≠ 48 + d3 := by omega
  cases v <;> simp [status_line, version_chars, hr, h4, h5, h6]

theorem header_block_length (hs : List (Str × Str)) : hs.length ≤ (header_block hs).length := by
  induction hs with
  | nil => simp
  | cons p t ih => simp [header_block, header_line, crlf]; omega

/-- On a well-formed head, `retrieve` reaches the body part with the
stream right after the empty line and the head stored in the response. -/
theorem retrieve_head (cl : client) (r : response) (m : method_e) (hd : Head) (rest : Str)
    (hwf : hd.wf) (hm : cl.rstack.getLast? = some m) (hg : cl.con.good = true)
    (hi : cl.con.input = hd.wire ++ rest) :
    cl.retrieve r = cl.retrieve_tail m
      { cl.con with input := rest, readlimit := some (8 * 1024) }
      { r with version := hd.version, status := hd.status, reasonphrase := hd.reason,
               header := stored r.header hd.lines } := by
  obtain ⟨h1, h2, h3, hr, hl⟩ := hwf
  unfold client.retrieve
  simp only [hm]
  rw [gconnection.getCRLF_line (cl.con.enable_read_limit (8 * 1024))
    (status_line hd.version hd.d1 hd.d2 hd.d3 hd.reason)
    (header_block hd.lines ++ crlf ++ rest) []
    (status_line_no_cr _ _ _ _ _ h1 h2 h3 hr) hg
    (by simp [gconnection.enable_read_limit, hi, Head.wire, crlf, List.append_assoc])]
  simp only [List.nil_append, parse_status_line _ _ _ _ _ _ h1 h2 h3]
  rw [read_headers_block rest hd.lines _
    { cl.con.enable_read_limit (8 * 1024) with input := header_block hd.lines ++ crlf ++ rest }
    r.header hl hg rfl
    (by have := header_block_length hd.lines; simp; omega)]
  rfl

theorem write_mk (i p o : Str) (e : Bool) (t r : Option Nat) (s : Str) :
    gconnection.write ⟨i, p, o, true, true, e, t, r⟩ s
      = if p.length + s.length ≤ osize then .ok ⟨i, p ++ s, o, true, true, e, t, r⟩
        else .error Exc.unfinished := by
  simp [gconnection.write]

theorem write_fits (i p o : Str) (e : Bool) (t r : Option Nat) (s : Str)
    (h : p.length + s.length ≤ osize) :
    gconnection.write ⟨i, p, o, true, true, e, t, r⟩ s = .ok ⟨i, p ++ s, o, true, true, e, t, r⟩ := by
  rw [write_mk, if_pos h]

/-- The header loop of `send` writes the header block when it fits into
the output buffer with what is pending, and never returns when it does
not. -/
theorem send_headers_mk : ∀ (hs : StrMap) (i p o : Str) (e : Bool) (t r : Option Nat),
    p.length ≤ osize →
    send_headers hs ⟨i, p, o, true, true, e, t, r⟩
      = if p.length + (header_block hs).length ≤ osize then
          .ok ⟨i, p ++ header_block hs, o, true, true, e, t, r⟩
        else .error Exc.unfinished := by
  intro hs
  induction hs with
  | nil =>
    intro i p o e t r h
    simp [send_headers, header_block, h]
  | cons q tl ih =>
    intro i p o e t r hp
    obtain ⟨k, v⟩ := q
    have hlen : (header_block ((k, v) :: tl)).length
        = k.length + 2 + v.length + 2 + (header_block tl).length := by
      simp [header_block, header_line, crlf]; omega
    have h2 : (str ": ").length = 2 := rfl
    have h3 : (str "\r\n").length = 2 := rfl
    have hb : header_block ((k, v) :: tl) = k ++ str ": " ++ v ++ str "\r\n" ++ header_block tl := by
      simp [header_block, header_line, crlf, str_colon_space, str_crlf, List.append_assoc]
    rw [hlen, hb]
    unfold send_headers
    rw [write_mk]
    by_cases c1 : p.length + k.length ≤ osize
    · rw [if_pos c1]
      simp only []
      rw [write_mk, List.length_append, h2]
      by_cases c2 : p.length + k.length + 2 ≤ osize
      · rw [if_pos c2]
        simp only []
        rw [write_mk, List.length_append, List.length_append, h2]
        by_cases c3 : p.length + k.length + 2 + v.length ≤ osize
        · rw [if_pos c3]
          simp only []
          rw [write_mk, List.length_append, List.length_append, List.length_append, h2, h3]
          by_cases c4 : p.length + k.length + 2 + v.length + 2 ≤ osize
          · rw [if_pos c4]
            simp only []
            rw [ih _ _ _ _ _ _ (by simp only [List.length_append, h2, h3]; omega)]
            simp only [List.length_append, h2, h3]
            by_cases c5 : p.length + k.length + 2 + v.length + 2 + (header_block tl).length
                ≤ osize
            · rw [if_pos c5, if_pos (by omega)]
              simp only [List.append_assoc]
            · rw [if_neg c5, if_neg (by omega)]
          · rw [if_neg c4, if_neg (by omega)]
        · rw [if_neg c3, if_neg (by omega)]
      · rw [if_neg c2, if_neg (by omega)]
    · rw [if_neg c1, if_neg (by omega)]

/-- What `send` does on an open connection in good state: the request is
written and flushed when it fits into the output buffer with what is
pending; otherwise one of the writes never returns. -/
theorem send_mk (host : Str) (enc : Bool) (i p o : Str) (e : Bool) (t r : Option Nat)
    (rstack : List method_e) (m : message) :
    client.send ⟨host, enc, ⟨i, p, o, true, true, e, t, r⟩, rstack⟩ m
      = if p.length + (to_string m.method ++ [32] ++ m.resource ++ [32] ++ str "HTTP/1.1" ++ crlf
            ++ header_block m.header ++ crlf
            ++ (if m.bsize > 0 then m.body.getD [] else [])).length ≤ osize then
          .ok ⟨host, enc, ⟨i, [], o ++ (p ++
            (to_string m.method ++ [32] ++ m.resource ++ [32] ++ str "HTTP/1.1" ++ crlf
              ++ header_block m.header ++ crlf
              ++ (if m.bsize > 0 then m.body.getD [] else []))), true, true, e, t, r⟩,
            rstack ++ [m.method]⟩
        else .error Exc.unfinished := by
  have hcl : to_string m.method ++ str " " ++ m.resource ++ str " " ++ str "HTTP/1.1\r\n"
      = to_string m.method ++ [32] ++ m.resource ++ [32] ++ str "HTTP/1.1" ++ crlf := by
    have : str "HTTP/1.1\r\n" = str "HTTP/1.1" ++ crlf := by decide
    rw [this, str_space]
    simp only [List.append_assoc]
  have h3 : str "\r\n" = crlf := by decide
  have hc2 : crlf.length = 2 := rfl
  unfold client.send
  simp only [gconnection.is_open, Bool.not_true, Bool.false_eq_true, if_false]
  rw [hcl, h3, write_mk]
  generalize to_string m.method ++ [32] ++ m.resource ++ [32] ++ str "HTTP/1.1" ++ crlf = line
  by_cases c1 : p.length + line.length ≤ osize
  · rw [if_pos c1]
    simp only []
    rw [send_headers_mk _ _ _ _ _ _ _ (by rw [List.length_append]; exact c1),
      List.length_append]
    by_cases c2 : p.length + line.length + (header_block m.header).length ≤ osize
    · rw [if_pos c2]
      simp only []
      rw [write_mk, List.length_append, List.length_append, hc2]
      by_cases c3 : p.length + line.length + (header_block m.header).length + 2 ≤ osize
      · rw [if_pos c3]
        simp only []
        by_cases hb : m.bsize > 0
        · simp only [hb, if_true]
          rw [write_mk]
          simp only [List.length_append, hc2]
          by_cases c4 : p.length + line.length + (header_block m.header).length + 2
              + (m.body.getD []).length ≤ osize
          · rw [if_pos c4, if_pos (by omega)]
            simp [gconnection.flush, List.append_assoc]
          · rw [if_neg c4, if_neg (by omega)]
        · simp only [hb, if_false, List.length_append, hc2, List.length_nil, Nat.add_zero]
          rw [if_pos (by omega)]
          simp [gconnection.flush, List.append_assoc]
      · rw [if_neg c3, if_neg (by simp only [List.length_append, hc2]; omega)]
    · rw [if_neg c2, if_neg (by simp only [List.length_append, hc2]; omega)]
  · rw [if_neg c1, if_neg (by simp only [List.length_append, hc2]; omega)]

/-- On an open connection `send` of a request that fits into the output
buffer with what is pending hands to the channel, after whatever was still
pending, exactly the request line `METHOD SP resource SP HTTP/1.1 CRLF`,
one line `Name: Value CRLF` per header of the message, an empty line and
the body bytes when the body size is not zero; nothing stays unflushed, and
the method is pushed on the pending-request stack, which grows by one
entry. -/
theorem send_writes_request (cl : client) (m : message) (ho : cl.con.connected = true)
    (hg : cl.con.good = true)
    (hroom : cl.con.pending.length
      + (to_string m.method ++ [32] ++ m.resource ++ [32] ++ str "HTTP/1.1" ++ crlf
          ++ header_block m.header ++ crlf
          ++ (if m.bsize > 0 then m.body.getD [] else [])).length ≤ osize) :
    ∃ cl1, cl.send m = .ok cl1
      ∧ cl1.con.output = cl.con.output ++ (cl.con.pending ++
          (to_string m.method ++ [32] ++ m.resource ++ [32] ++ str "HTTP/1.1" ++ crlf
            ++ header_block m.header ++ crlf ++ (if m.bsize > 0 then m.body.getD [] else [])))
      ∧ cl1.con.pending = []
      ∧ cl1.rstack = cl.rstack ++ [m.method]
      ∧ cl1.rstack.getLast? = some m.method
      ∧ cl1.rstack.length = cl.rstack.length + 1 := by
  obtain ⟨host, enc, con, rstack⟩ := cl
  obtain ⟨i, p, o, c, g, e, t, r⟩ := con
  simp only at ho hg hroom
  subst ho hg
  rw [send_mk host enc i p o e t r rstack m, if_pos hroom]
  exact ⟨_, rfl, rfl, rfl, rfl, by simp, by simp⟩

/-- C5 at its failing inputs: on an open connection in good state, a
request that does not fit into the output buffer with what is pending (the
request line, the header lines, the empty line and the body together, more
than 16384 bytes on an empty buffer) makes `send` hang: the write that
finds the buffer full with bytes left over never returns, so nothing is
flushed and no method is pushed. -/
theorem send_large_request_never_returns (cl : client) (m : message)
    (ho : cl.con.connected = true) (hg : cl.con.good = true)
    (hbig : osize < cl.con.pending.length
      + (to_string m.method ++ [32] ++ m.resource ++ [32] ++ str "HTTP/1.1" ++ crlf
          ++ header_block m.header ++ crlf
          ++ (if m.bsize > 0 then m.body.getD [] else [])).length) :
    cl.send m = .error Exc.unfinished := by
  obtain ⟨host, enc, con, rstack⟩ := cl
  obtain ⟨i, p, o, c, g, e, t, r⟩ := con
  simp only at ho hg hbig
  subst ho hg
  rw [send_mk host enc i p o e t r rstack m, if_neg (by omega)]

/-! ### What the loops of `retrieve` leave alone -/

theorem read_headers_connected : ∀ (fuel : Nat) (con : gconnection) (h : StrMap)
    (con1 : gconnection) (h1 : StrMap),
    read_headers fuel con h = .ok (con1, h1) → con1.connected = con.connected := by
  intro fuel
  induction fuel with
  | zero => intro con h con1 h1 e; cases e
  | succ n ih =>
    intro con h con1 h1 e
    unfold read_headers at e
    split at e
    · cases e
    · rename_i c2 s hget
      have hc := gconnection.getCRLF_connected _ _ _ _ hget
      split_ifs at e
      · cases e; exact hc
      · split at e
        · cases e
        · rw [ih _ _ _ _ e, hc]

theorem read_chunks_frame : ∀ (fuel : Nat) (con : gconnection) (footer : Bool) (r : response)
    (con1 : gconnection) (r1 : response),
    read_chunks fuel con footer r = .ok (con1, r1) →
    con1.connected = con.connected ∧ same_status r1 r := by
  intro fuel
  induction fuel with
  | zero => intro con footer r con1 r1 e; cases e
  | succ n ih =>
    intro con footer r con1 r1 e
    unfold read_chunks at e
    split at e
    · cases e
    · rename_i c2 s hget
      have hc := gconnection.getCRLF_connected _ _ _ _ hget
      split_ifs at e
      · cases e; exact ⟨hc, rfl, rfl, rfl⟩
      · split at e
        · cases e
        · split_ifs at e
          · have := ih _ _ _ _ _ e
            exact ⟨by rw [this.1, hc], this.2⟩
          · split at e
            · cases e
            · rename_i d c3 hread
              have hc3 := gconnection.read_connected _ _ _ _ hread
              split at e
              · cases e
              · rename_i c4 hign
                have hc4 := gconnection.ignore_connected _ _ _ hign
                have := ih _ _ _ _ _ e
                exact ⟨by rw [this.1, hc4, hc3, hc], this.2⟩
      · split at e
        · cases e
        · have := ih _ _ _ _ _ e
          exact ⟨by rw [this.1, hc], this.2⟩

theorem read_body_frame (con : gconnection) (r : response) (con1 : gconnection) (r1 : response)
    (e : read_body con r = .ok (con1, r1)) :
    con1.connected = con.connected ∧ same_status r1 r := by
  unfold read_body at e
  split_ifs at e
  · split at e
    · cases e
    · split_ifs at e
      · split at e
        · cases e
        · rename_i d c3 hread
          cases e
          exact ⟨gconnection.read_connected _ _ _ _ hread, rfl, rfl, rfl⟩
      · cases e; exact ⟨rfl, rfl, rfl, rfl⟩
  · exact read_chunks_frame _ _ _ _ _ _ e
  · cases e; exact ⟨rfl, rfl, rfl, rfl⟩

theorem body_step_frame (m : method_e) (con : gconnection) (r : response) (con1 : gconnection)
    (r1 : response) (e : body_step m con r = .ok (con1, r1)) :
    con1.connected = con.connected ∧ same_status r1 r := by
  unfold body_step at e
  split_ifs at e
  · exact read_body_frame _ _ _ _ e
  · cases e; exact ⟨rfl, rfl, rfl, rfl⟩

theorem retrieve_tail_status (cl : client) (m : method_e) (con2 : gconnection) (r2 : response)
    (cl1 : client) (r1 : response) (e : cl.retrieve_tail m con2 r2 = .ok (cl1, r1)) :
    same_status r1 r2 := by
  unfold client.retrieve_tail at e
  split_ifs at e
  · cases e; exact ⟨rfl, rfl, rfl⟩
  · split at e
    · cases e
    · rename_i con4 r3 hb
      have h3 := (body_step_frame _ _ _ _ _ hb).2
      split_ifs at e <;> (cases e; exact h3)

theorem retrieve_tail_close (cl : client) (m : method_e) (con2 : gconnection) (r2 : response)
    (cl1 : client) (r1 : response) (e : cl.retrieve_tail m con2 r2 = .ok (cl1, r1))
    (ho : con2.connected = true) (hs : r1.status ≠ 100) :
    if says_close r1 then cl1.con.connected = false ∧ cl1.rstack = []
    else cl1.con.connected = true ∧ cl1.rstack = cl.rstack.dropLast := by
  unfold client.retrieve_tail at e
  split_ifs at e with h100
  · cases e; exact absurd h100 hs
  · split at e
    · cases e
    · rename_i con4 r3 hb
      have h4 : con4.connected = true := by
        rw [(body_step_frame _ _ _ _ _ hb).1]; exact ho
      split_ifs at e with hclose
      · cases e
        simp only [hclose, if_true]
        simp [client.disconnect, gconnection.is_open, gconnection.close, h4]
      · cases e
        simp only [hclose, if_false]
        exact ⟨h4, trivial⟩

theorem stored_append (h : StrMap) (a b : List (Str × Str)) :
    stored h (a ++ b) = stored (stored h a) b := by
  simp [stored, List.foldl_append]

theorem map_find_stored_other (k : Str) : ∀ (post : List (Str × Str)) (h : StrMap),
    (∀ q ∈ post, q.1 ≠ k) → map_find (stored h post) k = map_find h k := by
  intro post
  induction post with
  | nil => intro h _; rfl
  | cons q t ih =>
    intro h hq
    have h1 : q.1 ≠ k := hq q (by simp)
    have : stored h (q :: t) = stored (map_set h q.1 q.2) t := rfl
    rw [this, ih _ (fun x hx => hq x (by simp [hx])), map_find_set_other _ _ _ _ h1]

/-- The value stored under a name is the value of the last line that
carries the name. -/
theorem map_find_stored_last (h : StrMap) (hs pre post : List (Str × Str)) (k v : Str)
    (he : hs = pre ++ (k, v) :: post) (hp : ∀ q ∈ post, q.1 ≠ k) :
    map_find (stored h hs) k = some v := by
  subst he
  rw [stored_append]
  have : stored (stored h pre) ((k, v) :: post) = stored (map_set (stored h pre) k v) post := rfl
  rw [this, map_find_stored_other k post _ hp, map_find_set_same]

theorem body_step_header (m : method_e) (con : gconnection) (r : response) (con1 : gconnection)
    (r1 : response) (e : body_step m con r = .ok (con1, r1))
    (hc : m = method_e.HEAD ∨ map_count r.header (str "Content-Length") = 1) :
    r1.header = r.header := by
  unfold body_step at e
  split_ifs at e with hm
  · have h1 : map_count r.header (str "Content-Length") = 1 := by
      rcases hc with hc | hc
      · exact absurd hc hm
      · exact hc
    unfold read_body at e
    simp only [h1, if_true] at e
    split at e
    · cases e
    · split_ifs at e
      · split at e
        · cases e
        · cases e; rfl
      · cases e; rfl
  · cases e; rfl

theorem dropLast_length_of_getLast (l : List method_e) (m : method_e)
    (h : l.getLast? = some m) : l.dropLast.length + 1 = l.length := by
  cases l with
  | nil => simp at h
  | cons a t => simp

/-- C9: for every response `retrieve` returns with a status other than 100
on an open connection: when its `Connection` header contains `close`, the
connection is closed and the pending-request stack is empty afterwards;
otherwise the connection stays open and exactly one entry, the last, has
been popped from the stack. -/
theorem retrieve_pops_or_closes (cl : client) (r : response) (cl1 : client) (r1 : response)
    (e : cl.retrieve r = .ok (cl1, r1)) (hs : r1.status ≠ 100)
    (ho : cl.con.connected = true) :
    if says_close r1 then cl1.con.connected = false ∧ cl1.rstack = []
    else cl1.con.connected = true ∧ cl1.rstack = cl.rstack.dropLast
      ∧ cl1.rstack.length + 1 = cl.rstack.length := by
  unfold client.retrieve at e
  split at e
  · cases e
  · rename_i m hm
    split at e
    · cases e
    · rename_i con1 s hget
      have hc1 := gconnection.getCRLF_connected _ _ _ _ hget
      split at e
      · cases e
      · split at e
        · cases e
        · rename_i con2 h hrd
          have hc2 := read_headers_connected _ _ _ _ _ hrd
          have ho2 : con2.connected = true := by
            rw [hc2, hc1]; exact ho
          have := retrieve_tail_close _ _ _ _ _ _ e ho2 hs
          split_ifs at this ⊢ with hcl
          · exact this
          · refine ⟨this.1, this.2, ?_⟩
            rw [this.2]
            exact dropLast_length_of_getLast _ _ hm

/-- The value stored under a name that some line carries satisfies what
the values of all lines with that name satisfy. -/
theorem map_find_stored_mem (k : Str) (P : Str → Prop) : ∀ (hs : List (Str × Str)) (h : StrMap),
    (∀ p ∈ hs, p.1 = k → P p.2) →
    ((∃ p ∈ hs, p.1 = k) ∨ ∃ v, map_find h k = some v ∧ P v) →
    ∃ v, map_find (stored h hs) k = some v ∧ P v := by
  intro hs
  induction hs with
  | nil =>
    intro h _ hex
    rcases hex with ⟨p, hp, _⟩ | hv
    · simp at hp
    · exact hv
  | cons q t ih =>
    intro h hall hex
    have hst : stored h (q :: t) = stored (map_set h q.1 q.2) t := rfl
    rw [hst]
    apply ih _ (fun p hp => hall p (by simp [hp]))
    by_cases hq : q.1 = k
    · right
      refine ⟨q.2, ?_, hall q (by simp) hq⟩
      rw [← hq, map_find_set_same]
    · rcases hex with ⟨p, hp, hpk⟩ | ⟨v, hv, hP⟩
      · simp only [List.mem_cons] at hp
        rcases hp with rfl | hp
        · exact absurd hpk hq
        · exact Or.inl ⟨p, hp, hpk⟩
      · right
        exact ⟨v, by rw [map_find_set_other _ _ _ _ hq]; exact hv, hP⟩

theorem resize_length (v : Str) (n : Nat) : (resize v n).length = n := by
  simp [resize]; omega

/-- The `Content-Length` branch: exactly `n` bytes become the body. -/
theorem read_body_content_length (con : gconnection) (r : response) (n : Nat)
    (body extra : Str) (hf : map_find r.header (str "Content-Length") = some (numeral 10 n))
    (hn : n < 2 ^ 31) (hg : con.good = true) (hb : body.length = n)
    (hi : con.input = body ++ extra) :
    read_body con r = .ok ({ con with input := extra }, { r with body := body }) := by
  unfold read_body
  have hc : map_count r.header (str "Content-Length") = 1 := by simp [map_count, hf]
  have ha : map_at r.header (str "Content-Length") = numeral 10 n := by simp [map_at, hf]
  simp only [hc, if_true, ha, stoi_numeral 10 (Or.inl rfl) n hn]
  by_cases h0 : n = 0
  · subst h0
    have hbn : body = [] := List.length_eq_zero.mp hb
    subst hbn
    simp only [List.nil_append] at hi
    simp only [Nat.cast_zero, gt_iff_lt, lt_self_iff_false, if_false]
    cases con
    simp only at hi
    subst hi
    rfl
  · have hpos : ((n : Nat) : Int) > 0 := by omega
    simp only [hpos, if_true, Int.toNat_ofNat]
    rw [← hb, gconnection.read_append con body extra hg hi]
    simp only
    rw [List.drop_of_length_le (by rw [resize_length])]
    simp

theorem store_header_ok (p : Str × Str) (h : StrMap) :
    ∃ h1, store_header (header_line p) h = .ok h1 := by
  obtain ⟨i, hi, hle⟩ := findChar_exists 58 p.1 (32 :: p.2)
  have hf : findChar 58 (header_line p) = some i := by
    simpa [header_line] using hi
  have hlen : ¬ (i + 2 > (header_line p).length) := by
    simp [header_line]; omega
  unfold store_header
  simp only [hf, substr, hlen, if_false, gt_iff_lt, Nat.not_lt_zero]
  exact ⟨_, rfl⟩

/-- The chunk loop on the trailer lines and the final empty line. -/
theorem read_chunks_trailers (rest : Str) : ∀ (ts : List (Str × Str)) (fuel : Nat)
    (con : gconnection) (r : response),
    (∀ p ∈ ts, 13 ∉ p.1 ∧ 13 ∉ p.2) → con.good = true →
    con.input = header_block ts ++ crlf ++ rest → ts.length + 1 ≤ fuel →
    ∃ h1, read_chunks fuel con true r
      = .ok ({ con with input := rest }, { r with header := h1 }) := by
  intro ts
  induction ts with
  | nil =>
    intro fuel con r _ hg hi hf
    obtain ⟨f1, rfl⟩ : ∃ f1, fuel = f1 + 1 := ⟨fuel - 1, by simp at hf; omega⟩
    rw [read_chunks, gconnection.getCRLF_line con [] rest [] (by simp) hg
      (by simpa [header_block, crlf] using hi)]
    exact ⟨r.header, by simp⟩
  | cons p t ih =>
    intro fuel con r hw hg hi hf
    obtain ⟨f1, rfl⟩ : ∃ f1, fuel = f1 + 1 := ⟨fuel - 1, by simp at hf; omega⟩
    have hp := hw p (by simp)
    have hline : 13 ∉ header_line p := by
      simp [header_line, hp.1, hp.2]
    obtain ⟨h1, hs⟩ := store_header_ok p r.header
    obtain ⟨h2, hrec⟩ := ih f1 { con with input := header_block t ++ crlf ++ rest }
      { r with header := h1 } (fun q hq => hw q (by simp [hq])) hg rfl (by simp at hf ⊢; omega)
    refine ⟨h2, ?_⟩
    rw [read_chunks, gconnection.getCRLF_line con (header_line p)
      (header_block t ++ crlf ++ rest) [] hline hg
      (by simpa [header_block, crlf, List.append_assoc] using hi)]
    have hl : ((header_line p).length == 0) = false := by
      simp [header_line]
    simp only [List.nil_append, hl, Bool.and_false, Bool.false_eq_true, if_false, Bool.not_true, hs]
    rw [hrec]

theorem body_after_chunk (body c : Str) :
    (resize body (body.length + c.length)).take body.length ++ c
      ++ (resize body (body.length + c.length)).drop (body.length + c.length) = body ++ c := by
  have h1 : resize body (body.length + c.length) = body ++ List.replicate c.length 0 := by
    simp [resize, List.take_of_length_le]
  rw [h1, List.take_left' rfl, List.drop_of_length_le (by simp)]
  simp

theorem stoi_zero_chunk : stoi [48] 16 = .ok 0 := by rfl

/-- The chunk loop on a chunked body: the chunk payloads are appended to
the body in order, and the stream is left right after the final empty
line. -/
theorem read_chunks_data (ts : List (Str × Str)) (rest : Str)
    (hts : ∀ p ∈ ts, 13 ∉ p.1 ∧ 13 ∉ p.2) : ∀ (cs : List Str) (fuel : Nat)
    (con : gconnection) (r : response),
    (∀ c ∈ cs, c ≠ [] ∧ c.length < 2 ^ 31) → con.good = true →
    con.input = chunks_wire cs ++ ([48] ++ crlf ++ header_block ts ++ crlf ++ rest) →
    cs.length + ts.length + 2 ≤ fuel →
    ∃ h1, read_chunks fuel con false r
      = .ok ({ con with input := rest }, { r with body := r.body ++ cs.flatten, header := h1 }) := by
  intro cs
  induction cs with
  | nil =>
    intro fuel con r _ hg hi hf
    obtain ⟨f1, rfl⟩ : ∃ f1, fuel = f1 + 1 := ⟨fuel - 1, by simp at hf; omega⟩
    obtain ⟨h1, htr⟩ := read_chunks_trailers rest ts f1
      { con with input := header_block ts ++ crlf ++ rest } r hts hg rfl (by simp at hf ⊢; omega)
    refine ⟨h1, ?_⟩
    rw [read_chunks, gconnection.getCRLF_line con [48] (header_block ts ++ crlf ++ rest) []
      (by simp) hg (by simpa [chunks_wire, crlf, List.append_assoc] using hi)]
    simp only [List.nil_append, Bool.false_and, Bool.false_eq_true, if_false, Bool.not_false,
      if_true, stoi_zero_chunk]
    rw [htr]
    simp
  | cons c t ih =>
    intro fuel con r hcs hg hi hf
    obtain ⟨f1, rfl⟩ : ∃ f1, fuel = f1 + 1 := ⟨fuel - 1, by simp at hf; omega⟩
    have hc := hcs c (by simp)
    have hlen0 : c.length ≠ 0 := fun h => hc.1 (List.length_eq_zero.mp h)
    obtain ⟨h1, hrec⟩ := ih f1
      { con with input := chunks_wire t ++ ([48] ++ crlf ++ header_block ts ++ crlf ++ rest) }
      { r with body := r.body ++ c } (fun x hx => hcs x (by simp [hx])) hg rfl
      (by simp at hf ⊢; omega)
    refine ⟨h1, ?_⟩
    rw [read_chunks, gconnection.getCRLF_line con (numeral 16 c.length)
      (c ++ (crlf ++ (chunks_wire t ++ ([48] ++ crlf ++ header_block ts ++ crlf ++ rest)))) []
      (numeral_no_cr _ _) hg
      (by simpa [chunks_wire, chunk_wire, crlf, List.append_assoc] using hi)]
    simp only [List.nil_append, Bool.false_and, Bool.false_eq_true, if_false, Bool.not_false,
      if_true, stoi_numeral 16 (Or.inr rfl) c.length hc.2]
    have hz : ¬ ((c.length : Int) = 0) := by omega
    have hneg : ¬ ((c.length : Int) < 0) := by omega
    simp only [hz, hneg, if_false, Int.toNat_ofNat]
    rw [gconnection.read_append { con with input := c ++ (crlf ++ (chunks_wire t
      ++ ([48] ++ crlf ++ header_block ts ++ crlf ++ rest))) } c _ hg rfl]
    simp only
    have hign := gconnection.ignore_append { con with input := crlf ++ (chunks_wire t
      ++ ([48] ++ crlf ++ header_block ts ++ crlf ++ rest)) } crlf _ hg rfl
    have h2 : crlf.length = 2 := rfl
    rw [h2] at hign
    rw [hign]
    simp only [body_after_chunk]
    rw [hrec]
    simp [List.append_assoc]

theorem chunks_wire_length (cs : List Str) : cs.length ≤ (chunks_wire cs).length := by
  induction cs with
  | nil => simp
  | cons c t ih => simp [chunks_wire, chunk_wire, crlf]; omega

/-- The chunked branch of the body part on a chunked body. -/
theorem read_body_chunked (con : gconnection) (r : response) (cs : List Str)
    (ts : List (Str × Str)) (rest : Str)
    (hv : r.version = version_e.HTTP11)
    (hncl : map_find r.header (str "Content-Length") = none)
    (hte : ∃ v, map_find r.header (str "Transfer-Encoding") = some v
      ∧ hasSub (str "chunked") v = true)
    (hcs : ∀ c ∈ cs, c ≠ [] ∧ c.length < 2 ^ 31)
    (hts : ∀ p ∈ ts, 13 ∉ p.1 ∧ 13 ∉ p.2) (hg : con.good = true)
    (hi : con.input = chunked_wire cs ts ++ rest) :
    ∃ h1, read_body con r
      = .ok ({ con with input := rest }, { r with body := r.body ++ cs.flatten, header := h1 }) := by
  obtain ⟨v, hv1, hv2⟩ := hte
  have hc : ¬ (map_count r.header (str "Content-Length") = 1) := by simp [map_count, hncl]
  have hc2 : map_count r.header (str "Transfer-Encoding") = 1 := by simp [map_count, hv1]
  have ha : map_at r.header (str "Transfer-Encoding") = v := by simp [map_at, hv1]
  have hcond : r.version = version_e.HTTP11
      ∧ map_count r.header (str "Transfer-Encoding") = 1
      ∧ hasSub (str "chunked") (map_at r.header (str "Transfer-Encoding")) = true :=
    ⟨hv, hc2, by rw [ha]; exact hv2⟩
  unfold read_body
  rw [if_neg hc, if_pos hcond]
  apply read_chunks_data ts rest hts cs _ con r hcs hg
  · simpa [chunked_wire, List.append_assoc] using hi
  · have h1 := chunks_wire_length cs
    have h2 := header_block_length ts
    simp [hi, chunked_wire, crlf]
    omega

theorem numeral_hex_2G : numeral 16 (2 ^ 31) = str "80000000" := by
  norm_num [numeral, digitChar]
  decide

theorem numeral_dec_2G : numeral 10 (2 ^ 31) = str "2147483648" := by
  norm_num [numeral, digitChar]
  decide

theorem stoi_hex_2G : stoi (str "80000000") 16 = .error Exc.out_of_range := by rfl

theorem stoi_dec_2G : stoi (str "2147483648") 10 = .error Exc.out_of_range := by rfl

/-- A single chunk of 2^31 bytes: the size line does not fit an `int`. -/
theorem retrieve_big_chunk (c rest : Str) (hc : c.length = 2 ^ 31) :
    (client_on ((head_200 (str "Transfer-Encoding") (str "chunked")).wire
        ++ (chunked_wire [c] [] ++ rest)) [method_e.GET]).retrieve fresh_response
      = .error Exc.out_of_range := by
  rw [retrieve_head (client_on ((head_200 (str "Transfer-Encoding") (str "chunked")).wire
      ++ (chunked_wire [c] [] ++ rest)) [method_e.GET]) fresh_response method_e.GET
    (head_200 (str "Transfer-Encoding") (str "chunked")) (chunked_wire [c] [] ++ rest)
    (by decide) rfl rfl rfl]
  have hst : ¬ ((head_200 (str "Transfer-Encoding") (str "chunked")).status = 100) := by decide
  have hne : method_e.GET ≠ method_e.HEAD := by decide
  have e1 : ¬ (map_count (stored fresh_response.header
      (head_200 (str "Transfer-Encoding") (str "chunked")).lines) (str "Content-Length") = 1) := by
    decide
  have e2 : (head_200 (str "Transfer-Encoding") (str "chunked")).version = version_e.HTTP11
      ∧ map_count (stored fresh_response.header
          (head_200 (str "Transfer-Encoding") (str "chunked")).lines) (str "Transfer-Encoding") = 1
      ∧ hasSub (str "chunked") (map_at (stored fresh_response.header
          (head_200 (str "Transfer-Encoding") (str "chunked")).lines)
            (str "Transfer-Encoding")) = true := by
    decide
  unfold client.retrieve_tail
  rw [if_neg hst]
  unfold body_step
  rw [if_pos hne]
  unfold read_body
  rw [if_neg e1, if_pos e2]
  rw [read_chunks, gconnection.getCRLF_line _ (str "80000000")
    (c ++ (crlf ++ ([48] ++ crlf ++ crlf ++ rest))) [] (by decide) rfl
    (by
      show chunked_wire [c] [] ++ rest = _
      simp only [chunked_wire, chunks_wire, chunk_wire, hc, numeral_hex_2G, header_block,
        List.append_nil, List.append_assoc, crlf, List.cons_append, List.nil_append])]
  simp only [List.nil_append, Bool.false_and, Bool.false_eq_true, if_false, Bool.not_false,
    if_true, stoi_hex_2G]

theorem chunked_wire_hello :
    chunked_wire [str "hello"] [] = str "5\r\nhello\r\n0\r\n\r\n" := by
  have h1 : numeral 16 (str "hello").length = str "5" := by
    have h5 : (str "hello").length = 5 := rfl
    rw [h5]
    norm_num [numeral, digitChar]
    decide
  simp only [chunked_wire, chunks_wire, chunk_wire, header_block, h1]
  decide

/-- A body of 2^31 bytes announced by `Content-Length`: the number does
not fit an `int`. -/
theorem retrieve_big_content_length (body extra : Str) :
    (client_on ((head_200 (str "Content-Length") (numeral 10 (2 ^ 31))).wire
        ++ (body ++ extra)) [method_e.GET]).retrieve fresh_response
      = .error Exc.out_of_range := by
  rw [numeral_dec_2G]
  rw [retrieve_head (client_on ((head_200 (str "Content-Length") (str "2147483648")).wire
      ++ (body ++ extra)) [method_e.GET]) fresh_response method_e.GET
    (head_200 (str "Content-Length") (str "2147483648")) (body ++ extra)
    (by decide) rfl rfl rfl]
  have hst : ¬ ((head_200 (str "Content-Length") (str "2147483648")).status = 100) := by decide
  have hne : method_e.GET ≠ method_e.HEAD := by decide
  have e1 : map_count (stored fresh_response.header
      (head_200 (str "Content-Length") (str "2147483648")).lines) (str "Content-Length") = 1 := by
    decide
  have e2 : map_at (stored fresh_response.header
      (head_200 (str "Content-Length") (str "2147483648")).lines) (str "Content-Length")
        = str "2147483648" := by
    decide
  unfold client.retrieve_tail
  rw [if_neg hst]
  unfold body_step
  rw [if_pos hne]
  unfold read_body
  rw [if_pos e1]
  simp only [e2, stoi_dec_2G]

set_option maxRecDepth 100000 in
theorem send_writes_request_witness :
    ∃ cl1, (client_on [] []).send post_message = .ok cl1
      ∧ cl1.con.output = str "POST /a HTTP/1.1\r\nHost: h\r\nUser-Agent: x\r\n\r\nBODY"
      ∧ cl1.rstack = [method_e.POST] := by
  obtain ⟨cl1, h1, h2, _, h4, _, _⟩ := send_writes_request (client_on [] []) post_message rfl rfl
    (by simp [client_on, post_message, header_block, header_line, to_string, message.bsize,
      crlf, str, osize])
  exact ⟨cl1, h1, by rw [h2]; rfl, by rw [h4]; rfl⟩

theorem send_large_request_never_returns_witness :
    (client_on [] []).send large_post_message = .error Exc.unfinished :=
  send_large_request_never_returns (client_on [] []) large_post_message rfl rfl (by
    have hb : (if large_post_message.bsize > 0 then large_post_message.body.getD [] else [])
        = List.replicate 20000 120 := by
      simp only [large_post_message, message.bsize, Option.getD_some, List.length_replicate]
      exact if_pos (by decide)
    have ho : osize < 20000 := by decide
    rw [hb, List.length_append, List.length_replicate]
    omega)

theorem numeral_dec_5 : numeral 10 5 = str "5" := by
  norm_num [numeral, digitChar]
  decide

theorem retrieve_pops_or_closes_witness :
    (client_on (close_head.wire ++ str "hello") [method_e.GET]).retrieve fresh_response
      = .ok (close_client, close_response)
    ∧ (if says_close close_response then
        close_client.con.connected = false ∧ close_client.rstack = []
      else close_client.con.connected = true
        ∧ close_client.rstack
            = (client_on (close_head.wire ++ str "hello") [method_e.GET]).rstack.dropLast
        ∧ close_client.rstack.length + 1
            = (client_on (close_head.wire ++ str "hello") [method_e.GET]).rstack.length) :=
  ⟨rfl, retrieve_pops_or_closes (client_on (close_head.wire ++ str "hello") [method_e.GET])
    fresh_response close_client close_response rfl (by decide) rfl⟩

end http

/-! ## Theorems: inet::websocket -/

namespace websocket

set_option maxRecDepth 100000 in
/-- C4 at the payload size 126, binary, little-endian host: `send` emits
the header byte `0xFE` (7-bit field 126, mask bit), no extended length
field (`hton(126)` is 0), the mask key and the 126 masked bytes, 132 bytes
in all; `retrieve` on these bytes takes the first two key bytes for the
length, asks for more bytes than the frame has and fails instead of
returning the payload. -/
theorem send_then_retrieve_126 :
    (((client_on []).send (List.range 126) false).map (fun cl => cl.con.output.take 6)
        = .ok [0x82, 0xFE, 0xAF, 0xBE, 0xAD, 0xDE])
    ∧ (((client_on []).send (List.range 126) false).map (fun cl => cl.con.output.length)
        = .ok 132)
    ∧ (match (client_on []).send (List.range 126) false with
        | .ok cl => (client_on cl.con.output).retrieve [] response_e.TEXT
        | .error e => .error e) = .error Exc.ios_failure := by
  refine ⟨?_, ?_, ?_⟩
  · rfl
  · rfl
  · rfl

end websocket

/-! ## Theorems: status 100, request order, reuse of the response object,
malformed status lines -/

namespace http

/-- C12 at a failing input: `HEAD /a` and then `GET /b` are sent, and the
two answers arrive in the order of the requests (the answer to HEAD has
`Content-Length: 5` and no body).  The first `retrieve` takes the method
sent last, GET, reads a body and returns the first five bytes `HTTP/` of
the second answer as the body of the first; the second `retrieve` then
finds the rest of that status line and fails. -/
theorem retrieve_uses_last_sent :
    (((client_on two_answers []).send head_message).bind
        (fun c1 => c1.send get_message)).map (fun c2 => c2.rstack)
      = .ok [method_e.HEAD, method_e.GET]
    ∧ (((client_on two_answers []).send head_message).bind
        (fun c1 => (c1.send get_message).bind
          (fun c2 => (c2.retrieve fresh_response).map
            (fun p => (p.1.rstack, p.2.body, p.1.con.input)))))
      = .ok ([method_e.HEAD], str "HTTP/", str "1.1 200 OK\r\nContent-Length: 5\r\n\r\nhello")
    ∧ (((client_on two_answers []).send head_message).bind
        (fun c1 => (c1.send get_message).bind
          (fun c2 => (c2.retrieve fresh_response).bind
            (fun p => p.1.retrieve fresh_response))))
      = .error Exc.http_UNKOWN_RSP := by
  refine ⟨?_, ?_, ?_⟩
  · rfl
  · rfl
  · rfl

/-- C13 at a failing input: the same chunked response with the body
`hello` is retrieved for a pending GET once into a freshly constructed
response object and once into an object that still holds a `Set-Cookie`
header and the body `stale`.  Status line fields agree, but the second
result keeps the old header and its body is `stalehello`. -/
theorem retrieve_keeps_old_content :
    ((client_on ((head_200 (str "Transfer-Encoding") (str "chunked")).wire
        ++ chunked_wire [str "hello"] []) [method_e.GET]).retrieve fresh_response).map
          (fun p => (p.2.header, p.2.body))
      = .ok ([(str "Transfer-Encoding", str "chunked")], str "hello")
    ∧ ((client_on ((head_200 (str "Transfer-Encoding") (str "chunked")).wire
        ++ chunked_wire [str "hello"] []) [method_e.GET]).retrieve used_response).map
          (fun p => (p.2.header, p.2.body))
      = .ok ([(str "Set-Cookie", str "id=1"), (str "Transfer-Encoding", str "chunked")],
             str "stalehello") := by
  rw [chunked_wire_hello]
  exact ⟨rfl, rfl⟩

/-- C14 at failing inputs: a status line with a wrong prefix
(`HTTX/1.1 200 OK`) is accepted; a status field without a digit
(`HTTP/1.1 abc OK`) ends in `std::invalid_argument`; a line that stops
before the status field (`HTTP/1.1`) ends in `std::out_of_range`; a line
shorter than offset 5 (`HTTP`) is read past its end.  Only the
unrecognised version (`HTTP/3.0 200 OK`) gives the HTTP exception. -/
theorem retrieve_malformed_status_line :
    ((client_on (str "HTTX/1.1 200 OK\r\n\r\n") [method_e.GET]).retrieve fresh_response).map
        (fun p => (p.2.version, p.2.status, p.2.reasonphrase))
      = .ok (version_e.HTTP11, 200, str "OK")
    ∧ (client_on (str "HTTP/1.1 abc OK\r\n\r\n") [method_e.GET]).retrieve fresh_response
      = .error Exc.invalid_argument
    ∧ (client_on (str "HTTP/1.1\r\n\r\n") [method_e.GET]).retrieve fresh_response
      = .error Exc.out_of_range
    ∧ (client_on (str "HTTP\r\n\r\n") [method_e.GET]).retrieve fresh_response
      = .error Exc.undefined
    ∧ (client_on (str "HTTP/3.0 200 OK\r\n\r\n") [method_e.GET]).retrieve fresh_response
      = .error Exc.http_UNKOWN_RSP := by
  refine ⟨?_, ?_, ?_, ?_, ?_⟩
  · rfl
  · rfl
  · rfl
  · rfl
  · rfl

end http

/-- C15 at a failing input: on the stream `a CR CR LF b` the first CR LF
is at offset 2, so one line `a CR` should be returned and `b` left unread.
`getCRLF` does not see that CR LF: without stream exceptions it returns
all five bytes at end of stream, with them it leaves with
`std::ios_base::failure`.  On `a CR LF b` it returns `a` and leaves `b`. -/
theorem getCRLF_misses_crlf_after_cr :
    (stream_on (str "a\r\r\nb") false).getCRLF []
      = .ok ({ stream_on [] false with good := false }, str "a\r\r\nb")
    ∧ (stream_on (str "a\r\r\nb") true).getCRLF [] = .error Exc.ios_failure
    ∧ (stream_on (str "a\r\nb") true).getCRLF [] = .ok (stream_on (str "b") true, str "a") := by
  refine ⟨?_, ?_, ?_⟩
  · rfl
  · rfl
  · rfl

/-! ## Theorems: WebSocket frames -/

namespace websocket

/-- Byte `i` of the XOR of two words is the XOR of their bytes `i`. -/
theorem byte_xor (x m i : Nat) :
    (x ^^^ m) / 256 ^ i % 256 = (x / 256 ^ i % 256) ^^^ (m / 256 ^ i % 256) := by
  have h : (256:Nat) ^ i = 2 ^ (8 * i) := by rw [pow_mul]; norm_num
  have h8 : (256:Nat) = 2 ^ 8 := by norm_num
  rw [h, ← Nat.shiftRight_eq_div_pow, ← Nat.shiftRight_eq_div_pow, ← Nat.shiftRight_eq_div_pow, h8]
  apply Nat.eq_of_testBit_eq
  intro j
  simp only [Nat.testBit_mod_two_pow, Nat.testBit_xor, Nat.testBit_shiftRight]
  cases decide (j < 8) <;> simp

theorem range_four : List.range 4 = [0, 1, 2, 3] := by decide

theorem to_mem_four (big : Bool) (v : Nat) :
    to_mem big 4 v = if big then [v / 256 ^ 3 % 256, v / 256 ^ 2 % 256, v / 256 ^ 1 % 256, v / 256 ^ 0 % 256]
      else [v / 256 ^ 0 % 256, v / 256 ^ 1 % 256, v / 256 ^ 2 % 256, v / 256 ^ 3 % 256] := by
  unfold to_mem
  rw [range_four]
  cases big <;> rfl

theorem of_mem_four (big : Bool) (a b c d : Nat) :
    of_mem big [a, b, c, d] = if big then d + 256 * (c + 256 * (b + 256 * a))
      else a + 256 * (b + 256 * (c + 256 * d)) := by
  cases big <;> simp [of_mem]

/-- XOR of the word made of four bytes with the mask, seen in memory, is
the byte by byte XOR with the mask as it lies in memory, on either byte
order. -/
theorem word_xor (big : Bool) (mask a b c d : Nat) (ha : a < 256) (hb : b < 256) (hc : c < 256)
    (hd : d < 256) :
    to_mem big 4 (of_mem big [a, b, c, d] ^^^ mask)
      = [a ^^^ (to_mem big 4 mask).getD 0 0, b ^^^ (to_mem big 4 mask).getD 1 0,
         c ^^^ (to_mem big 4 mask).getD 2 0, d ^^^ (to_mem big 4 mask).getD 3 0] := by
  rw [to_mem_four, to_mem_four, of_mem_four]
  cases big
  · simp only [byte_xor, Bool.false_eq_true, if_false, List.getD_cons_zero, List.getD_cons_succ]
    have e0 : (a + 256 * (b + 256 * (c + 256 * d))) / 256 ^ 0 % 256 = a := by omega
    have e1 : (a + 256 * (b + 256 * (c + 256 * d))) / 256 ^ 1 % 256 = b := by omega
    have e2 : (a + 256 * (b + 256 * (c + 256 * d))) / 256 ^ 2 % 256 = c := by omega
    have e3 : (a + 256 * (b + 256 * (c + 256 * d))) / 256 ^ 3 % 256 = d := by omega
    rw [e0, e1, e2, e3]
  · simp only [byte_xor, if_true, List.getD_cons_zero, List.getD_cons_succ]
    have e0 : (d + 256 * (c + 256 * (b + 256 * a))) / 256 ^ 0 % 256 = d := by omega
    have e1 : (d + 256 * (c + 256 * (b + 256 * a))) / 256 ^ 1 % 256 = c := by omega
    have e2 : (d + 256 * (c + 256 * (b + 256 * a))) / 256 ^ 2 % 256 = b := by omega
    have e3 : (d + 256 * (c + 256 * (b + 256 * a))) / 256 ^ 3 % 256 = a := by omega
    rw [e0, e1, e2, e3]

theorem put_mk (i p o : Str) (e : Bool) (t r : Option Nat) (c : Nat) (h : p.length < osize) :
    gconnection.put ⟨i, p, o, true, true, e, t, r⟩ c = .ok ⟨i, p ++ [c], o, true, true, e, t, r⟩ := by
  simp [gconnection.put, h]

theorem put_tail_ok (key : List Nat) (inp o : Str) (e : Bool) (t r : Option Nat) :
    ∀ (data : Str) (i : Nat) (p : Str), p.length + data.length ≤ osize →
      put_tail key data i ⟨inp, p, o, true, true, e, t, r⟩
        = .ok ⟨inp, p ++ mask_from key i data, o, true, true, e, t, r⟩ := by
  intro data
  induction data with
  | nil => intro i p _; simp [put_tail, mask_from]
  | cons b tl ih =>
    intro i p hr
    simp only [List.length_cons] at hr
    unfold put_tail
    rw [put_mk _ _ _ _ _ _ _ (by omega)]
    simp only []
    rw [ih _ _ (by simp only [List.length_append, List.length_cons, List.length_nil]; omega)]
    simp only [mask_from, List.append_assoc, List.singleton_append]

/-- The word loop with its byte-wise tail writes the payload masked byte
by byte, when the payload fits into the output buffer with what is
pending. -/
theorem put_payload_ok (big : Bool) (mask : Nat) (inp o : Str) (e : Bool) (t r : Option Nat) :
    ∀ (n : Nat) (data : Str) (i : Nat) (p : Str), data.length ≤ n → i % 4 = 0 →
      (∀ b ∈ data, b < 256) → p.length + data.length ≤ osize →
      put_payload big mask data i ⟨inp, p, o, true, true, e, t, r⟩
        = .ok ⟨inp, p ++ mask_from (to_mem big 4 mask) i data, o, true, true, e, t, r⟩ := by
  intro n
  induction n using Nat.strong_induction_on with
  | _ n ih =>
    intro data i p hn hi hb hr
    match data, hn, hb, hr with
    | a :: b :: c :: d :: tl, hn, hb, hr =>
      have ha := hb a (by simp)
      have hb1 := hb b (by simp)
      have hc := hb c (by simp)
      have hd := hb d (by simp)
      simp only [List.length_cons] at hn hr
      have h1 : (i + 1) % 4 = 1 := by omega
      have h2 : (i + 1 + 1) % 4 = 2 := by omega
      have h3 : (i + 1 + 1 + 1) % 4 = 3 := by omega
      simp only [put_payload, word_xor big mask a b c d ha hb1 hc hd]
      rw [http.write_fits _ _ _ _ _ _ _
        (by simp only [List.length_cons, List.length_nil]; omega)]
      simp only []
      rw [ih (n - 4) (by omega) tl (i + 4) _ (by omega) (by omega)
        (fun x hx => hb x (by simp [hx]))
        (by simp only [List.length_append, List.length_cons, List.length_nil]; omega)]
      simp only [mask_from, hi, h1, h2, h3, List.append_assoc, List.cons_append, List.nil_append]
    | [], _, _, hr => simp [put_payload, put_tail_ok _ _ _ _ _ _ _ _ _ hr]
    | [a], _, _, hr => simp [put_payload, put_tail_ok _ _ _ _ _ _ _ _ _ hr]
    | [a, b], _, _, hr => simp [put_payload, put_tail_ok _ _ _ _ _ _ _ _ _ hr]
    | [a, b, c], _, _, hr => simp [put_payload, put_tail_ok _ _ _ _ _ _ _ _ _ hr]

/-- The word loop on a payload that reaches past the end of the output
buffer: with the buffer filled up to two bytes before its end and a whole
word left to write, `write` never returns. -/
theorem put_payload_never_returns (big : Bool) (mask : Nat) (inp o : Str) (e : Bool)
    (t r : Option Nat) :
    ∀ (n : Nat) (data : Str) (i : Nat) (p : Str), data.length ≤ n →
      (∀ b ∈ data, b < 256) → p.length ≤ osize → p.length % 4 = 2 →
      osize + 2 ≤ p.length + data.length →
      put_payload big mask data i ⟨inp, p, o, true, true, e, t, r⟩ = .error Exc.unfinished := by
  have ho : osize = 16384 := rfl
  intro n
  induction n using Nat.strong_induction_on with
  | _ n ih =>
    intro data i p hn hb hp h4 hl
    match data, hn, hb, hl with
    | a :: b :: c :: d :: tl, hn, hb, hl =>
      have ha := hb a (by simp)
      have hb1 := hb b (by simp)
      have hc := hb c (by simp)
      have hd := hb d (by simp)
      simp only [List.length_cons] at hn hl
      simp only [put_payload, word_xor big mask a b c d ha hb1 hc hd]
      rw [http.write_mk]
      by_cases hw : p.length + 4 ≤ osize
      · rw [if_pos (by simp only [List.length_cons, List.length_nil]; omega)]
        simp only []
        exact ih (n - 4) (by omega) tl (i + 4) _ (by omega) (fun x hx => hb x (by simp [hx]))
          (by simp only [List.length_append, List.length_cons, List.length_nil]; omega)
          (by simp only [List.length_append, List.length_cons, List.length_nil]; omega)
          (by simp only [List.length_append, List.length_cons, List.length_nil]; omega)
      · rw [if_neg (by simp only [List.length_cons, List.length_nil]; omega)]
    | [], _, _, hl => simp only [List.length_nil] at hl; omega
    | [a], _, _, hl => simp only [List.length_cons, List.length_nil] at hl; omega
    | [a, b], _, _, hl => simp only [List.length_cons, List.length_nil] at hl; omega
    | [a, b, c], _, _, hl => simp only [List.length_cons, List.length_nil] at hl; omega

theorem mask_from_getD (key : List Nat) : ∀ (data : Str) (i j : Nat), j < data.length →
    (mask_from key i data).getD j 0 = data.getD j 0 ^^^ key.getD ((i + j) % 4) 0 := by
  intro data
  induction data with
  | nil => intro i j h; simp at h
  | cons b tl ih =>
    intro i j h
    cases j with
    | zero => simp [mask_from]
    | succ j =>
      simp only [mask_from, List.getD_cons_succ]
      rw [ih (i + 1) j (by simpa using h)]
      congr 3
      omega

theorem mask_from_length (key : List Nat) : ∀ (data : Str) (i : Nat),
    (mask_from key i data).length = data.length := by
  intro data
  induction data with
  | nil => intro i; rfl
  | cons b tl ih => intro i; simp [mask_from, ih]

theorem mask_from_zero (key : List Nat) (data : Str) :
    mask_from key 0 data = mask_bytewise key data := by
  apply List.ext_getElem
  · simp [mask_from_length, mask_bytewise]
  · intro j h1 h2
    have hj : j < data.length := by simpa [mask_from_length] using h1
    have := mask_from_getD key data 0 j hj
    rw [List.getD_eq_getElem _ _ h1] at this
    rw [this]
    simp [mask_bytewise]

theorem flush_mk (i p o : Str) (c e : Bool) (t r : Option Nat) :
    gconnection.flush ⟨i, p, o, c, true, e, t, r⟩ = .ok ⟨i, [], o ++ p, c, true, e, t, r⟩ := by
  rfl

/-- C17: for a payload of `n < 126` bytes, on either byte order, `send`
hands to the channel, after what was pending, exactly the frame of the
byte-wise definition: `0x81` for text or `0x82` for binary, `0x80 | n`, the
four key bytes as they are transmitted, and for every `i < n` the byte
`data[i]` XOR `key[i mod 4]`; the frame has `6 + n` bytes.  The word loop
and the byte-wise tail of the source give the same bytes.  The output
buffer has room for the frame, as it has after every flush. -/
theorem send_small_frame (cl : client) (data : Str) (text : Bool) (hg : cl.con.good = true)
    (ho : cl.con.connected = true) (hn : data.length < 126) (hb : ∀ b ∈ data, b < 256)
    (hroom : cl.con.pending.length + 6 + data.length ≤ osize) :
    cl.send data text
      = .ok { cl with con := { cl.con with
          pending := [],
          output := cl.con.output ++ (cl.con.pending
            ++ small_frame text (to_mem cl.bigendian 4 mask_key) data) } }
    ∧ (small_frame text (to_mem cl.bigendian 4 mask_key) data).length = 6 + data.length
    ∧ ∀ i, i < data.length →
        (small_frame text (to_mem cl.bigendian 4 mask_key) data).getD (6 + i) 0
          = data.getD i 0 ^^^ (to_mem cl.bigendian 4 mask_key).getD (i % 4) 0 := by
  obtain ⟨host, enc, ⟨inp, p, o, conn, good, e, t, r⟩, big⟩ := cl
  simp only at hg ho hroom
  subst hg ho
  have hk : (to_mem big 4 mask_key).length = 4 := by
    rw [to_mem_four]; cases big <;> rfl
  refine ⟨?_, ?_, ?_⟩
  · unfold client.send
    simp only [hn, if_true, ne_eq, not_true_eq_false, if_false]
    rw [http.write_fits _ _ _ _ _ _ _
      (by simp only [List.length_cons, List.length_nil]; omega)]
    simp only []
    rw [http.write_fits _ _ _ _ _ _ _
      (by simp only [List.length_append, List.length_cons, List.length_nil, hk]; omega)]
    simp only []
    rw [put_payload_ok big mask_key inp o e t r data.length data 0 _ (le_refl _) rfl hb
      (by simp only [List.length_append, List.length_cons, List.length_nil, hk]; omega)]
    simp only [flush_mk, mask_from_zero, small_frame, List.append_assoc]
  · simp [small_frame, mask_bytewise, hk]
    omega
  · intro i hi
    have hl : ([if text = true then 129 else 130, 128 ||| data.length]
        ++ to_mem big 4 mask_key).length = 6 := by simp [hk]
    rw [small_frame, ← mask_from_zero, List.getD_append_right _ _ _ _ (by rw [hl]; omega), hl,
      Nat.add_sub_cancel_left, mask_from_getD _ _ _ _ hi, Nat.zero_add]

/-- On a little-endian host `hton` of a 32-bit value below 65536 is 0: the
two high bytes, both 0, are copied over the two low bytes. -/
theorem hton_small (n : Nat) (h : n < 65536) : hton false 4 n = 0 := by
  unfold hton
  rw [to_mem_four]
  simp [hton_loop, of_mem, List.range_succ]
  omega

/-- C16 at its failing inputs: on a little-endian host, for every payload of
126 bytes or more whose frame fits into the output buffer with what is
pending, `send` writes the 7-bit field 126 and right after it the mask key:
no extended length field is sent, because `hton(size)` is 0 for these
sizes. -/
theorem send_omits_extended_length (cl : client) (data : Str) (text : Bool)
    (hle : cl.bigendian = false) (hg : cl.con.good = true) (ho : cl.con.connected = true)
    (h1 : 126 ≤ data.length) (hroom : cl.con.pending.length + 6 + data.length ≤ osize)
    (hb : ∀ b ∈ data, b < 256) :
    cl.send data text
      = .ok { cl with con := { cl.con with
          pending := [],
          output := cl.con.output ++ (cl.con.pending
            ++ ([if text then 0x81 else 0x82, 0xFE]
              ++ to_mem false 4 mask_key ++ mask_bytewise (to_mem false 4 mask_key) data)) } } := by
  obtain ⟨host, enc, ⟨inp, p, o, conn, good, e, t, r⟩, big⟩ := cl
  simp only at hg ho hle hroom
  subst hg ho hle
  have hos : osize = 16384 := rfl
  have hn : ¬ data.length < 126 := by omega
  have h3 : data.length < 65535 := by omega
  have hz : hton false 4 data.length = 0 := hton_small _ (by omega)
  have hk : (to_mem false 4 mask_key).length = 4 := rfl
  unfold client.send
  simp only [hn, h3, hz, if_true, if_false, ne_eq, not_true_eq_false, Nat.zero_mod]
  rw [http.write_fits _ _ _ _ _ _ _
    (by simp only [List.length_cons, List.length_nil]; omega)]
  simp only []
  rw [http.write_fits _ _ _ _ _ _ _
    (by simp only [List.length_append, List.length_cons, List.length_nil, hk]; omega)]
  simp only []
  rw [put_payload_ok false mask_key inp o e t r data.length data 0 _ (le_refl _) rfl hb
    (by simp only [List.length_append, List.length_cons, List.length_nil, hk]; omega)]
  simp only [flush_mk, mask_from_zero, List.append_assoc]
  rfl

/-- A payload of 16380 bytes or more, on a little-endian host and an empty
output buffer: `send` never returns.  The header and the key leave the
buffer two bytes off a word boundary, so the word loop comes to a `write`
of four bytes with room for two. -/
theorem send_long_payload_never_returns (cl : client) (data : Str) (text : Bool)
    (hle : cl.bigendian = false) (hg : cl.con.good = true) (ho : cl.con.connected = true)
    (hp : cl.con.pending = []) (h1 : 16380 ≤ data.length) (h2 : data.length < 65535)
    (hb : ∀ b ∈ data, b < 256) :
    cl.send data text = .error Exc.unfinished := by
  obtain ⟨host, enc, ⟨inp, p, o, conn, good, e, t, r⟩, big⟩ := cl
  simp only at hg ho hle hp
  subst hg ho hle hp
  have hos : osize = 16384 := rfl
  have hn : ¬ data.length < 126 := by omega
  have hz : hton false 4 data.length = 0 := hton_small _ (by omega)
  have hk : (to_mem false 4 mask_key).length = 4 := rfl
  unfold client.send
  simp only [hn, h2, hz, if_true, if_false, ne_eq, not_true_eq_false, Nat.zero_mod]
  rw [http.write_fits _ _ _ _ _ _ _
    (by simp only [List.length_cons, List.length_nil]; omega)]
  simp only []
  rw [http.write_fits _ _ _ _ _ _ _
    (by simp only [List.length_append, List.length_cons, List.length_nil, hk]; omega)]
  simp only []
  rw [put_payload_never_returns false mask_key inp o e t r data.length data 0 _ (le_refl _) hb
    (by simp only [List.length_append, List.length_cons, List.length_nil, hk]; omega)
    (by simp only [List.length_append, List.length_cons, List.length_nil, hk])
    (by simp only [List.length_append, List.length_cons, List.length_nil, hk]; omega)]

set_option maxRecDepth 100000 in
theorem send_omits_extended_length_witness :
    (client_on []).send (List.replicate 300 65) true
      = .ok { client_on [] with con := { (client_on []).con with
          pending := [],
          output := [] ++ ([] ++ ([0x81, 0xFE] ++ [0xAF, 0xBE, 0xAD, 0xDE]
            ++ mask_bytewise [0xAF, 0xBE, 0xAD, 0xDE] (List.replicate 300 65))) } } :=
  send_omits_extended_length (client_on []) (List.replicate 300 65) true rfl rfl rfl
    (by decide) (by decide) (by decide)

theorem send_small_frame_witness :
    (client_on []).send (str "hello!") true
      = .ok { client_on [] with con := { (client_on []).con with
          pending := [],
          output := [0x81, 0x86, 0xAF, 0xBE, 0xAD, 0xDE, 0xC7, 0xDB, 0xC1, 0xB2, 0xC0, 0x9F] } }
    ∧ (small_frame true [0xAF, 0xBE, 0xAD, 0xDE] (str "hello!")).length = 6 + 6
    ∧ ∀ i, i < 6 → (small_frame true [0xAF, 0xBE, 0xAD, 0xDE] (str "hello!")).getD (6 + i) 0
        = (str "hello!").getD i 0 ^^^ [0xAF, 0xBE, 0xAD, 0xDE].getD (i % 4) 0 :=
  send_small_frame (client_on []) (str "hello!") true rfl rfl (by decide) (by decide)
    (by decide)

theorem read_mk (i p o : Str) (c e : Bool) (t r : Option Nat) (n : Nat) (h : n ≤ i.length) :
    gconnection.read ⟨i, p, o, c, true, e, t, r⟩ n
      = .ok (i.take n, ⟨i.drop n, p, o, c, true, e, t, r⟩) := by
  simp [gconnection.read, h]

theorem frame_type_other (op : Nat) (rtype : response_e) (h1 : op ≠ 1) (h2 : op ≠ 2)
    (h3 : op ≠ 10) (h4 : op ≠ 8) : frame_type op rtype = .error Exc.ws_UNKOWN_RSP := by
  unfold frame_type
  rw [if_neg h1, if_neg h2, if_neg h3, if_neg h4, if_pos (by omega)]

/-- A frame whose opcode is none of TEXT, BIN, PONG and CLOSE is refused:
the last test of the opcode chain holds for every opcode. -/
theorem retrieve_rec_other_opcode (fuel : Nat) (cl : client) (h0 h1 : Nat) (rest out : Str)
    (rtype : response_e) (hg : cl.con.good = true) (hi : cl.con.input = h0 :: h1 :: rest)
    (n1 : h0 &&& 0x0F ≠ 1) (n2 : h0 &&& 0x0F ≠ 2) (n3 : h0 &&& 0x0F ≠ 10)
    (n4 : h0 &&& 0x0F ≠ 8) :
    client.retrieve_rec (fuel + 1) cl out rtype = .error Exc.ws_UNKOWN_RSP := by
  obtain ⟨host, enc, ⟨inp, p, o, conn, good, e, t, r⟩, big⟩ := cl
  simp only at hg hi
  subst hg hi
  unfold client.retrieve_rec
  simp only [read_mk _ _ _ _ _ _ _ 2 (by simp : 2 ≤ (h0 :: h1 :: rest).length)]
  simp [frame_type_other _ rtype n1 n2 n3 n4]

/-- C19 at its failing inputs: whenever the next frame on the stream is a
PING (opcode `0x9` in the first header byte), whatever follows it,
`retrieve` leaves with the exception `UNKOWN_RSP`: no PONG is written and
the following frame is not returned. -/
theorem retrieve_rejects_ping (cl : client) (h0 h1 : Nat) (rest out : Str) (rtype : response_e)
    (hg : cl.con.good = true) (hi : cl.con.input = h0 :: h1 :: rest)
    (hop : h0 &&& 0x0F = 0x9) :
    cl.retrieve out rtype = .error Exc.ws_UNKOWN_RSP := by
  unfold client.retrieve
  exact retrieve_rec_other_opcode _ cl h0 h1 rest out rtype hg hi (by omega) (by omega)
    (by omega) (by omega)

theorem small_length_bits : ∀ n < 126, n &&& 0x7F = n ∧ n &&& 0x80 = 0 := by decide

theorem of_mem_zero_key (big : Bool) : of_mem big (to_mem big 4 0) = 0 := by
  cases big <;> rfl

/-- C20 at its failing inputs: a first fragment with opcode TEXT or BIN and
fin = 0, unmasked, with a payload `p` of fewer than 126 bytes (its length
not ending in the bits `1001`), followed by a frame with the opcode
CONTINUATION.  `retrieve` reads the first fragment and leaves with the
exception `UNKOWN_RSP` at the header of the continuation frame. -/
theorem retrieve_rejects_continuation (cl : client) (op : Nat) (p : Str) (c0 c1 : Nat)
    (rest out : Str) (rtype : response_e) (hg : cl.con.good = true)
    (hop : op = 1 ∨ op = 2) (hp : p.length < 126) (hp9 : p.length &&& 0x0F ≠ 9)
    (hc : c0 &&& 0x0F = 0)
    (hi : cl.con.input = [op, p.length] ++ p ++ c0 :: c1 :: rest) :
    cl.retrieve out rtype = .error Exc.ws_UNKOWN_RSP := by
  obtain ⟨host, enc, ⟨inp, pe, o, conn, good, e, t, r⟩, big⟩ := cl
  simp only at hg hi
  subst hg hi
  obtain ⟨b1, b2⟩ := small_length_bits p.length hp
  unfold client.retrieve
  simp only [List.length_append, List.length_cons, List.length_nil]
  unfold client.retrieve_rec
  have hty : frame_type (op &&& 0x0F) rtype = .ok (if op = 1 then response_e.TEXT else response_e.BIN) := by
    rcases hop with h | h <;> subst h <;> rfl
  have hfin : op &&& 0x80 = 0 := by
    rcases hop with h | h <;> subst h <;> rfl
  simp only [read_mk _ _ _ _ _ _ _ 2 (by simp : 2 ≤ ([op, p.length] ++ p ++ c0 :: c1 :: rest).length)]
  simp only [List.cons_append, List.nil_append, List.take_succ_cons, List.take_zero,
    List.length_cons, List.length_nil, ne_eq, not_true_eq_false, if_false,
    List.getD_cons_zero, List.getD_cons_succ, hty, frame_length, b1, b2, hp, if_true,
    of_mem_zero_key, hp9, List.drop_succ_cons, List.drop_zero]
  have hk : (to_mem big 4 0).length = 4 := by cases big <;> rfl
  have hf : 0 + 1 + 1 + p.length + (rest.length + 1 + 1) = (p.length + rest.length + 3) + 1 := by
    omega
  rw [read_mk _ _ _ _ _ _ _ p.length (by simp), hf]
  simp only [hk, not_true_eq_false, if_false, List.take_left, List.drop_left, hfin, if_true]
  rw [retrieve_rec_other_opcode _ _ c0 c1 rest _ _ rfl rfl (by omega) (by omega) (by omega)
    (by omega)]

theorem retrieve_rejects_ping_witness :
    (client_on ([0x89, 0x02] ++ str "ab" ++ ([0x82, 0x02] ++ str "hi"))).retrieve []
        response_e.TEXT
      = .error Exc.ws_UNKOWN_RSP :=
  retrieve_rejects_ping (client_on ([0x89, 0x02] ++ str "ab" ++ ([0x82, 0x02] ++ str "hi")))
    0x89 0x02 (str "ab" ++ ([0x82, 0x02] ++ str "hi")) [] response_e.TEXT rfl (by rfl) (by decide)

theorem retrieve_rejects_continuation_witness :
    (client_on ([0x01, 0x02] ++ str "he" ++ 0x80 :: 0x03 :: str "llo")).retrieve []
        response_e.BIN
      = .error Exc.ws_UNKOWN_RSP :=
  retrieve_rejects_continuation
    (client_on ([0x01, 0x02] ++ str "he" ++ 0x80 :: 0x03 :: str "llo")) 1 (str "he") 0x80 0x03
    (str "llo") [] response_e.BIN rfl (Or.inl rfl) (by decide) (by decide) (by decide) (by rfl)

set_option maxRecDepth 100000 in
/-- C18 at a failing input: an unmasked final TEXT frame with the nine
payload bytes `123456789` (header `81 09`).  The length byte ends in the
bits `1001`, so `retrieve` takes the frame for a PING: it writes a PONG
frame with the payload masked, does not return the payload, and goes on
to the next frame; with nothing behind the frame the call fails, with a
BIN frame `hi` behind it that frame is returned.  The same frame with the
five bytes `hello` is returned as the claim says. -/
theorem retrieve_length_nine_as_ping :
    (client_on ([0x81, 0x09] ++ str "123456789")).retrieve [] response_e.BIN
      = .error Exc.ios_failure
    ∧ ((client_on ([0x81, 0x09] ++ str "123456789" ++ ([0x82, 0x02] ++ str "hi"))).retrieve []
        response_e.TEXT).map (fun p => (p.1.con.input, p.1.con.output, p.2))
      = .ok ([], [0x8A, 0x89, 158, 140, 158, 234, 154, 136, 154, 230, 150], str "hi",
             response_e.BIN)
    ∧ ((client_on ([0x81, 0x05] ++ str "hello" ++ ([0x82, 0x02] ++ str "hi"))).retrieve []
        response_e.BIN).map (fun p => (p.1.con.input, p.1.con.output, p.2))
      = .ok ([0x82, 0x02] ++ str "hi", [], str "hello", response_e.TEXT) := by
  refine ⟨?_, ?_, ?_⟩
  · rfl
  · rfl
  · rfl

set_option maxRecDepth 100000 in
/-- The other length encodings of `send`: on a big-endian host a payload of
126 bytes makes `send` write four bytes of the two-byte length object, and
on a little-endian host `hton(65536)` is `0x00010100`, which lies in memory
as the eight bytes `00 01 01 00 00 00 00 00`. -/
theorem send_other_lengths :
    ({ client_on [] with bigendian := true } : client).send (List.replicate 126 65) true
      = .error Exc.undefined
    ∧ hton false 4 65536 = 0x00010100
    ∧ to_mem false 8 (hton false 4 65536) = [0, 1, 1, 0, 0, 0, 0, 0] := by
  refine ⟨?_, ?_, ?_⟩
  · rfl
  · rfl
  · rfl

end websocket

/-! ## Theorems: WebSocket ping, close frames and the handshake -/

namespace websocket

/-- C23: for every data, on either byte order, `ping` hands to the channel,
after what was pending, exactly one frame: `0x89`, the byte `0x80 | m` with
`m = min(size, 125)`, the four key bytes as they are transmitted, and the
first `m` bytes of the data, byte `i` XORed with `key[i mod 4]`.  The frame
has `6 + m` bytes, so nothing of the data beyond its first 125 bytes is
sent.  The output buffer has room for the frame, as it has after every
flush. -/
theorem ping_frame_sent (cl : client) (data : Str) (hg : cl.con.good = true)
    (ho : cl.con.connected = true) (hb : ∀ b ∈ data, b < 256)
    (hroom : cl.con.pending.length + 6 + min data.length 125 ≤ osize) :
    cl.ping data
      = .ok { cl with con := { cl.con with
          pending := [],
          output := cl.con.output ++ (cl.con.pending
            ++ ping_frame (to_mem cl.bigendian 4 mask_key) data) } }
    ∧ (ping_frame (to_mem cl.bigendian 4 mask_key) data).length = 6 + min data.length 125
    ∧ ∀ i, i < min data.length 125 →
        (ping_frame (to_mem cl.bigendian 4 mask_key) data).getD (6 + i) 0
          = data.getD i 0 ^^^ (to_mem cl.bigendian 4 mask_key).getD (i % 4) 0 := by
  obtain ⟨host, enc, ⟨inp, p, o, conn, good, e, t, r⟩, big⟩ := cl
  simp only at hg ho hroom
  subst hg ho
  have hk : (to_mem big 4 mask_key).length = 4 := by
    rw [to_mem_four]; cases big <;> rfl
  have hb2 : ∀ b ∈ data.take 125, b < 256 :=
    fun b h => hb b (List.mem_of_mem_take h)
  have ht : data.take (min data.length 125) = data.take 125 := by
    rcases Nat.le_total data.length 125 with h | h
    · rw [Nat.min_eq_left h, List.take_of_length_le (le_refl _), List.take_of_length_le h]
    · rw [Nat.min_eq_right h]
  have hl : (data.take 125).length = min data.length 125 := by
    rw [List.length_take]; exact Nat.min_comm _ _
  refine ⟨?_, ?_, ?_⟩
  · unfold client.ping
    simp only [ht]
    rw [http.write_fits _ _ _ _ _ _ _
      (by simp only [List.length_cons, List.length_nil]; omega)]
    simp only []
    rw [http.write_fits _ _ _ _ _ _ _
      (by simp only [List.length_append, List.length_cons, List.length_nil, hk]; omega)]
    simp only []
    rw [put_payload_ok big mask_key inp o e t r _ (data.take 125) 0 _ (le_refl _) rfl hb2
      (by simp only [List.length_append, List.length_cons, List.length_nil, hk, hl]; omega)]
    simp only [flush_mk, mask_from_zero, ping_frame, List.append_assoc]
  · simp [ping_frame, mask_bytewise, hk, hl]
    omega
  · intro i hi
    have hl2 : ([0x89, 0x80 ||| min data.length 125] ++ to_mem big 4 mask_key).length = 6 := by
      simp [hk]
    rw [ping_frame, ← mask_from_zero, List.getD_append_right _ _ _ _ (by rw [hl2]; omega), hl2,
      Nat.add_sub_cancel_left, mask_from_getD _ _ _ _ (by rw [hl]; exact hi), Nat.zero_add]
    congr 1
    simp only [List.getD_eq_getElem?_getD, List.getElem?_take]
    rw [if_pos (by omega)]

set_option maxRecDepth 100000 in
theorem ping_frame_sent_witness :
    (client_on []).ping (List.replicate 130 65)
      = .ok { client_on [] with con := { (client_on []).con with
          pending := [],
          output := [] ++ ([] ++ ping_frame [0xAF, 0xBE, 0xAD, 0xDE] (List.replicate 130 65)) } }
    ∧ (ping_frame [0xAF, 0xBE, 0xAD, 0xDE] (List.replicate 130 65)).length
        = 6 + min (List.replicate 130 65).length 125
    ∧ ∀ i, i < min (List.replicate 130 65).length 125 →
        (ping_frame [0xAF, 0xBE, 0xAD, 0xDE] (List.replicate 130 65)).getD (6 + i) 0
          = (List.replicate 130 65).getD i 0 ^^^ [0xAF, 0xBE, 0xAD, 0xDE].getD (i % 4) 0 :=
  ping_frame_sent (client_on []) (List.replicate 130 65) rfl rfl (by decide) (by decide)

end websocket

namespace websocket

theorem get_mk (b : Nat) (i p o : Str) (c e : Bool) (t r : Option Nat) :
    gconnection.get ⟨b :: i, p, o, c, true, e, t, r⟩ = .ok ((b : Int), ⟨i, p, o, c, true, e, t, r⟩) := by
  rfl

theorem get_tail_ok (key : List Nat) (rest p o : Str) (c e : Bool) (t r : Option Nat) :
    ∀ (d : Str) (i : Nat) (acc : Str), (∀ b ∈ d, b < 256) →
      get_tail key d.length i ⟨d ++ rest, p, o, c, true, e, t, r⟩ acc
        = .ok (⟨rest, p, o, c, true, e, t, r⟩, acc ++ mask_from key i d) := by
  intro d
  induction d with
  | nil => intro i acc _; simp [get_tail, mask_from]
  | cons b tl ih =>
    intro i acc hb
    have hb0 : b < 256 := hb b (by simp)
    have hm : ((b : Int) % 256).toNat = b := by omega
    simp only [List.length_cons, get_tail, List.cons_append, get_mk, hm]
    rw [ih (i + 1) _ (fun x hx => hb x (by simp [hx]))]
    simp [mask_from]

theorem get_payload_ok (big : Bool) (mask : Nat) (rest p o : Str) (c e : Bool)
    (t r : Option Nat) :
    ∀ (n : Nat) (d : Str) (i : Nat) (acc : Str), d.length ≤ n → i % 4 = 0 →
      (∀ b ∈ d, b < 256) →
      get_payload big mask d.length i ⟨d ++ rest, p, o, c, true, e, t, r⟩ acc
        = .ok (⟨rest, p, o, c, true, e, t, r⟩, acc ++ mask_from (to_mem big 4 mask) i d) := by
  intro n
  induction n using Nat.strong_induction_on with
  | _ n ih =>
    intro d i acc hn hi hb
    match d, hn, hb with
    | a :: b :: c1 :: d1 :: tl, hn, hb =>
      have ha := hb a (by simp)
      have hb1 := hb b (by simp)
      have hc := hb c1 (by simp)
      have hd := hb d1 (by simp)
      simp only [List.length_cons] at hn
      have h1 : (i + 1) % 4 = 1 := by omega
      have h2 : (i + 1 + 1) % 4 = 2 := by omega
      have h3 : (i + 1 + 1 + 1) % 4 = 3 := by omega
      have hl : (a :: b :: c1 :: d1 :: tl).length = tl.length + 4 := by simp
      rw [hl, get_payload, read_mk _ _ _ _ _ _ _ 4 (by simp)]
      simp only [List.cons_append, List.take_succ_cons, List.take_zero, List.length_cons,
        List.length_nil, ne_eq, not_true_eq_false, if_false, List.drop_succ_cons, List.drop_zero,
        word_xor big mask a b c1 d1 ha hb1 hc hd]
      rw [ih (n - 4) (by omega) tl (i + 4) _ (by omega) (by omega)
        (fun x hx => hb x (by simp [hx]))]
      simp only [mask_from, hi, h1, h2, h3, List.append_assoc, List.cons_append, List.nil_append]
    | [], _, _ => exact get_tail_ok _ rest p o c e t r [] i acc (by simp)
    | [a], _, hb => exact get_tail_ok _ rest p o c e t r [a] i acc hb
    | [a, b], _, hb => exact get_tail_ok _ rest p o c e t r [a, b] i acc hb
    | [a, b, c1], _, hb => exact get_tail_ok _ rest p o c e t r [a, b, c1] i acc hb

end websocket

namespace websocket

theorem masked_length_bits : ∀ n < 126, (0x80 ||| n) &&& 0x7F = n ∧ (0x80 ||| n) &&& 0x80 = 0x80
    ∧ (0x80 ||| n) &&& 0x0F = n &&& 0x0F := by decide

theorem to_mem_of_mem (big : Bool) (a b c d : Nat) (ha : a < 256) (hb : b < 256) (hc : c < 256)
    (hd : d < 256) : to_mem big 4 (of_mem big [a, b, c, d]) = [a, b, c, d] := by
  rw [to_mem_four, of_mem_four]
  cases big
  · simp only [Bool.false_eq_true, if_false]
    have e0 : (a + 256 * (b + 256 * (c + 256 * d))) / 256 ^ 0 % 256 = a := by omega
    have e1 : (a + 256 * (b + 256 * (c + 256 * d))) / 256 ^ 1 % 256 = b := by omega
    have e2 : (a + 256 * (b + 256 * (c + 256 * d))) / 256 ^ 2 % 256 = c := by omega
    have e3 : (a + 256 * (b + 256 * (c + 256 * d))) / 256 ^ 3 % 256 = d := by omega
    rw [e0, e1, e2, e3]
  · simp only [if_true]
    have e0 : (d + 256 * (c + 256 * (b + 256 * a))) / 256 ^ 0 % 256 = d := by omega
    have e1 : (d + 256 * (c + 256 * (b + 256 * a))) / 256 ^ 1 % 256 = c := by omega
    have e2 : (d + 256 * (c + 256 * (b + 256 * a))) / 256 ^ 2 % 256 = b := by omega
    have e3 : (d + 256 * (c + 256 * (b + 256 * a))) / 256 ^ 3 % 256 = a := by omega
    rw [e0, e1, e2, e3]

theorem mask_from_zero_key : ∀ (d : Str) (i : Nat), mask_from [0, 0, 0, 0] i d = d := by
  intro d
  induction d with
  | nil => intro i; rfl
  | cons b tl ih =>
    intro i
    have h4 : i % 4 < 4 := Nat.mod_lt _ (by norm_num)
    have hz : [0, 0, 0, 0].getD (i % 4) 0 = 0 := by
      interval_cases (i % 4) <;> rfl
    simp only [mask_from, hz, ih, Nat.xor_zero]

theorem frame_type_data (op : Nat) (rtype : response_e)
    (hop : op = 1 ∨ op = 2 ∨ op = 10 ∨ op = 8) :
    frame_type ((0x80 ||| op) &&& 0x0F) rtype
        = .ok (if op = 1 then response_e.TEXT else if op = 2 then response_e.BIN
               else if op = 10 then response_e.PONG else response_e.CLOSE)
      ∧ (0x80 ||| op) &&& 0x80 ≠ 0 := by
  rcases hop with h | h | h | h <;> subst h <;> exact ⟨rfl, by decide⟩

/-- A final frame with one of the opcodes TEXT, BIN, PONG and CLOSE and a
payload of fewer than 126 bytes whose length does not end in the bits
`1001`, masked with `key` or unmasked: `retrieve` appends the payload
(XORed byte by byte with the key when masked), sets the type from the
opcode, writes nothing, leaves the stream right behind the frame, and
closes the connection for CLOSE only. -/
theorem retrieve_final_frame (cl : client) (op : Nat) (masked : Bool) (key q rest out : Str)
    (rtype : response_e) (hg : cl.con.good = true)
    (hop : op = 1 ∨ op = 2 ∨ op = 10 ∨ op = 8)
    (hq : q.length < 126) (hq9 : q.length &&& 0x0F ≠ 9)
    (hk : key.length = 4) (hkb : ∀ b ∈ key, b < 256) (hb : ∀ b ∈ q, b < 256)
    (hi : cl.con.input = [0x80 ||| op, (if masked then 0x80 ||| q.length else q.length)]
      ++ (if masked then key else []) ++ q ++ rest) :
    cl.retrieve out rtype
      = .ok ({ cl with con := if op = 8 then ({ cl.con with input := rest } : gconnection).close
                               else { cl.con with input := rest } },
             out ++ (if masked then mask_bytewise key q else q),
             if op = 1 then response_e.TEXT else if op = 2 then response_e.BIN
             else if op = 10 then response_e.PONG else response_e.CLOSE) := by
  obtain ⟨host, enc, ⟨inp, pe, o, conn, good, e, t, r⟩, big⟩ := cl
  simp only at hg hi
  subst hg hi
  obtain ⟨b1, b2⟩ := small_length_bits q.length hq
  obtain ⟨m1, m2, m3⟩ := masked_length_bits q.length hq
  obtain ⟨hty, hfin⟩ := frame_type_data op rtype hop
  have hk0 : (to_mem big 4 0).length = 4 := by cases big <;> rfl
  unfold client.retrieve
  cases masked
  · simp only [Bool.false_eq_true, if_false, List.append_nil, List.length_append,
      List.length_cons, List.length_nil]
    unfold client.retrieve_rec
    simp only [read_mk _ _ _ _ _ _ _ 2 (by simp : 2 ≤ ([128 ||| op, q.length] ++ q ++ rest).length)]
    simp only [List.cons_append, List.nil_append, List.take_succ_cons, List.take_zero,
      List.length_cons, List.length_nil, ne_eq, not_true_eq_false, if_false,
      List.getD_cons_zero, List.getD_cons_succ, hty, frame_length, b1, b2, hq, if_true,
      of_mem_zero_key, hq9, List.drop_succ_cons, List.drop_zero, hk0]
    rw [read_mk _ _ _ _ _ _ _ q.length (by simp)]
    simp only [List.take_left, List.drop_left, hfin, if_false, List.length_take,
      List.length_append, Nat.le_add_right, Nat.min_eq_left, Nat.sub_self, List.replicate_zero,
      List.append_nil]
    rcases hop with h | h | h | h <;> subst h <;> simp
  · obtain ⟨k0, k1, k2, k3, rfl⟩ : ∃ k0 k1 k2 k3, key = [k0, k1, k2, k3] := by
      match key, hk with
      | [a, b, c, d], _ => exact ⟨a, b, c, d, rfl⟩
    have h0 := hkb k0 (by simp)
    have h1 := hkb k1 (by simp)
    have h2 := hkb k2 (by simp)
    have h3 := hkb k3 (by simp)
    have hmem := to_mem_of_mem big k0 k1 k2 k3 h0 h1 h2 h3
    simp only [if_true, List.length_append, List.length_cons, List.length_nil]
    unfold client.retrieve_rec
    simp only [read_mk _ _ _ _ _ _ _ 2
      (by simp : 2 ≤ ([128 ||| op, 128 ||| q.length] ++ [k0, k1, k2, k3] ++ q ++ rest).length)]
    simp only [List.cons_append, List.nil_append, List.take_succ_cons, List.take_zero,
      List.length_cons, List.length_nil, ne_eq, not_true_eq_false, if_false,
      List.getD_cons_zero, List.getD_cons_succ, hty, frame_length, m1, m2, m3, hq, if_true,
      hq9, List.drop_succ_cons, List.drop_zero]
    rw [read_mk _ _ _ _ _ _ _ 4 (by simp)]
    simp only [List.take_succ_cons, List.take_zero, List.length_cons, List.length_nil,
      not_true_eq_false, if_false, List.drop_succ_cons, List.drop_zero, OfNat.ofNat_ne_zero,
      not_false_eq_true, if_true]
    by_cases hz : of_mem big [k0, k1, k2, k3] = 0
    · have hzero : [k0, k1, k2, k3] = [0, 0, 0, 0] := by
        rw [← hmem, hz]; cases big <;> rfl
      simp only [hz, not_true_eq_false, if_false]
      rw [read_mk _ _ _ _ _ _ _ q.length (by simp)]
      simp only [List.take_left, List.drop_left, hfin, if_false, List.length_take,
        List.length_append, Nat.le_add_right, Nat.min_eq_left, Nat.sub_self,
        List.replicate_zero, List.append_nil, hzero, ← mask_from_zero, mask_from_zero_key]
      rcases hop with h | h | h | h <;> subst h <;> simp
    · simp only [hz, not_false_eq_true, if_true]
      rw [get_payload_ok big _ rest pe o conn e t r q.length q 0 out (le_refl _) rfl hb]
      simp only [hmem, mask_from_zero, hfin, if_false]
      rcases hop with h | h | h | h <;> subst h <;> simp

end websocket

namespace websocket

set_option maxRecDepth 100000 in
/-- C21 at a failing input: a final CLOSE frame with nine payload bytes
(status 1000 and the reason `goodbye`).  The length byte ends in the bits
`1001`, so `retrieve` takes it for a PING: alone on the stream the call
fails; followed by the TEXT frame `hi` the call returns `hi` with the type
TEXT, a PONG written and the connection still open.  A final TEXT frame of
nine bytes followed by an empty CLOSE frame is not returned either: the
call returns the CLOSE frame and the connection is closed.  A CLOSE frame
of two bytes is delivered and the connection closed, as claimed. -/
theorem retrieve_close_frame_of_nine :
    (client_on close_frame_9).retrieve [] response_e.TEXT = .error Exc.ios_failure
    ∧ ((client_on (close_frame_9 ++ ([0x81, 0x02] ++ str "hi"))).retrieve []
        response_e.BIN).map (fun p => (p.1.con.connected, p.1.con.output, p.2))
      = .ok (true, [0x8A, 0x89, 172, 86, 202, 177, 192, 218, 207, 167, 202], str "hi",
             response_e.TEXT)
    ∧ ((client_on ([0x81, 0x09] ++ str "123456789" ++ [0x88, 0x00])).retrieve []
        response_e.BIN).map (fun p => (p.1.con.connected, p.2))
      = .ok (false, [], response_e.CLOSE)
    ∧ ((client_on ([0x88, 0x02, 0x03, 0xE8] ++ ([0x81, 0x02] ++ str "hi"))).retrieve []
        response_e.BIN).map (fun p => (p.1.con.connected, p.2))
      = .ok (false, [0x03, 0xE8], response_e.CLOSE) := by
  refine ⟨?_, ?_, ?_, ?_⟩
  · rfl
  · rfl
  · rfl
  · rfl

end websocket

theorem gconnection.fail_error (con : gconnection) (e : Exc) (h : con.fail = .error e) :
    e = Exc.ios_failure := by
  unfold gconnection.fail at h
  split_ifs at h
  cases h; rfl

theorem gconnection.get_error (con : gconnection) (e : Exc) (h : con.get = .error e) :
    e = Exc.ios_failure := by
  unfold gconnection.get at h
  split_ifs at h
  · split at h
    · rename_i e1 he; cases h; exact gconnection.fail_error _ _ he
    · cases h
  · split at h
    · split at h
      · rename_i e1 he; cases h; exact gconnection.fail_error _ _ he
      · cases h
    · cases h

theorem gconnection.getCRLF_loop_error : ∀ (fuel : Nat) (con : gconnection) (rfound : Bool)
    (s : Str) (e : Exc), gconnection.getCRLF_loop fuel con rfound s = .error e →
    e = Exc.ios_failure ∨ e = Exc.unfinished := by
  intro fuel
  induction fuel with
  | zero => intro con rf s e h; simp [gconnection.getCRLF_loop] at h; exact Or.inr h.symm
  | succ n ih =>
    intro con rf s e h
    rw [gconnection.getCRLF_loop] at h
    split at h
    · rename_i e1 he; cases h; exact Or.inl (gconnection.get_error _ _ he)
    · split_ifs at h
      · exact ih _ _ _ _ h
      · exact ih _ _ _ _ h
      · exact ih _ _ _ _ h

namespace websocket

theorem skip_headers_error : ∀ (fuel : Nat) (con : gconnection) (line : Str) (e : Exc),
    skip_headers fuel con line = .error e → e = Exc.ios_failure ∨ e = Exc.unfinished := by
  intro fuel
  induction fuel with
  | zero => intro con l e h; simp [skip_headers] at h; exact Or.inr h.symm
  | succ n ih =>
    intro con l e h
    rw [skip_headers] at h
    split_ifs at h
    split at h
    · rename_i e1 he; cases h; exact gconnection.getCRLF_loop_error _ _ _ _ _ he
    · exact ih _ _ _ h

theorem lines_wire_length (hs : List Str) : hs.length ≤ (lines_wire hs).length := by
  induction hs with
  | nil => simp
  | cons p t ih => simp [lines_wire, crlf]; omega

theorem skip_headers_block (rest : Str) : ∀ (hs : List Str) (fuel : Nat) (con : gconnection)
    (line : Str), (∀ l ∈ hs, l ≠ [] ∧ 13 ∉ l) → line ≠ [] → con.good = true →
    con.input = lines_wire hs ++ crlf ++ rest → hs.length + 2 ≤ fuel →
    skip_headers fuel con line = .ok { con with input := rest } := by
  intro hs
  induction hs with
  | nil =>
    intro fuel con line _ hl hg hi hf
    obtain ⟨f1, rfl⟩ : ∃ f1, fuel = f1 + 1 + 1 := ⟨fuel - 2, by simp at hf; omega⟩
    have hl1 : line.length ≠ 0 := by simpa using hl
    rw [skip_headers, if_pos hl1, gconnection.getCRLF_line con [] rest [] (by simp) hg
      (by simpa [lines_wire, crlf] using hi)]
    simp [skip_headers]
  | cons p t ih =>
    intro fuel con line hw hl hg hi hf
    obtain ⟨f1, rfl⟩ : ∃ f1, fuel = f1 + 1 := ⟨fuel - 1, by simp at hf; omega⟩
    have hp := hw p (by simp)
    have hl1 : line.length ≠ 0 := by simpa using hl
    rw [skip_headers, if_pos hl1, gconnection.getCRLF_line con p
      (lines_wire t ++ crlf ++ rest) [] hp.2 hg
      (by simpa [lines_wire, crlf, List.append_assoc] using hi)]
    simp only [List.nil_append]
    rw [ih f1 { con with input := lines_wire t ++ crlf ++ rest } p
      (fun q hq => hw q (by simp [hq])) hp.1 hg rfl (by simp at hf ⊢; omega)]

theorem connect_start (cl : client) (resource inp : Str) (hc : cl.con.connected = false)
    (hroom : (upgrade_request cl.host resource).length ≤ osize) :
    (match cl.con.open (Peer.accepts inp) with
      | .error e => .error e
      | .ok c0 =>
        if !c0.is_open then .error Exc.ws_OPEN_FAIL
        else
          match (({ c0 with exceptions := true } : gconnection).enable_timeout 5000).write
              (upgrade_request cl.host resource) with
          | .error e => .error e
          | .ok c2 => c2.flush)
      = (.ok { input := inp, pending := [], output := upgrade_request cl.host resource,
               connected := true, good := true, exceptions := true, timeout := some 5000,
               readlimit := cl.con.readlimit } : Except Exc gconnection) := by
  simp [gconnection.open, gconnection.close, hc, gconnection.is_open,
    gconnection.enable_timeout, gconnection.write, gconnection.flush, hroom]

/-- C22 (amended): for a response whose first line is ended by CR LF,
`connect(resource)` on a client that is not connected fails with
HANDSHAKE_FAIL if and only if that line is shorter than 13 bytes or does
not have the characters `101` at the offsets 9 to 11.  When the line
passes and header lines (not empty, without CR) follow up to an empty
line, `connect` consumes them and the empty line, leaves the stream right
behind it and succeeds, the upgrade request sent.  The upgrade request,
with the host name and the resource in it, fits into the output buffer. -/
theorem connect_handshake (cl : client) (resource line rest0 : Str)
    (hc : cl.con.connected = false) (hl : 13 ∉ line)
    (hroom : (upgrade_request cl.host resource).length ≤ osize) :
    (cl.connect resource (Peer.accepts (line ++ crlf ++ rest0)) = .error Exc.ws_HANDSHAKE_FAIL
      ↔ (line.length < 13 ∨ (line.drop 9).take 3 ≠ str "101"))
    ∧ ∀ (hs : List Str) (rest : Str), 13 ≤ line.length → (line.drop 9).take 3 = str "101" →
        (∀ l ∈ hs, l ≠ [] ∧ 13 ∉ l) → rest0 = lines_wire hs ++ crlf ++ rest →
        cl.connect resource (Peer.accepts (line ++ crlf ++ rest0))
          = .ok { cl with con :=
              { input := rest, pending := [], output := upgrade_request cl.host resource,
                connected := true, good := true, exceptions := true, timeout := some 5000,
                readlimit := cl.con.readlimit } } := by
  have hopen : cl.con.is_open = false := hc
  have hstart : cl.connect resource (Peer.accepts (line ++ crlf ++ rest0))
      = if line.length < 13 then .error Exc.ws_HANDSHAKE_FAIL
        else if (line.drop 9).take 3 ≠ str "101" then .error Exc.ws_HANDSHAKE_FAIL
        else
          match skip_headers (rest0.length + 2)
              { input := rest0, pending := [], output := upgrade_request cl.host resource,
                connected := true, good := true, exceptions := true, timeout := some 5000,
                readlimit := cl.con.readlimit } line with
          | .error e => .error e
          | .ok c5 => .ok { cl with con := c5 } := by
    unfold client.connect
    simp only [hopen, Bool.false_eq_true, if_false]
    simp only [gconnection.open, gconnection.close, hc, gconnection.is_open,
      gconnection.enable_timeout, gconnection.write, gconnection.flush, Bool.false_eq_true,
      if_false, Bool.not_true, Bool.not_false, Bool.true_and, Bool.and_true, List.nil_append,
      List.append_nil, Bool.false_and, List.length_nil, Nat.zero_add, hroom, if_true]
    rw [gconnection.getCRLF_line _ line rest0 [] hl rfl (by simp [crlf])]
    simp only [List.nil_append]
    by_cases h13 : line.length < 13
    · simp only [h13, if_true]
    · have h9 : ¬ 9 > line.length := by omega
      simp only [h13, if_false, substr, h9]
  refine ⟨?_, ?_⟩
  · rw [hstart]
    constructor
    · intro h
      by_contra hcon
      have h13 : ¬ line.length < 13 := fun h1 => hcon (Or.inl h1)
      have h101 : ¬ (line.drop 9).take 3 ≠ str "101" := fun h1 => hcon (Or.inr h1)
      rw [if_neg h13, if_neg h101] at h
      split at h
      · rename_i e he
        cases h
        rcases skip_headers_error _ _ _ _ he with h1 | h1 <;> cases h1
      · cases h
    · intro h
      rcases h with h | h
      · rw [if_pos h]
      · by_cases h13 : line.length < 13
        · rw [if_pos h13]
        · rw [if_neg h13, if_pos h]
  · intro hs rest h13 h101 hw hr
    have hne : line ≠ [] := by
      intro h0; rw [h0] at h13; simp at h13
    rw [hstart, if_neg (by omega), if_neg (by simpa using h101),
      skip_headers_block rest hs _ _ line hw hne rfl hr
        (by have := lines_wire_length hs; rw [hr]; simp; omega)]

end websocket

namespace websocket

set_option maxRecDepth 100000 in
theorem connect_handshake_witness :
    (idle_client.connect (str "/chat")
        (Peer.accepts (str "HTTP/1.1 101 Switching Protocols" ++ crlf
          ++ (lines_wire [str "Upgrade: websocket", str "Connection: Upgrade"] ++ crlf
            ++ [0x81, 0x02, 0x68, 0x69])))
        = .error Exc.ws_HANDSHAKE_FAIL
      ↔ ((str "HTTP/1.1 101 Switching Protocols").length < 13
        ∨ ((str "HTTP/1.1 101 Switching Protocols").drop 9).take 3 ≠ str "101"))
    ∧ idle_client.connect (str "/chat")
        (Peer.accepts (str "HTTP/1.1 101 Switching Protocols" ++ crlf
          ++ (lines_wire [str "Upgrade: websocket", str "Connection: Upgrade"] ++ crlf
            ++ [0x81, 0x02, 0x68, 0x69])))
      = .ok { idle_client with con :=
          { input := [0x81, 0x02, 0x68, 0x69], pending := [],
            output := upgrade_request idle_client.host (str "/chat"),
            connected := true, good := true, exceptions := true, timeout := some 5000,
            readlimit := none } } :=
  ⟨(connect_handshake idle_client (str "/chat") (str "HTTP/1.1 101 Switching Protocols")
      (lines_wire [str "Upgrade: websocket", str "Connection: Upgrade"] ++ crlf
        ++ [0x81, 0x02, 0x68, 0x69]) rfl (by decide) (by decide)).1,
   (connect_handshake idle_client (str "/chat") (str "HTTP/1.1 101 Switching Protocols")
      (lines_wire [str "Upgrade: websocket", str "Connection: Upgrade"] ++ crlf
        ++ [0x81, 0x02, 0x68, 0x69]) rfl (by decide) (by decide)).2
      [str "Upgrade: websocket", str "Connection: Upgrade"] [0x81, 0x02, 0x68, 0x69]
      (by decide) (by decide) (by decide) rfl⟩

set_option maxRecDepth 100000 in
/-- C22 as stated fails: the line `HTTP/1.1 101` has the characters `101`
at the offsets 9 to 11, and `connect` fails with HANDSHAKE_FAIL because the
line has fewer than 13 bytes; with one more byte behind the code the same
response is accepted.  A response that ends before the first CR LF makes
`connect` leave with `std::ios_base::failure`, not HANDSHAKE_FAIL. -/
theorem connect_rejects_short_101 :
    ((str "HTTP/1.1 101").drop 9).take 3 = str "101"
    ∧ idle_client.connect (str "/chat")
        (Peer.accepts (str "HTTP/1.1 101\r\nUpgrade: websocket\r\n\r\n"))
      = .error Exc.ws_HANDSHAKE_FAIL
    ∧ (idle_client.connect (str "/chat")
        (Peer.accepts (str "HTTP/1.1 101 \r\nUpgrade: websocket\r\n\r\n"))).map
          (fun c => (c.con.connected, c.con.input))
      = .ok (true, [])
    ∧ idle_client.connect (str "/chat") (Peer.accepts (str "HTTP/1.1 404 Not Found"))
      = .error Exc.ios_failure := by
  refine ⟨?_, ?_, ?_, ?_⟩
  · decide
  · rfl
  · rfl
  · rfl

end websocket

/-! ## Theorems: data limit, flush, push_back and the cursor invariant -/

theorem readfunc_limit_reached (sb : gstreambuf) (ch : Channel) (len : Nat)
    (hl : sb.inlimit = true) (hr : sb.maxread ≤ sb.curread) :
    readfunc sb ch len = .ok ([], sb, ch) := by
  simp [readfunc, hl, hr]

theorem tls_readfunc_limit_reached (sb : gstreambuf) (ch : Channel) (len : Nat)
    (hl : sb.inlimit = true) (hr : sb.maxread ≤ sb.curread) :
    tls.readfunc sb ch len = .ok ([], sb, ch) := by
  simp [tls.readfunc, hl, hr]

/-- What a refill through the socket back end changes: the counter grows
by the number of bytes, which are at most `len` and are logged on the
channel; nothing else in the stream buffer changes, and bytes arrive only
while the data limit is not reached. -/
theorem readfunc_result (sb : gstreambuf) (ch : Channel) (len : Nat) (d : List Nat)
    (sb1 : gstreambuf) (ch1 : Channel) (hc : sb.curread < 2 ^ 32)
    (h : readfunc sb ch len = .ok (d, sb1, ch1)) :
    sb1 = { sb with curread := (sb.curread + d.length) % 2 ^ 32 } ∧ d.length ≤ len
      ∧ ch1.delivered = ch.delivered ++ d
      ∧ (d ≠ [] → ¬ (sb.inlimit = true ∧ sb.maxread ≤ sb.curread)) := by
  have hm : (sb.curread + 0) % 2 ^ 32 = sb.curread := by
    rw [Nat.add_zero]; exact Nat.mod_eq_of_lt hc
  have hs : sb = { sb with curread := (sb.curread + ([] : List Nat).length) % 2 ^ 32 } := by
    rw [List.length_nil, hm]
  unfold readfunc at h
  split_ifs at h with hq
  · cases h
    exact ⟨hs, by simp, by simp, by simp⟩
  · have hq2 : ¬ (sb.inlimit = true ∧ sb.maxread ≤ sb.curread) := by simpa using hq
    split at h
    · cases h; exact ⟨hs, by simp, by simp, by simp⟩
    · cases h; exact ⟨hs, by simp, by simp, by simp⟩
    · cases h
    · cases h
      exact ⟨rfl, by simp [List.length_take], rfl, fun _ => hq2⟩

theorem tls_readfunc_result (sb : gstreambuf) (ch : Channel) (len : Nat) (d : List Nat)
    (sb1 : gstreambuf) (ch1 : Channel) (hc : sb.curread < 2 ^ 32)
    (h : tls.readfunc sb ch len = .ok (d, sb1, ch1)) :
    sb1 = { sb with curread := (sb.curread + d.length) % 2 ^ 32 } ∧ d.length ≤ len
      ∧ ch1.delivered = ch.delivered ++ d
      ∧ (d ≠ [] → ¬ (sb.inlimit = true ∧ sb.maxread ≤ sb.curread)) := by
  have hm : (sb.curread + 0) % 2 ^ 32 = sb.curread := by
    rw [Nat.add_zero]; exact Nat.mod_eq_of_lt hc
  have hs : sb = { sb with curread := (sb.curread + ([] : List Nat).length) % 2 ^ 32 } := by
    rw [List.length_nil, hm]
  unfold tls.readfunc at h
  split_ifs at h with hq
  · cases h
    exact ⟨hs, by simp, by simp, by simp⟩
  · have hq2 : ¬ (sb.inlimit = true ∧ sb.maxread ≤ sb.curread) := by simpa using hq
    split at h
    · cases h; exact ⟨hs, by simp, by simp, by simp⟩
    · cases h; exact ⟨hs, by simp, by simp, by simp⟩
    · cases h
    · split_ifs at h <;>
        (cases h; exact ⟨rfl, by simp [List.length_take], rfl, fun _ => hq2⟩)

theorem readfunc_quota_inv (n base : Nat) (hn : n + isize ≤ 2 ^ 32) (sb : gstreambuf)
    (ch : Channel) (len : Nat) (hlen : len ≤ isize) (d : List Nat) (sb1 : gstreambuf)
    (ch1 : Channel) (hi : quota_inv n base sb ch)
    (h : readfunc sb ch len = .ok (d, sb1, ch1)) :
    sb1 = { sb with curread := sb1.curread } ∧ quota_inv n base sb1 ch1 := by
  obtain ⟨i1, i2, i3, i4⟩ := hi
  obtain ⟨h1, h2, h3, h4⟩ := readfunc_result sb ch len d sb1 ch1 (by omega) h
  have hc : (sb.curread + d.length) % 2 ^ 32 = sb.curread + d.length := by
    apply Nat.mod_eq_of_lt
    by_cases hd : d = []
    · rw [hd]; simp; omega
    · have := h4 hd
      have : sb.curread < sb.maxread := by
        by_contra hcon; exact this ⟨i1, by omega⟩
      omega
  have hlt : sb.curread + d.length < n + isize := by
    by_cases hd : d = []
    · rw [hd]; simpa using i3
    · have := h4 hd
      have : sb.curread < sb.maxread := by
        by_contra hcon; exact this ⟨i1, by omega⟩
      omega
  rw [hc] at h1
  subst h1
  refine ⟨rfl, i1, i2, hlt, ?_⟩
  rw [h3, List.length_append, i4]
  simp only
  omega

theorem underflow_quota_inv (n base : Nat) (hn : n + isize ≤ 2 ^ 32) (sb : gstreambuf)
    (ch : Channel) (r : Int) (sb1 : gstreambuf) (ch1 : Channel) (hi : quota_inv n base sb ch)
    (h : underflow sb ch = .ok (r, sb1, ch1)) : quota_inv n base sb1 ch1 := by
  unfold underflow at h
  split_ifs at h with h1 h2
  · cases h; exact hi
  · cases h; exact hi
  · simp only at h
    split at h
    · cases h
    · rename_i d sb2 ch2 hr
      have hinv := readfunc_quota_inv n base hn _ ch _ (Nat.sub_le _ _) d sb2 ch2
        (by
          obtain ⟨i1, i2, i3, i4⟩ := hi
          split_ifs <;> exact ⟨i1, i2, i3, i4⟩) hr
      obtain ⟨_, j1, j2, j3, j4⟩ := hinv
      split_ifs at h <;> (cases h; exact ⟨j1, j2, j3, j4⟩)

theorem uflow_quota_inv (n base : Nat) (hn : n + isize ≤ 2 ^ 32) (sb : gstreambuf)
    (ch : Channel) (r : Int) (sb1 : gstreambuf) (ch1 : Channel) (hi : quota_inv n base sb ch)
    (h : uflow sb ch = .ok (r, sb1, ch1)) : quota_inv n base sb1 ch1 := by
  unfold uflow at h
  split_ifs at h
  · split at h
    · cases h
    · rename_i r2 sb2 ch2 hu
      obtain ⟨j1, j2, j3, j4⟩ := underflow_quota_inv n base hn sb ch r2 sb2 ch2 hi hu
      cases h
      exact ⟨j1, j2, j3, j4⟩
  · obtain ⟨j1, j2, j3, j4⟩ := hi
    cases h
    exact ⟨j1, j2, j3, j4⟩

theorem xsgetn_copy_quota (k : Nat) : ∀ (sb : gstreambuf) (s : List Nat),
    (xsgetn_copy k sb s).1.inlimit = sb.inlimit ∧ (xsgetn_copy k sb s).1.maxread = sb.maxread
      ∧ (xsgetn_copy k sb s).1.curread = sb.curread := by
  induction k with
  | zero => intro sb s; simp [xsgetn_copy]
  | succ k ih =>
    intro sb s
    unfold xsgetn_copy
    split_ifs
    · exact ih _ _
    · exact ⟨rfl, rfl, rfl⟩

theorem xsgetn_loop_quota_inv (n base : Nat) (hn : n + isize ≤ 2 ^ 32) : ∀ (fuel : Nat)
    (sb : gstreambuf) (ch : Channel) (s : List Nat) (count : Nat) (r : List Nat)
    (sb1 : gstreambuf) (ch1 : Channel), quota_inv n base sb ch →
    xsgetn_loop fuel sb ch s count = .ok (r, sb1, ch1) → quota_inv n base sb1 ch1 := by
  intro fuel
  induction fuel with
  | zero => intro sb ch s count r sb1 ch1 _ h; simp [xsgetn_loop] at h
  | succ f ih =>
    intro sb ch s count r sb1 ch1 hi h
    have hq := xsgetn_copy_quota (count - s.length) sb s
    have hi2 : quota_inv n base (xsgetn_copy (count - s.length) sb s).1 ch := by
      obtain ⟨i1, i2, i3, i4⟩ := hi
      exact ⟨by rw [hq.1]; exact i1, by rw [hq.2.1]; exact i2, by rw [hq.2.2]; exact i3,
        by rw [hq.2.2]; exact i4⟩
    rw [xsgetn_loop_step _ (Nat.succ_pos f)] at h
    split_ifs at h
    · split at h
      · cases h
      · rename_i ret sb2 ch2 hu
        have hi3 := underflow_quota_inv n base hn _ ch ret sb2 ch2 hi2 hu
        split_ifs at h
        · cases h; exact hi3
        · exact ih _ _ _ _ _ _ _ hi3 h
    · cases h; exact hi2

theorem run_reads_quota_inv (n base : Nat) (hn : n + isize ≤ 2 ^ 32) : ∀ (ops : List ReadOp)
    (sb : gstreambuf) (ch : Channel) (sb1 : gstreambuf) (ch1 : Channel),
    quota_inv n base sb ch → run_reads ops sb ch = .ok (sb1, ch1) → quota_inv n base sb1 ch1 := by
  intro ops
  induction ops with
  | nil => intro sb ch sb1 ch1 hi h; simp [run_reads] at h; obtain ⟨rfl, rfl⟩ := h; exact hi
  | cons op t ih =>
    intro sb ch sb1 ch1 hi h
    cases op with
    | get_byte =>
      rw [run_reads] at h
      split at h
      · cases h
      · rename_i r sb2 ch2 hu
        exact ih _ _ _ _ (uflow_quota_inv n base hn sb ch r sb2 ch2 hi hu) h
    | peek =>
      rw [run_reads] at h
      split at h
      · cases h
      · rename_i r sb2 ch2 hu
        exact ih _ _ _ _ (underflow_quota_inv n base hn sb ch r sb2 ch2 hi hu) h
    | read_n count =>
      rw [run_reads] at h
      split at h
      · cases h
      · rename_i r sb2 ch2 hu
        exact ih _ _ _ _ (xsgetn_loop_quota_inv n base hn _ sb ch [] count r sb2 ch2 hi hu) h
    | push_back b =>
      rw [run_reads] at h
      refine ih _ _ _ _ ?_ h
      obtain ⟨i1, i2, i3, i4⟩ := hi
      unfold pbackfail
      split_ifs <;> exact ⟨i1, i2, i3, i4⟩

theorem sync_loop_spec : ∀ (fuel : Nat) (sb : gstreambuf) (ch : Channel) (out size : Nat),
    out < size → size ≤ sb.obuffer.length → size - out ≤ fuel →
    (takes_all ch.outgoing (size - out) = true →
      ∃ ch1, sync_loop fuel sb ch out size = .ok (0, { sb with ocur := 0 }, ch1)
        ∧ ch1.sent = ch.sent ++ (sb.obuffer.drop out).take (size - out))
    ∧ (takes_all ch.outgoing (size - out) = false →
      (∃ ch1, sync_loop fuel sb ch out size = .ok (-1, sb, ch1))
        ∨ sync_loop fuel sb ch out size = .error Exc.tcp) := by
  intro fuel
  induction fuel with
  | zero => intro sb ch out size h1 h2 h3; omega
  | succ f ih =>
    intro sb ch out size h1 h2 h3
    obtain ⟨k, hk⟩ : ∃ k, size - out = k + 1 := ⟨size - out - 1, by omega⟩
    have hlen : ((sb.obuffer.drop out).take (size - out)).length = size - out := by
      rw [List.length_take, List.length_drop]; omega
    rw [sync_loop]
    rcases hev : ch.outgoing with _ | ⟨ev, rest⟩
    · simp [writefunc, hev, hk, takes_all]
    · cases ev with
      | error => simp [writefunc, hev, hk, takes_all]
      | accept j =>
        by_cases hj : j = 0
        · subst hj
          simp [writefunc, hev, hk, takes_all]
        · have hn : ((List.take (size - out) (List.drop out sb.obuffer)).take j).length
              = min j (size - out) := by
            rw [List.length_take, hlen]
          simp only [writefunc, hev, hn]
          have hpos : min j (size - out) ≠ 0 := by omega
          rw [if_neg hpos]
          by_cases hdone : out + min j (size - out) = size
          · have hjk : size - out ≤ j := by omega
            simp only [hdone, ne_eq, not_true_eq_false, if_false]
            constructor
            · intro _
              refine ⟨_, rfl, ?_⟩
              simp only
              rw [List.take_of_length_le (by rw [hlen]; exact hjk)]
            · intro ht
              rw [hk] at ht
              simp only [takes_all, hj, if_false] at ht
              have : k + 1 - min j (k + 1) = 0 := by omega
              rw [this] at ht
              cases k <;> simp [takes_all] at ht
          · have hjk : j < size - out := by omega
            have hmin : min j (size - out) = j := by omega
            simp only [hdone, ne_eq, not_false_eq_true, if_true]
            rw [hmin] at hdone ⊢
            have hrec := ih sb
              ⟨ch.incoming, rest, ch.delivered,
                ch.sent ++ (List.take (size - out) (List.drop out sb.obuffer)).take j⟩
              (out + j) size (by omega) h2 (by omega)
            have htk : takes_all (SendEvent.accept j :: rest) (size - out)
                = takes_all rest (size - (out + j)) := by
              rw [hk]
              simp only [takes_all, hj, if_false]
              congr 1
              omega
            rw [htk]
            constructor
            · intro ht
              obtain ⟨ch1, e1, e2⟩ := hrec.1 ht
              refine ⟨ch1, e1, ?_⟩
              rw [e2]
              simp only [List.append_assoc]
              congr 1
              rw [List.take_take, Nat.min_eq_left (by omega)]
              have e3 : size - out = j + (size - (out + j)) := by omega
              rw [e3, List.take_add, List.drop_drop]
            · intro ht
              exact hrec.2 ht

/-- C26: for a stream buffer with `k > 0` bytes buffered for output,
`flush` (`sync`) ends for every channel.  When the channel takes all `k`
bytes, every write taking at least one byte, it returns 0, the channel has
received exactly the `k` buffered bytes in order and the output cursor is
back at the origin; when a write takes no byte or fails before that, it
returns -1 at once or leaves with the exception of the channel, the stream
buffer as it was. -/
theorem flush_drains_or_fails (sb : gstreambuf) (ch : Channel) (hk : 0 < sb.ocur)
    (hlen : sb.ocur ≤ sb.obuffer.length) :
    (takes_all ch.outgoing sb.ocur = true →
      ∃ ch1, sync sb ch = .ok (0, { sb with ocur := 0 }, ch1)
        ∧ ch1.sent = ch.sent ++ sb.obuffer.take sb.ocur)
    ∧ (takes_all ch.outgoing sb.ocur = false →
      (∃ ch1, sync sb ch = .ok (-1, sb, ch1)) ∨ sync sb ch = .error Exc.tcp) := by
  have h := sync_loop_spec sb.ocur sb ch 0 sb.ocur hk hlen (by omega)
  unfold sync
  rw [if_pos hk]
  simpa using h

/-- C27 at its failing inputs: with the cursor anywhere but at the buffer
origin, `push_back(0xFF)` stores the byte and moves the cursor back by one,
and then returns `*_icur` converted from `char`, which is -1, the value of
`eof`: the call reports failure although it was carried out, and the stream
state has changed. -/
theorem push_back_ff_reports_failure (sb : gstreambuf) (h : sb.icur ≠ 0) :
    pbackfail sb (some 0xFF)
      = (eof, { sb with ibuffer := sb.ibuffer.set (sb.icur - 1) 0xFF, icur := sb.icur - 1 }) := by
  unfold pbackfail
  rw [if_neg h]
  rfl

theorem push_back_ff_reports_failure_witness :
    pbackfail (inbuf [0x41, 0x42] 1 2 2) (some 0xFF) = (eof, inbuf [0xFF, 0x42] 0 2 2) :=
  push_back_ff_reports_failure (inbuf [0x41, 0x42] 1 2 2) (by decide)

/-- C28 at its failing inputs: a `get_byte` on a bound stream whose buffer
is used up (cursor at the fill end, not at the capacity) and whose refill
brings no byte.  `uflow` returns `eof` and still moves the cursor on by
one: the cursor is then beyond the fill end. -/
theorem get_byte_passes_fill_end (sb : gstreambuf) (ch : Channel) (sb2 : gstreambuf)
    (ch2 : Channel) (hb : sb.bound = true) (he : sb.icur = sb.iend) (hf : sb.icur ≠ isize)
    (hc : sb.curread < 2 ^ 32)
    (hr : readfunc sb ch (isize - sb.icur) = .ok ([], sb2, ch2)) :
    uflow sb ch = .ok (eof, { sb with icur := sb.iend + 1 }, ch2)
      ∧ ({ sb with icur := sb.iend + 1 } : gstreambuf).iend
          < ({ sb with icur := sb.iend + 1 } : gstreambuf).icur := by
  obtain ⟨h1, _, _, _⟩ := readfunc_result sb ch _ [] sb2 ch2 hc hr
  have hm : (sb.curread + ([] : List Nat).length) % 2 ^ 32 = sb.curread := by
    rw [List.length_nil, Nat.add_zero]; exact Nat.mod_eq_of_lt hc
  rw [hm] at h1
  have h2 : sb2 = sb := h1
  rw [h2] at hr
  refine ⟨?_, by simp⟩
  have hf2 : sb.iend ≠ isize := by rw [← he]; exact hf
  rw [he] at hr
  unfold uflow underflow
  rw [if_pos he, if_neg (by omega)]
  simp only [hb, Bool.not_true, Bool.false_eq_true, if_false, hf, hf2, decide_False,
    Bool.false_and, hr, writeAt_nil, List.length_nil, if_true, he]

set_option maxRecDepth 100000 in
theorem get_byte_passes_fill_end_witness :
    uflow (inbuf (List.replicate isize 0) 0 0 0) (inchan [RecvEvent.timeout] [])
        = .ok (eof, { inbuf (List.replicate isize 0) 0 0 0 with icur := 0 + 1 }, inchan [] [])
      ∧ ({ inbuf (List.replicate isize 0) 0 0 0 with icur := 0 + 1 } : gstreambuf).iend
          < ({ inbuf (List.replicate isize 0) 0 0 0 with icur := 0 + 1 } : gstreambuf).icur :=
  get_byte_passes_fill_end (inbuf (List.replicate isize 0) 0 0 0)
    (inchan [RecvEvent.timeout] []) (inbuf (List.replicate isize 0) 0 0 0) (inchan [] [])
    rfl rfl (by decide) (by decide) rfl

set_option maxRecDepth 100000 in
theorem flush_drains_or_fails_witness :
    ∃ ch1, sync (outbuf (str "hello" ++ List.replicate (osize - 5) 0) 5)
        (outchan [SendEvent.accept 2, SendEvent.accept 10])
        = .ok (0, { outbuf (str "hello" ++ List.replicate (osize - 5) 0) 5 with ocur := 0 }, ch1)
      ∧ ch1.sent = (outchan [SendEvent.accept 2, SendEvent.accept 10]).sent
          ++ (outbuf (str "hello" ++ List.replicate (osize - 5) 0) 5).obuffer.take
              (outbuf (str "hello" ++ List.replicate (osize - 5) 0) 5).ocur :=
  (flush_drains_or_fails (outbuf (str "hello" ++ List.replicate (osize - 5) 0) 5)
    (outchan [SendEvent.accept 2, SendEvent.accept 10]) (by decide)
    (by rw [outbuf, List.length_append, List.length_replicate]; decide)).1 (by decide)

namespace clock

end clock

namespace tcp

/-- For a client that has its stream buffer, `open` and `close` keep
`is_open()` and the binding of the stream buffer in step: a successful
`open` leaves it connected and bound with empty buffers, a failed `open`
and `close` leave it not connected and not bound. -/
theorem open_close_with_buffer (sb_init : Bool) (cl : client) (sb : gstreambuf) (peer : Peer)
    (hs : cl.sb = some sb) (hi : cl.connected = false → sb.bound = false) :
    (∃ o, cl.open sb_init peer = .ok o ∧ o.cl.is_open = o.cl.bound
      ∧ (∀ inp, peer = Peer.accepts inp → o.cl.connected = true ∧ o.cl.buffers_empty = true)
      ∧ ((peer = Peer.refused ∨ peer = Peer.unresolved) → o.cl.connected = false))
    ∧ ∃ c, cl.close = .ok c ∧ c.is_open = false ∧ c.bound = false := by
  obtain ⟨sb0, conn, good⟩ := cl
  simp only at hs hi
  subst hs
  cases conn
  · have hb := hi rfl
    cases peer <;> cases sb_init <;>
      simp [client.open, client.close, client._disconnect, client._connect, client._resetsb,
        client._createsb, client.is_open, client.bound, client.buffers_empty, hb,
        gstreambuf.reset_bind, gstreambuf.reset, new_streambuf]
  · cases peer <;> cases sb_init <;>
      simp [client.open, client.close, client._disconnect, client._connect, client._resetsb,
        client._createsb, client.is_open, client.bound, client.buffers_empty,
        gstreambuf.reset_bind, gstreambuf.reset, new_streambuf]

/-- C30 at a failing input: two clients in one process.  The first `open`
of the first client creates its stream buffer and sets the static flag of
`_connect`; the second client then never gets a stream buffer, and its
`open`, when the connection is set up, calls `_sb->reset(_socket)` through
the null pointer.  A refused connection leaves it not connected, without
a stream buffer. -/
theorem second_client_open_fails :
    (new_client.open false (Peer.accepts [])).map
        (fun o => (o.sb_init, o.cl.is_open, o.cl.bound, o.cl.buffers_empty))
      = .ok (true, true, true, true)
    ∧ new_client.open true (Peer.accepts []) = .error Exc.undefined
    ∧ new_client.open true Peer.refused
      = .ok { sb_init := true, cl := { sb := none, connected := false, good := false },
              thrown := none } := by
  refine ⟨?_, ?_, ?_⟩
  · rfl
  · rfl
  · rfl

end tcp

/-! ## Theorems: the cookie parser -/

theorem findChar_none (c : Nat) : ∀ (s : Str), c ∉ s → findChar c s = none := by
  intro s
  induction s with
  | nil => intro _; rfl
  | cons x t ih =>
    intro h
    have hx : x ≠ c := fun e => h (by simp [e])
    have ht : c ∉ t := fun e => h (by simp [e])
    simp [findChar, hx, ih ht]

theorem findChar_lt (c : Nat) : ∀ (s : Str) (i : Nat), findChar c s = some i → i < s.length := by
  intro s
  induction s with
  | nil => intro i h; simp [findChar] at h
  | cons x t ih =>
    intro i h
    unfold findChar at h
    split_ifs at h
    · cases h; simp
    · cases hf : findChar c t with
      | none => rw [hf] at h; simp at h
      | some j =>
        rw [hf] at h
        simp at h
        have := ih j hf
        simp; omega

theorem find_from_append (c : Nat) (pre rest : Str) :
    find_from c (pre ++ rest) pre.length = (findChar c rest).map (· + pre.length) := by
  simp [find_from]

theorem substr_append (pre rest : Str) (n : Option Nat) :
    substr (pre ++ rest) pre.length n
      = .ok (match n with
             | some k => rest.take k
             | none => rest) := by
  unfold substr
  rw [if_neg (by simp)]
  cases n <;> simp

namespace http

/-- One pass of the loop of `cookieParser` on a pair that is ended by a
semicolon. -/
theorem cookieParser_loop_pair (fuel : Nat) (pre k v rest : Str) (m : StrMap) (hk : 61 ∉ k)
    (hv : 59 ∉ v) :
    cookieParser_loop (fuel + 1) (pre ++ (k ++ [61] ++ v ++ [59] ++ rest)) pre.length m
      = cookieParser_loop fuel (pre ++ (k ++ [61] ++ v ++ [59] ++ rest))
          (pre ++ (k ++ [61] ++ v ++ [59])).length (map_set m k v) := by
  have e1 : find_from 61 (pre ++ (k ++ [61] ++ v ++ [59] ++ rest)) pre.length
      = some (k.length + pre.length) := by
    rw [find_from_append]
    have : k ++ [61] ++ v ++ [59] ++ rest = k ++ 61 :: (v ++ [59] ++ rest) := by simp
    rw [this, findChar_append 61 k _ hk]; rfl
  have e2 : pre ++ (k ++ [61] ++ v ++ [59] ++ rest)
      = (pre ++ k ++ [61]) ++ (v ++ [59] ++ rest) := by simp
  have e3 : k.length + pre.length + 1 = (pre ++ k ++ [61]).length := by simp; omega
  have e4 : find_from 59 (pre ++ (k ++ [61] ++ v ++ [59] ++ rest)) (k.length + pre.length + 1)
      = some (v.length + (pre ++ k ++ [61]).length) := by
    rw [e2, e3, find_from_append]
    have : v ++ [59] ++ rest = v ++ 59 :: rest := by simp
    rw [this, findChar_append 59 v _ hv]; rfl
  have e5 : substr (pre ++ (k ++ [61] ++ v ++ [59] ++ rest)) pre.length
      (some (k.length + pre.length - pre.length)) = .ok k := by
    rw [substr_append]; simp
  have e6 : substr (pre ++ (k ++ [61] ++ v ++ [59] ++ rest)) (k.length + pre.length + 1)
      (some (v.length + (pre ++ k ++ [61]).length - (k.length + pre.length + 1))) = .ok v := by
    rw [e3, e2, substr_append]; simp
  rw [cookieParser_loop, e1]
  simp only [e5, e4, Option.map_some', e6]
  congr 1
  simp; omega

/-- The loop on complete pairs, up to what follows them. -/
theorem cookieParser_loop_pairs (rest : Str) : ∀ (ps : List (Str × Str)) (fuel : Nat)
    (pre : Str) (m : StrMap), (∀ p ∈ ps, 61 ∉ p.1 ∧ 59 ∉ p.2) →
    cookieParser_loop (fuel + ps.length) (pre ++ (pairs_wire ps ++ rest)) pre.length m
      = cookieParser_loop fuel (pre ++ (pairs_wire ps ++ rest)) (pre ++ pairs_wire ps).length
          (stored m ps) := by
  intro ps
  induction ps with
  | nil => intro fuel pre m _; simp [pairs_wire, stored]
  | cons p t ih =>
    intro fuel pre m hw
    have hp := hw p (by simp)
    have e : pre ++ (pairs_wire (p :: t) ++ rest)
        = pre ++ (p.1 ++ [61] ++ p.2 ++ [59] ++ (pairs_wire t ++ rest)) := by
      simp [pairs_wire]
    have e2 : pre ++ (p.1 ++ [61] ++ p.2 ++ [59] ++ (pairs_wire t ++ rest))
        = (pre ++ (p.1 ++ [61] ++ p.2 ++ [59])) ++ (pairs_wire t ++ rest) := by simp
    rw [List.length_cons, ← Nat.add_assoc, e,
      cookieParser_loop_pair (fuel + t.length) pre p.1 p.2 _ m hp.1 hp.2, e2,
      ih fuel _ _ (fun q hq => hw q (by simp [hq]))]
    simp [pairs_wire, stored]

end http
namespace http

theorem cookieParser_loop_fragment (fuel : Nat) (pre frag : Str) (m : StrMap)
    (hf : 61 ∉ frag) : cookieParser_loop (fuel + 1) (pre ++ frag) pre.length m = .ok m := by
  rw [cookieParser_loop, find_from_append, findChar_none 61 frag hf]
  rfl

theorem cookieParser_loop_last (fuel : Nat) (pre k v : Str) (m : StrMap) (hk : 61 ∉ k)
    (hv : 59 ∉ v) :
    cookieParser_loop (fuel + 1) (pre ++ (k ++ [61] ++ v)) pre.length m
      = .ok (map_set m k v) := by
  have e1 : find_from 61 (pre ++ (k ++ [61] ++ v)) pre.length
      = some (k.length + pre.length) := by
    rw [find_from_append]
    have : k ++ [61] ++ v = k ++ 61 :: v := by simp
    rw [this, findChar_append 61 k _ hk]; rfl
  have e2 : pre ++ (k ++ [61] ++ v) = (pre ++ k ++ [61]) ++ v := by simp
  have e3 : k.length + pre.length + 1 = (pre ++ k ++ [61]).length := by simp; omega
  have e4 : find_from 59 (pre ++ (k ++ [61] ++ v)) (k.length + pre.length + 1) = none := by
    rw [e2, e3, find_from_append, findChar_none 59 v hv]; rfl
  have e5 : substr (pre ++ (k ++ [61] ++ v)) pre.length
      (some (k.length + pre.length - pre.length)) = .ok k := by
    rw [substr_append]; simp
  have e6 : substr (pre ++ (k ++ [61] ++ v)) (k.length + pre.length + 1) none = .ok v := by
    rw [e3, e2, substr_append]
  rw [cookieParser_loop, e1]
  simp only [e5, e4, Option.map_none', e6]

theorem pairs_wire_length (ps : List (Str × Str)) : ps.length ≤ (pairs_wire ps).length := by
  induction ps with
  | nil => simp
  | cons p t ih => simp [pairs_wire]; omega

theorem find_from_bounds (c : Nat) (s : Str) (pos cur : Nat) (h : find_from c s pos = some cur) :
    pos ≤ cur ∧ cur < s.length := by
  unfold find_from at h
  split_ifs at h with hp
  cases hf : findChar c (s.drop pos) with
  | none => rw [hf] at h; simp at h
  | some i =>
    rw [hf] at h
    simp at h
    have := findChar_lt c _ _ hf
    simp at this
    omega

/-- The loop of `cookieParser` ends and returns a mapping, whatever the
string. -/
theorem cookieParser_loop_total (s : Str) : ∀ (fuel : Nat) (start : Nat) (m : StrMap),
    start ≤ s.length → s.length - start < fuel → ∃ r, cookieParser_loop fuel s start m = .ok r := by
  intro fuel
  induction fuel with
  | zero => intro start m _ h; omega
  | succ f ih =>
    intro start m hb hf
    rw [cookieParser_loop]
    cases h1 : find_from 61 s start with
    | none => exact ⟨m, rfl⟩
    | some cur =>
      obtain ⟨b1, b2⟩ := find_from_bounds 61 s start cur h1
      have hs1 : substr s start (some (cur - start)) = .ok ((s.drop start).take (cur - start)) := by
        unfold substr; rw [if_neg (by omega)]
      simp only [hs1]
      cases h2 : find_from 59 s (cur + 1) with
      | none =>
        have hs2 : substr s (cur + 1) none = .ok (s.drop (cur + 1)) := by
          unfold substr; rw [if_neg (by omega)]
        simp only [Option.map_none', hs2]
        exact ⟨_, rfl⟩
      | some cur1 =>
        obtain ⟨c1, c2⟩ := find_from_bounds 59 s (cur + 1) cur1 h2
        have hs2 : substr s (cur + 1) (some (cur1 - (cur + 1)))
            = .ok ((s.drop (cur + 1)).take (cur1 - (cur + 1))) := by
          unfold substr; rw [if_neg (by omega)]
        simp only [Option.map_some', hs2]
        exact ih (cur1 + 1) _ (by omega) (by omega)

/-- C37: `cookieParser` returns a mapping for every input string (the loop
ends and nothing is thrown).  An input without `=` gives the empty
mapping.  After pairs `key=value;` (no `=` in a key, no `;` in a value), a
trailing fragment without `=` is ignored and the pairs before it are kept;
a last pair without a closing `;` takes the rest of the string as its
value. -/
theorem cookieParser_total_and_tolerant (s : Str) :
    (∃ m, cookieParser s = .ok m)
    ∧ (61 ∉ s → cookieParser s = .ok [])
    ∧ ∀ (ps : List (Str × Str)), (∀ p ∈ ps, 61 ∉ p.1 ∧ 59 ∉ p.2) →
        (∀ frag, 61 ∉ frag → s = pairs_wire ps ++ frag → cookieParser s = .ok (stored [] ps))
        ∧ (∀ k v, 61 ∉ k → 59 ∉ v → s = pairs_wire ps ++ (k ++ [61] ++ v) →
            cookieParser s = .ok (stored [] (ps ++ [(k, v)]))) := by
  refine ⟨cookieParser_loop_total s _ 0 [] (Nat.zero_le _) (by omega), ?_, ?_⟩
  · intro h
    exact cookieParser_loop_fragment s.length [] s [] h
  · intro ps hw
    constructor
    · intro frag hf hs
      subst hs
      have hl := pairs_wire_length ps
      obtain ⟨f, hf2⟩ : ∃ f, (pairs_wire ps ++ frag).length + 1 = (f + 1) + ps.length :=
        ⟨(pairs_wire ps ++ frag).length - ps.length, by simp; omega⟩
      unfold cookieParser
      rw [hf2]
      have := cookieParser_loop_pairs frag ps (f + 1) [] [] hw
      simp only [List.nil_append, List.length_nil] at this
      rw [this]
      exact cookieParser_loop_fragment f (pairs_wire ps) frag _ hf
    · intro k v hk hv hs
      subst hs
      have hl := pairs_wire_length ps
      obtain ⟨f, hf2⟩ : ∃ f, (pairs_wire ps ++ (k ++ [61] ++ v)).length + 1
          = (f + 1) + ps.length :=
        ⟨(pairs_wire ps ++ (k ++ [61] ++ v)).length - ps.length, by simp; omega⟩
      unfold cookieParser
      rw [hf2]
      have := cookieParser_loop_pairs (k ++ [61] ++ v) ps (f + 1) [] [] hw
      simp only [List.nil_append, List.length_nil] at this
      rw [this, cookieParser_loop_last f (pairs_wire ps) k v _ hk hv, stored_append]
      rfl

theorem cookieParser_total_and_tolerant_witness :
    (∃ m, cookieParser (str "a=1;b=2;c") = .ok m)
    ∧ cookieParser (str "a=1;b=2;c") = .ok [(str "a", str "1"), (str "b", str "2")]
    ∧ cookieParser (str "a=1;b=2;c=3") = .ok [(str "a", str "1"), (str "b", str "2"),
        (str "c", str "3")]
    ∧ cookieParser (str "abc") = .ok [] :=
  ⟨(cookieParser_total_and_tolerant (str "a=1;b=2;c")).1,
   ((cookieParser_total_and_tolerant (str "a=1;b=2;c")).2.2
      [(str "a", str "1"), (str "b", str "2")] (by decide)).1 (str "c") (by decide) rfl,
   ((cookieParser_total_and_tolerant (str "a=1;b=2;c=3")).2.2
      [(str "a", str "1"), (str "b", str "2")] (by decide)).2 (str "c") (str "3") (by decide)
      (by decide) rfl,
   (cookieParser_total_and_tolerant (str "abc")).2.1 (by decide)⟩

/-- C31 at a failing input: for the cookie string `a=1; b=2` the parser
goes on right behind the semicolon, so the space becomes part of the next
key: the mapping holds the key ` b` and nothing under `b`.  Without the
space (`a=1;b=2`) both keys are as written. -/
theorem cookieParser_keeps_space :
    cookieParser (str "a=1; b=2") = .ok [(str " b", str "2"), (str "a", str "1")]
    ∧ map_find [(str " b", str "2"), (str "a", str "1")] (str "b") = none
    ∧ cookieParser (str "a=1;b=2") = .ok [(str "a", str "1"), (str "b", str "2")] := by
  refine ⟨?_, ?_, ?_⟩
  · rfl
  · rfl
  · rfl

end http

/-! ## Theorems: the request message -/

theorem strLt_irrefl : ∀ (a : Str), strLt a a = false := by
  intro a
  induction a with
  | nil => rfl
  | cons x t ih => simp [strLt, ih]

theorem strLt_trans : ∀ (a b c : Str), strLt a b = true → strLt b c = true → strLt a c = true := by
  intro a
  induction a with
  | nil =>
    intro b c h1 h2
    cases b with
    | nil => simp [strLt] at h1
    | cons y u =>
      cases c with
      | nil => simp [strLt] at h2
      | cons z w => rfl
  | cons x t ih =>
    intro b c h1 h2
    cases b with
    | nil => simp [strLt] at h1
    | cons y u =>
      cases c with
      | nil => simp [strLt] at h2
      | cons z w =>
        unfold strLt at h1 h2 ⊢
        by_cases hxy : x < y
        · by_cases hyz : y < z
          · have : x < z := by omega
            simp [this]
          · by_cases hzy : z < y
            · simp [hyz, hzy] at h2
            · have : x < z := by omega
              simp [this]
        · by_cases hyx : y < x
          · simp [hxy, hyx] at h1
          · have hxe : x = y := by omega
            subst hxe
            simp only [hxy, if_false] at h1
            by_cases hyz : x < z
            · simp [hyz]
            · by_cases hzy : z < x
              · simp [hyz, hzy] at h2
              · simp only [hyz, hzy, if_false] at h2 ⊢
                exact ih u w h1 h2

theorem strLt_total : ∀ (a b : Str), a ≠ b → strLt a b = false → strLt b a = true := by
  intro a
  induction a with
  | nil =>
    intro b hne h
    cases b with
    | nil => exact absurd rfl hne
    | cons y u => simp [strLt] at h
  | cons x t ih =>
    intro b hne h
    cases b with
    | nil => rfl
    | cons y u =>
      unfold strLt at h ⊢
      by_cases hxy : x < y
      · simp [hxy] at h
      · by_cases hyx : y < x
        · simp [hyx]
        · have hxe : x = y := by omega
          subst hxe
          simp only [hxy, if_false] at h ⊢
          exact ih u (fun e => hne (by rw [e])) h

theorem map_find_none_of_lt (k : Str) : ∀ (m : StrMap),
    (∀ p ∈ m, strLt k p.1 = true) → map_find m k = none := by
  intro m
  induction m with
  | nil => intro _; rfl
  | cons p t ih =>
    intro h
    obtain ⟨k1, v1⟩ := p
    have h1 := h (k1, v1) (by simp)
    have hne : k1 ≠ k := by
      intro e
      rw [e, strLt_irrefl] at h1
      cases h1
    simp [map_find, hne, ih (fun q hq => h q (by simp [hq]))]

theorem map_set_keys (k v : Str) : ∀ (m : StrMap) (q : Str × Str), q ∈ map_set m k v →
    q.1 = k ∨ q ∈ m := by
  intro m
  induction m with
  | nil => intro q hq; simp [map_set] at hq; left; rw [hq]
  | cons p t ih =>
    intro q hq
    obtain ⟨k1, v1⟩ := p
    unfold map_set at hq
    split_ifs at hq with h1 h2
    · simp at hq
      rcases hq with hq | hq
      · left; rw [hq]
      · right; simp [hq]
    · simp at hq
      rcases hq with hq | hq | hq
      · left; rw [hq]
      · right; simp [hq]
      · right; simp [hq]
    · simp at hq
      rcases hq with hq | hq
      · right; simp [hq]
      · rcases ih q hq with h | h
        · left; exact h
        · right; simp [h]

theorem map_set_wf (k v : Str) : ∀ (m : StrMap), map_wf m → map_wf (map_set m k v) := by
  intro m
  induction m with
  | nil => intro _; simp [map_set, map_wf]
  | cons p t ih =>
    intro hw
    obtain ⟨k1, v1⟩ := p
    unfold map_wf at hw ⊢
    rw [List.pairwise_cons] at hw
    obtain ⟨h1, h2⟩ := hw
    unfold map_set
    split_ifs with e1 e2
    · subst e1
      rw [List.pairwise_cons]
      exact ⟨h1, h2⟩
    · rw [List.pairwise_cons, List.pairwise_cons]
      refine ⟨?_, h1, h2⟩
      intro q hq
      simp at hq
      rcases hq with hq | hq
      · rw [hq]; exact e2
      · exact strLt_trans _ _ _ e2 (h1 q hq)
    · rw [List.pairwise_cons]
      refine ⟨?_, ih h2⟩
      intro q hq
      rcases map_set_keys k v t q hq with h | h
      · rw [h]
        exact strLt_total k k1 (fun e => e1 e.symm) (by simpa using e2)
      · exact h1 q h

theorem map_erase_mem (k : Str) : ∀ (m : StrMap) (q : Str × Str), q ∈ map_erase m k → q ∈ m := by
  intro m
  induction m with
  | nil => intro q hq; simp [map_erase] at hq
  | cons p t ih =>
    intro q hq
    obtain ⟨k1, v1⟩ := p
    unfold map_erase at hq
    split_ifs at hq
    · simp [hq]
    · simp at hq
      rcases hq with hq | hq
      · simp [hq]
      · have := ih q hq
        simp [this]

theorem map_erase_wf (k : Str) : ∀ (m : StrMap), map_wf m → map_wf (map_erase m k) := by
  intro m
  induction m with
  | nil => intro _; simp [map_erase, map_wf]
  | cons p t ih =>
    intro hw
    obtain ⟨k1, v1⟩ := p
    unfold map_wf at hw ⊢
    rw [List.pairwise_cons] at hw
    obtain ⟨h1, h2⟩ := hw
    unfold map_erase
    split_ifs
    · exact h2
    · rw [List.pairwise_cons]
      exact ⟨fun q hq => h1 q (map_erase_mem k t q hq), ih h2⟩

theorem map_find_erase_same (k : Str) : ∀ (m : StrMap), map_wf m →
    map_find (map_erase m k) k = none := by
  intro m
  induction m with
  | nil => intro _; rfl
  | cons p t ih =>
    intro hw
    obtain ⟨k1, v1⟩ := p
    unfold map_wf at hw
    rw [List.pairwise_cons] at hw
    obtain ⟨h1, h2⟩ := hw
    unfold map_erase
    split_ifs with e
    · subst e
      exact map_find_none_of_lt k1 t h1
    · simp [map_find, e, ih h2]
theorem str_host_ne_length : str "Host" ≠ str "Content-Length" := by decide

namespace http

theorem message_apply_kept (m : message) (op : MsgOp) (hw : map_wf m.header)
    (hk : m.length_kept) : map_wf (m.apply op).header ∧ (m.apply op).length_kept := by
  cases op with
  | host h =>
    refine ⟨map_set_wf _ _ _ hw, ?_⟩
    intro d hd
    simp only [message.apply, message.set_host] at hd ⊢
    rw [map_find_set_other _ _ _ _ str_host_ne_length]
    exact hk d hd
  | method x => exact ⟨hw, hk⟩
  | resource r => exact ⟨hw, hk⟩
  | body data =>
    refine ⟨map_set_wf _ _ _ hw, ?_⟩
    intro d hd
    simp only [message.apply, message.set_body, Option.some.injEq] at hd ⊢
    rw [← hd, map_find_set_same]
  | body_view view =>
    refine ⟨map_set_wf _ _ _ hw, ?_⟩
    intro d hd
    simp only [message.apply, message.set_body_view, Option.some.injEq] at hd ⊢
    rw [← hd, map_find_set_same, List.length_take,
      Nat.min_eq_left (Nat.mod_le _ _)]
  | clear =>
    refine ⟨by simp [message.apply, message.clear, message.clearbody, map_erase, map_wf], ?_⟩
    intro d hd
    simp [message.apply, message.clear, message.clearbody] at hd
  | clearbody =>
    refine ⟨map_erase_wf _ _ hw, ?_⟩
    intro d hd
    simp [message.apply, message.clearbody] at hd

theorem message_run_kept : ∀ (ops : List MsgOp) (m : message), map_wf m.header →
    m.length_kept → map_wf (m.run ops).header ∧ (m.run ops).length_kept := by
  intro ops
  induction ops with
  | nil => intro m hw hk; exact ⟨hw, hk⟩
  | cons op t ih =>
    intro m hw hk
    obtain ⟨h1, h2⟩ := message_apply_kept m op hw hk
    exact ih (m.apply op) h1 h2

/-- C32: the operations of `message` keep body and `Content-Length` in
step.  After `body(data, size)` and `body(view)` the header is present with
the decimal text of the body size; after `clearbody()` and `clear()` the
body is unset (size 0) and the header is absent; `host()`, `method()` and
`resource()` change neither the body nor the header.  So if a set body has
its `Content-Length`, it still has after any sequence of these
operations. -/
theorem message_content_length (m : message) (hw : map_wf m.header) :
    (∀ data, (m.set_body data).body = some data
      ∧ map_find (m.set_body data).header (str "Content-Length")
          = some (numeral 10 data.length))
    ∧ (∀ view, view.length < 2 ^ 32 → (m.set_body_view view).body = some view
      ∧ map_find (m.set_body_view view).header (str "Content-Length")
          = some (numeral 10 view.length))
    ∧ (m.clearbody.body = none ∧ m.clearbody.bsize = 0
      ∧ map_find m.clearbody.header (str "Content-Length") = none)
    ∧ (m.clear.body = none ∧ m.clear.bsize = 0
      ∧ map_find m.clear.header (str "Content-Length") = none)
    ∧ (∀ h, (m.set_host h).body = m.body
      ∧ map_find (m.set_host h).header (str "Content-Length")
          = map_find m.header (str "Content-Length"))
    ∧ (∀ x, (m.set_method x).body = m.body ∧ (m.set_method x).header = m.header)
    ∧ (∀ r, (m.set_resource r).body = m.body ∧ (m.set_resource r).header = m.header)
    ∧ (m.length_kept → ∀ ops, (m.run ops).length_kept) := by
  refine ⟨?_, ?_, ?_, ?_, ?_, ?_, ?_, ?_⟩
  · intro data
    exact ⟨rfl, map_find_set_same _ _ _⟩
  · intro view hv
    have hm : view.length % 2 ^ 32 = view.length := Nat.mod_eq_of_lt hv
    refine ⟨?_, ?_⟩
    · simp only [message.set_body_view, hm, List.take_length]
    · simp only [message.set_body_view, hm]
      exact map_find_set_same _ _ _
  · exact ⟨rfl, rfl, map_find_erase_same _ _ hw⟩
  · exact ⟨rfl, rfl, rfl⟩
  · intro h
    exact ⟨rfl, map_find_set_other _ _ _ _ str_host_ne_length⟩
  · intro x; exact ⟨rfl, rfl⟩
  · intro r; exact ⟨rfl, rfl⟩
  · intro hk ops
    exact (message_run_kept ops m hw hk).2

theorem message_init_wf (x : method_e) (host : Str) :
    map_wf (message.init x).header ∧ map_wf (message.init_host x host).header
      ∧ map_wf (message.init_method x host).header := by
  refine ⟨?_, ?_, ?_⟩
  · exact map_set_wf _ _ _ (by simp [map_wf])
  · exact map_set_wf _ _ _ (map_set_wf _ _ _ (by simp [map_wf]))
  · exact map_set_wf _ _ _ (map_set_wf _ _ _ (map_set_wf _ _ _ (by simp [map_wf])))

theorem message_content_length_witness :
    ((message.init_method method_e.POST (str "h")).set_body (str "hello")).body
        = some (str "hello")
    ∧ map_find ((message.init_method method_e.POST (str "h")).set_body (str "hello")).header
        (str "Content-Length") = some (numeral 10 5)
    ∧ map_find ((message.init_method method_e.POST (str "h")).set_body (str "hello")).clearbody.header
        (str "Content-Length") = none
    ∧ ((message.init_method method_e.POST (str "h")).run
        [MsgOp.body (str "hello"), MsgOp.host (str "x"), MsgOp.resource (str "/a")]).length_kept :=
  ⟨((message_content_length (message.init_method method_e.POST (str "h"))
      (message_init_wf method_e.POST (str "h")).2.2).1 (str "hello")).1,
   ((message_content_length (message.init_method method_e.POST (str "h"))
      (message_init_wf method_e.POST (str "h")).2.2).1 (str "hello")).2,
   (message_content_length ((message.init_method method_e.POST (str "h")).set_body (str "hello"))
      (map_set_wf _ _ _ (message_init_wf method_e.POST (str "h")).2.2)).2.2.1.2.2,
   (message_content_length (message.init_method method_e.POST (str "h"))
      (message_init_wf method_e.POST (str "h")).2.2).2.2.2.2.2.2.2
      (fun d hd => by cases hd) _⟩

end http

/-- C33: `put_byte(b)` (`overflow` with the byte `b`) on a bound stream.
With room in the output buffer the byte is stored at the cursor and the
channel is not touched.  With the buffer full (16 KiB buffered) and a
channel that takes all of it, the whole buffer goes to the channel first
and `b` becomes the first buffered byte.  With the buffer full and a flush
that fails, the call reports `eof` with the stream buffer as it was (or the
channel error is raised), so `b` is not buffered. -/
theorem put_byte_buffers_or_flushes (sb : gstreambuf) (ch : Channel) (b : Nat)
    (hb : sb.bound = true) (hl : sb.obuffer.length = osize) :
    (sb.ocur < osize →
      overflow sb ch (some b)
        = .ok (0, { sb with obuffer := sb.obuffer.set sb.ocur b, ocur := sb.ocur + 1 }, ch))
    ∧ (sb.ocur = osize → takes_all ch.outgoing osize = true →
      ∃ ch1, overflow sb ch (some b)
          = .ok (0, { sb with obuffer := sb.obuffer.set 0 b, ocur := 0 + 1 }, ch1)
        ∧ ch1.sent = ch.sent ++ sb.obuffer)
    ∧ (sb.ocur = osize → takes_all ch.outgoing osize = false →
      (∃ ch1, overflow sb ch (some b) = .ok (eof, sb, ch1))
        ∨ overflow sb ch (some b) = .error Exc.tcp) := by
  have hpos : 0 < osize := by decide
  refine ⟨?_, ?_, ?_⟩
  · intro hlt
    have hne : sb.ocur ≠ osize := by omega
    simp [overflow, hne, hb]
  · intro he ht
    have h := (sync_loop_spec sb.ocur sb ch 0 sb.ocur (by omega) (by omega) (by omega)).1
      (by simpa [he] using ht)
    obtain ⟨ch1, e1, e2⟩ := h
    refine ⟨ch1, ?_, ?_⟩
    · simp only [overflow, he, if_true, sync, hpos]
      rw [he] at e1
      simp only [e1]
      simp [hb]
    · rw [e2]
      simp [he, ← hl]
  · intro he ht
    have h := (sync_loop_spec sb.ocur sb ch 0 sb.ocur (by omega) (by omega) (by omega)).2
      (by simpa [he] using ht)
    rw [he] at h
    rcases h with ⟨ch1, e1⟩ | e1
    · left
      refine ⟨ch1, ?_⟩
      simp only [overflow, he, if_true, sync, hpos, e1]
    · right
      simp only [overflow, he, if_true, sync, hpos, e1]

theorem sync_loop_stalls : ∀ (js : List Nat) (fuel : Nat) (sb : gstreambuf) (ch : Channel)
    (out size : Nat) (later : List SendEvent), (∀ j ∈ js, 0 < j) → out + js.sum < size →
    size ≤ sb.obuffer.length → js.length < fuel →
    ch.outgoing = js.map SendEvent.accept ++ SendEvent.accept 0 :: later →
    sync_loop fuel sb ch out size
      = .ok (-1, sb, ⟨ch.incoming, later, ch.delivered,
          ch.sent ++ (sb.obuffer.drop out).take js.sum⟩) := by
  intro js
  induction js with
  | nil =>
    intro fuel sb ch out size later _ h1 h2 h3 h4
    obtain ⟨f, rfl⟩ : ∃ f, fuel = f + 1 := ⟨fuel - 1, by simp at h3; omega⟩
    simp only [List.map_nil, List.nil_append] at h4
    simp [sync_loop, writefunc, h4]
  | cons j t ih =>
    intro fuel sb ch out size later hp h1 h2 h3 h4
    obtain ⟨f, rfl⟩ : ∃ f, fuel = f + 1 := ⟨fuel - 1, by simp at h3; omega⟩
    have hj : 0 < j := hp j (by simp)
    simp only [List.sum_cons] at h1
    simp only [List.map_cons, List.cons_append] at h4
    have hlen : ((sb.obuffer.drop out).take (size - out)).length = size - out := by
      rw [List.length_take, List.length_drop]; omega
    have hn : ((List.take (size - out) (List.drop out sb.obuffer)).take j).length = j := by
      rw [List.length_take, hlen]; omega
    rw [sync_loop]
    simp only [writefunc, h4, hn]
    rw [if_neg (by omega), if_pos (by omega)]
    rw [ih f sb _ (out + j) size later (fun x hx => hp x (by simp [hx])) (by omega) h2
      (by simp at h3; omega) rfl]
    simp only [List.sum_cons, List.append_assoc]
    congr 5
    rw [List.take_take, Nat.min_eq_left (by omega), List.take_add, List.drop_drop]

/-- C40: a flush whose writes transfer `js.sum > 0` bytes (in steps of
positive size) and then make no progress fails with `-1` and leaves the
stream buffer, output bytes and output cursor, exactly as before, although
the channel has received those bytes; a later flush on a channel that takes
everything sends the whole buffered content, the same bytes included, so
they reach the channel twice. -/
theorem failed_flush_resends (sb : gstreambuf) (ch : Channel) (js : List Nat)
    (later : List SendEvent) (hp : ∀ j ∈ js, 0 < j) (hj : 0 < js.sum)
    (hlt : js.sum < sb.ocur) (hlen : sb.ocur ≤ sb.obuffer.length)
    (hout : ch.outgoing = js.map SendEvent.accept ++ SendEvent.accept 0 :: later)
    (hlater : takes_all later sb.ocur = true) :
    ∃ ch1 ch2, sync sb ch = .ok (-1, sb, ch1)
      ∧ ch1.sent = ch.sent ++ sb.obuffer.take js.sum
      ∧ sync sb ch1 = .ok (0, { sb with ocur := 0 }, ch2)
      ∧ ch2.sent = ch.sent ++ sb.obuffer.take js.sum ++ sb.obuffer.take sb.ocur := by
  have hk : 0 < sb.ocur := by omega
  have hjl : js.length ≤ js.sum := by
    clear hj hlt hout
    induction js with
    | nil => simp
    | cons x t ih =>
      have := hp x (by simp)
      have := ih (fun y hy => hp y (by simp [hy]))
      simp; omega
  have e1 := sync_loop_stalls js sb.ocur sb ch 0 sb.ocur later hp (by omega) hlen (by omega) hout
  obtain ⟨ch2, e2, e3⟩ := (sync_loop_spec sb.ocur sb
    ⟨ch.incoming, later, ch.delivered, ch.sent ++ (sb.obuffer.drop 0).take js.sum⟩
    0 sb.ocur hk hlen (by omega)).1 (by simpa using hlater)
  refine ⟨⟨ch.incoming, later, ch.delivered, ch.sent ++ (sb.obuffer.drop 0).take js.sum⟩, ch2,
    ?_, ?_, ?_, ?_⟩
  · unfold sync; rw [if_pos hk]; exact e1
  · simp
  · unfold sync; rw [if_pos hk]; exact e2
  · rw [e3]; simp

theorem writeAt_length (buf : List Nat) (pos : Nat) (d : List Nat)
    (h : pos + d.length ≤ buf.length) : (writeAt buf pos d).length = buf.length := by
  simp only [writeAt, List.length_append, List.length_take, List.length_drop]
  omega

theorem writeAt_take (buf : List Nat) (pos : Nat) (d : List Nat) (h : pos ≤ buf.length) :
    (writeAt buf pos d).take pos = buf.take pos := by
  have hl : (buf.take pos).length = pos := by rw [List.length_take]; omega
  unfold writeAt
  rw [List.append_assoc, List.take_append_of_le_length (by omega)]
  exact List.take_of_length_le (by omega)

theorem writeAt_drop_take (buf : List Nat) (pos : Nat) (d : List Nat) (h : pos ≤ buf.length) :
    ((writeAt buf pos d).drop pos).take d.length = d := by
  have hl : (buf.take pos).length = pos := by rw [List.length_take]; omega
  unfold writeAt
  rw [List.append_assoc, List.drop_append_of_le_length (by omega),
    List.drop_of_length_le (by omega), List.nil_append, List.take_left]

theorem writeAt_getD (buf : List Nat) (pos : Nat) (d : List Nat) (h : pos ≤ buf.length)
    (hd : d ≠ []) : (writeAt buf pos d).getD pos 0 = d.getD 0 0 := by
  have hl : (buf.take pos).length = pos := by rw [List.length_take]; omega
  have hd0 : 0 < d.length := List.length_pos.mpr hd
  unfold writeAt
  rw [List.getD_eq_getElem?_getD, List.getD_eq_getElem?_getD, List.append_assoc,
    List.getElem?_append_right (by omega), hl, Nat.sub_self, List.getElem?_append_left hd0]

/-- A refill that finds the buffer used up and at its capacity and gets
the bytes `d` from the channel: the last 2048 bytes move to the front, the
cursor is at offset 2048 and the new bytes follow from there. -/
theorem underflow_compacts (sb : gstreambuf) (ch : Channel) (d : List Nat)
    (rest : List RecvEvent) (hb : sb.bound = true) (hc : sb.icur = isize) (he : sb.iend = isize)
    (hlen : sb.ibuffer.length = isize)
    (hq : (sb.inlimit && decide (sb.curread ≥ sb.maxread)) = false)
    (hin : ch.incoming = RecvEvent.data d :: rest) (hd : d ≠ [])
    (hdl : d.length ≤ isize - putback) :
    ∃ sb1, underflow sb ch = .ok ((d.getD 0 0 : Nat), sb1,
        { ch with incoming := rest, delivered := ch.delivered ++ d })
      ∧ sb1.icur = putback ∧ sb1.iend = putback + d.length ∧ sb1.ibuffer.length = isize
      ∧ sb1.ibuffer.take putback = sb.ibuffer.drop (isize - putback)
      ∧ (sb1.ibuffer.drop putback).take d.length = d := by
  have hne2 : isize ≠ 0 := by decide
  have hpi : putback ≤ isize := by decide
  have hdl0 : d.length ≠ 0 := fun h => hd (List.length_eq_zero.mp h)
  have hl2 : ((sb.ibuffer.drop (isize - putback)).take putback).length = putback := by
    rw [List.length_take, List.length_drop, hlen]; omega
  have hw1 : (writeAt sb.ibuffer 0 ((sb.ibuffer.drop (isize - putback)).take putback)).length
      = isize := by
    rw [writeAt_length _ _ _ (by rw [hl2, hlen]; omega), hlen]
  have hw1t : (writeAt sb.ibuffer 0 ((sb.ibuffer.drop (isize - putback)).take putback)).take
      putback = sb.ibuffer.drop (isize - putback) := by
    have h := writeAt_drop_take sb.ibuffer 0 ((sb.ibuffer.drop (isize - putback)).take putback)
      (Nat.zero_le _)
    rw [hl2, List.drop_zero] at h
    rw [h]
    exact List.take_of_length_le (by rw [List.length_drop, hlen]; omega)
  refine ⟨{ sb with
      ibuffer := writeAt (writeAt sb.ibuffer 0 ((sb.ibuffer.drop (isize - putback)).take putback))
        putback d,
      icur := putback, iend := putback + d.length,
      curread := (sb.curread + d.length) % 2 ^ 32 }, ?_, rfl, rfl, ?_, ?_, ?_⟩
  · unfold underflow
    rw [if_neg (by omega)]
    simp only [hb, hc, he, Bool.not_true, Bool.false_eq_true, if_false, decide_True, ne_eq, hne2,
      not_false_eq_true, Bool.and_self, if_true]
    simp only [readfunc, hq, Bool.false_eq_true, if_false, hin,
      List.take_of_length_le hdl, List.drop_of_length_le hdl, if_true, hdl0]
    rw [writeAt_getD _ _ _ (by rw [hw1]; exact hpi) hd]
  · show (writeAt _ putback d).length = isize
    rw [writeAt_length _ _ _ (by rw [hw1]; omega), hw1]
  · show (writeAt _ putback d).take putback = _
    rw [writeAt_take _ _ _ (by rw [hw1]; exact hpi), hw1t]
  · exact writeAt_drop_take _ _ _ (by rw [hw1]; exact hpi)

theorem char_to_int_eof (b : Nat) (hb : b < 256) : char_to_int b = eof ↔ b = 0xFF := by
  unfold char_to_int eof
  by_cases h1 : b < 128
  · rw [if_pos h1]
    constructor
    · intro h; omega
    · intro h; omega
  · rw [if_neg h1]
    constructor
    · intro h; omega
    · intro h; omega

/-- Consecutive `push_back` calls while the cursor is far enough from the
origin: every call moves the cursor back by one and returns the byte
converted from `char`, which is `eof` for the byte `0xFF` only. -/
theorem push_back_all_spec : ∀ (bs : List Nat) (sb : gstreambuf), bs.length ≤ sb.icur →
    (push_back_all bs sb).1 = bs.map char_to_int
      ∧ (push_back_all bs sb).2.icur = sb.icur - bs.length := by
  intro bs
  induction bs with
  | nil => intro sb _; exact ⟨rfl, rfl⟩
  | cons b t ih =>
    intro sb h
    have hne : sb.icur ≠ 0 := by simp at h; omega
    have hp : pbackfail sb (some b)
        = (char_to_int b, { sb with ibuffer := sb.ibuffer.set (sb.icur - 1) b,
                                    icur := sb.icur - 1 }) := by
      unfold pbackfail; rw [if_neg hne]
    obtain ⟨i1, i2⟩ := ih { sb with ibuffer := sb.ibuffer.set (sb.icur - 1) b,
                                    icur := sb.icur - 1 } (by simp at h ⊢; omega)
    constructor
    · simp only [push_back_all, hp, i1, List.map_cons]
    · simp only [push_back_all, hp, i2, List.length_cons]
      omega

/-- C34: after a refill that found the input buffer used up and at its
capacity and got the bytes `d` from the channel, the cursor is at offset
2048, the 2048 bytes before it are the last 2048 bytes of the old buffer
and the new bytes follow from the cursor on; but `push_back(0xFF)` in that
window returns `eof`, the value that reports failure, while it moves the
cursor back. -/
theorem push_back_ff_in_window (sb : gstreambuf) (ch : Channel) (d : List Nat)
    (rest : List RecvEvent) (hb : sb.bound = true) (hc : sb.icur = isize) (he : sb.iend = isize)
    (hlen : sb.ibuffer.length = isize)
    (hq : (sb.inlimit && decide (sb.curread ≥ sb.maxread)) = false)
    (hin : ch.incoming = RecvEvent.data d :: rest) (hd : d ≠ [])
    (hdl : d.length ≤ isize - putback) :
    ∃ c sb1 ch1, underflow sb ch = .ok (c, sb1, ch1)
      ∧ sb1.icur = putback ∧ sb1.iend = putback + d.length
      ∧ sb1.ibuffer.take putback = sb.ibuffer.drop (isize - putback)
      ∧ (sb1.ibuffer.drop putback).take d.length = d
      ∧ (pbackfail sb1 (some 0xFF)).1 = eof
      ∧ (pbackfail sb1 (some 0xFF)).2.icur = putback - 1 := by
  obtain ⟨sb1, h1, h2, h3, _, h5, h6⟩ :=
    underflow_compacts sb ch d rest hb hc he hlen hq hin hd hdl
  refine ⟨_, sb1, _, h1, h2, h3, h5, h6, ?_, ?_⟩
  · unfold pbackfail
    rw [if_neg (by rw [h2]; decide)]
    rfl
  · unfold pbackfail
    rw [if_neg (by rw [h2]; decide)]
    simp [h2]

/-- With the cursor at the fill end and below the capacity, a refill leaves
the bytes before the cursor as they were and stores the new bytes from the
cursor on. -/
theorem underflow_appends (sb : gstreambuf) (ch : Channel) (d : List Nat) (rest : List RecvEvent)
    (hb : sb.bound = true) (hc : sb.icur = sb.iend) (hlt : sb.icur < isize)
    (hlen : sb.ibuffer.length = isize)
    (hin : ch.incoming = RecvEvent.data d :: rest) (hl : sb.inlimit = false)
    (hd : d ≠ []) (hdl : d.length ≤ isize - sb.icur) :
    ∃ c sb1 ch1, underflow sb ch = .ok (c, sb1, ch1) ∧ sb1.icur = sb.icur
      ∧ sb1.iend = sb.icur + d.length
      ∧ sb1.ibuffer.take sb.icur = sb.ibuffer.take sb.icur
      ∧ (sb1.ibuffer.drop sb.icur).take d.length = d :=
  ⟨_, _, _, underflow_fill sb ch d rest hb hc hlt hin hl hd hdl, rfl, rfl,
    writeAt_take _ _ _ (by omega), writeAt_drop_take _ _ _ (by omega)⟩

theorem put_byte_buffers_or_flushes_witness :
    overflow (outbuf (List.replicate osize 7) 3) (outchan []) (some 9)
        = .ok (0, { outbuf (List.replicate osize 7) 3 with
                      obuffer := (List.replicate osize 7).set 3 9, ocur := 3 + 1 }, outchan [])
      ∧ ∃ ch1, overflow (outbuf (List.replicate osize 7) osize)
            (outchan [SendEvent.accept osize]) (some 9)
          = .ok (0, { outbuf (List.replicate osize 7) osize with
                        obuffer := (List.replicate osize 7).set 0 9, ocur := 0 + 1 }, ch1)
        ∧ ch1.sent = [] ++ List.replicate osize 7 :=
  ⟨(put_byte_buffers_or_flushes (outbuf (List.replicate osize 7) 3) (outchan []) 9 rfl
      (List.length_replicate _ _)).1 (by decide),
   (put_byte_buffers_or_flushes (outbuf (List.replicate osize 7) osize)
      (outchan [SendEvent.accept osize]) 9 rfl (List.length_replicate _ _)).2.1 rfl (by rfl)⟩

theorem failed_flush_resends_witness :
    ∃ ch1 ch2,
      sync (outbuf (str "hello" ++ List.replicate (osize - 5) 0) 5)
          (outchan [SendEvent.accept 2, SendEvent.accept 0, SendEvent.accept 5])
        = .ok (-1, outbuf (str "hello" ++ List.replicate (osize - 5) 0) 5, ch1)
      ∧ ch1.sent = [] ++ (str "hello" ++ List.replicate (osize - 5) 0).take 2
      ∧ sync (outbuf (str "hello" ++ List.replicate (osize - 5) 0) 5) ch1
        = .ok (0, { outbuf (str "hello" ++ List.replicate (osize - 5) 0) 5 with ocur := 0 }, ch2)
      ∧ ch2.sent = [] ++ (str "hello" ++ List.replicate (osize - 5) 0).take 2
          ++ (str "hello" ++ List.replicate (osize - 5) 0).take 5 :=
  failed_flush_resends (outbuf (str "hello" ++ List.replicate (osize - 5) 0) 5)
    (outchan [SendEvent.accept 2, SendEvent.accept 0, SendEvent.accept 5]) [2]
    [SendEvent.accept 5] (by decide) (by decide) (by decide)
    (by show 5 ≤ (str "hello" ++ List.replicate (osize - 5) 0).length
        rw [List.length_append, List.length_replicate]; decide)
    rfl (by rfl)

theorem push_back_ff_in_window_witness :
    ∃ c sb1 ch1,
      underflow (full_inbuf (List.replicate isize 7)) (inchan [RecvEvent.data (str "hi")] [])
        = .ok (c, sb1, ch1)
      ∧ sb1.icur = putback ∧ sb1.iend = putback + (str "hi").length
      ∧ sb1.ibuffer.take putback = (List.replicate isize 7).drop (isize - putback)
      ∧ (sb1.ibuffer.drop putback).take (str "hi").length = str "hi"
      ∧ (pbackfail sb1 (some 0xFF)).1 = eof
      ∧ (pbackfail sb1 (some 0xFF)).2.icur = putback - 1 :=
  push_back_ff_in_window (full_inbuf (List.replicate isize 7))
    (inchan [RecvEvent.data (str "hi")] []) (str "hi") [] rfl rfl rfl
    (List.length_replicate _ _) rfl rfl (by decide) (by decide)
theorem set_take_succ : ∀ (l : List Nat) (n c : Nat), n < l.length →
    (l.set n c).take (n + 1) = l.take n ++ [c] := by
  intro l
  induction l with
  | nil => intro n c h; simp at h
  | cons a t ih =>
    intro n c h
    cases n with
    | zero => simp
    | succ m =>
      simp only [List.set_cons_succ, List.take_succ_cons, List.cons_append, List.cons.injEq,
        true_and]
      exact ih m c (by simpa using h)

/-- The copy loop of `xsputn` with room for all the bytes: they are stored
behind what the output buffer holds and none is left over. -/
theorem xsputn_copy_fits : ∀ (s : List Nat) (sb : gstreambuf),
    sb.ocur + s.length ≤ osize → sb.ocur + s.length ≤ sb.obuffer.length →
    (xsputn_copy s sb).2 = []
      ∧ (xsputn_copy s sb).1.ocur = sb.ocur + s.length
      ∧ (xsputn_copy s sb).1.obuffer.take (sb.ocur + s.length) = sb.obuffer.take sb.ocur ++ s
      ∧ (xsputn_copy s sb).1.obuffer.length = sb.obuffer.length
      ∧ (xsputn_copy s sb).1.bound = sb.bound := by
  intro s
  induction s with
  | nil => intro sb _ _; simp [xsputn_copy]
  | cons c cs ih =>
    intro sb h1 h2
    simp only [List.length_cons] at h1 h2
    have hne : sb.ocur ≠ osize := by omega
    unfold xsputn_copy
    rw [if_pos hne]
    obtain ⟨i1, i2, i3, i4, i5⟩ := ih
      { sb with obuffer := sb.obuffer.set sb.ocur c, ocur := sb.ocur + 1 }
      (by simp only []; omega) (by simp only [List.length_set]; omega)
    simp only [List.length_set] at i2 i3 i4 i5
    refine ⟨i1, by rw [i2, List.length_cons]; omega, ?_, i4, i5⟩
    have e : sb.ocur + (cs.length + 1) = sb.ocur + 1 + cs.length := by omega
    rw [List.length_cons, e, i3, set_take_succ _ _ _ (by omega), List.append_assoc]
    rfl

/-- What `write_n` does on a bound stream: with room in the output buffer
for all the bytes it stores them, touches no channel and returns their
number; with more bytes than there is room for it does not return, for any
bound on the passes of its outer loop. -/
theorem xsputn_fits_or_never_returns (fuel : Nat) (sb : gstreambuf) (ch : Channel) (s : List Nat)
    (hb : sb.bound = true) (ho : sb.ocur ≤ osize) (hl : sb.obuffer.length = osize) :
    (sb.ocur + s.length ≤ osize →
      xsputn (fuel + 1) sb ch s = .ok (s.length, (xsputn_copy s sb).1, ch)
        ∧ (xsputn_copy s sb).1.ocur = sb.ocur + s.length
        ∧ (xsputn_copy s sb).1.obuffer.take (sb.ocur + s.length) = sb.obuffer.take sb.ocur ++ s)
    ∧ (osize < sb.ocur + s.length → xsputn fuel sb ch s = .error Exc.unfinished) := by
  constructor
  · intro h
    obtain ⟨i1, i2, i3, _, _⟩ := xsputn_copy_fits s sb h (by omega)
    refine ⟨?_, i2, i3⟩
    unfold xsputn
    simp only [hb, Bool.not_true, Bool.false_eq_true, if_false]
    unfold xsputn_loop
    simp only [i1, List.length_nil, Nat.sub_zero, ne_eq, not_true_eq_false, if_false]
  · intro h
    unfold xsputn
    simp only [hb, Bool.not_true, Bool.false_eq_true, if_false]
    exact xsputn_loop_stuck ch _ fuel sb s ho (by omega) (le_refl _)

namespace websocket

theorem hton_two (hi lo : Nat) (h1 : hi < 256) (h2 : lo < 256) :
    hton false 2 (of_mem false [hi, lo]) = 257 * lo := by
  simp [hton, hton_loop, of_mem, to_mem, List.range_succ]
  omega

theorem to_mem_eight_be (L : Nat) (h : L < 2 ^ 32) :
    to_mem true 8 L
      = [0, 0, 0, 0, L / 16777216 % 256, L / 65536 % 256, L / 256 % 256, L % 256] := by
  simp [to_mem, List.range_succ]
  omega

/-- The bytes of a little-endian value read back from memory are the bytes
it was made of. -/
theorem to_mem_of_mem_le : ∀ (bs : List Nat), (∀ b ∈ bs, b < 256) →
    to_mem false bs.length (of_mem false bs) = bs := by
  intro bs
  induction bs with
  | nil => intro _; rfl
  | cons a t ih =>
    intro h
    have ha : a < 256 := h a (by simp)
    have iht := ih (fun b hb => h b (by simp [hb]))
    simp only [to_mem, of_mem, Bool.false_eq_true, if_false, List.foldr_cons, List.length_cons]
      at iht ⊢
    rw [List.range_succ_eq_map, List.map_cons, List.map_map]
    congr 1
    · simp only [pow_zero, Nat.div_one]
      omega
    · conv_rhs => rw [← iht]
      apply List.map_congr_left
      intro i _
      simp only [Function.comp, pow_succ]
      rw [Nat.mul_comm (256 ^ i) 256, ← Nat.div_div_eq_div_mul]
      congr 2
      omega

theorem hton_eight_bytes (big : Bool) (b3 b2 b1 b0 : Nat) (h3 : b3 < 256) (h2 : b2 < 256)
    (h1 : b1 < 256) (h0 : b0 < 256) :
    hton big 8 (of_mem big [0, 0, 0, 0, b3, b2, b1, b0]) % 2 ^ 32
      = b0 + 256 * b1 + 65536 * b2 + 16777216 * b3 := by
  cases big
  · have hm := to_mem_of_mem_le [0, 0, 0, 0, b3, b2, b1, b0] (by
      intro b hb
      simp only [List.mem_cons, List.mem_singleton, List.not_mem_nil, or_false] at hb
      rcases hb with h | h | h | h | h | h | h | h <;> subst h <;> first | assumption | decide)
    simp only [List.length_cons, List.length_nil] at hm
    unfold hton
    rw [if_neg (by decide), hm]
    simp [hton_loop, of_mem, List.range_succ]
    omega
  · simp [hton, of_mem]
    omega

theorem hton_eight (big : Bool) (L : Nat) (h : L < 2 ^ 32) :
    hton big 8 (of_mem big (to_mem true 8 L)) % 2 ^ 32 = L := by
  rw [to_mem_eight_be L h, hton_eight_bytes big _ _ _ _ (Nat.mod_lt _ (by decide))
    (Nat.mod_lt _ (by decide)) (Nat.mod_lt _ (by decide)) (Nat.mod_lt _ (by decide))]
  omega

end websocket
namespace websocket

/-- C35 at its failing inputs: an unmasked final BIN frame with the 7-bit
field 126 and the 16-bit length bytes `hi lo` (the length `256 * hi + lo`
in big-endian order), received on a little-endian host.  `retrieve` takes
`257 * lo` as the payload length, the low byte twice, and appends that many
of the following bytes. -/
theorem retrieve_length_16_low_byte_twice (cl : client) (hi lo : Nat) (rest out : Str)
    (rtype : response_e) (hg : cl.con.good = true) (hle : cl.bigendian = false)
    (h1 : hi < 256) (h2 : lo < 256) (hlen : 257 * lo ≤ rest.length)
    (hin : cl.con.input = [0x82, 0x7E, hi, lo] ++ rest) :
    cl.retrieve out rtype
      = .ok ({ cl with con := { cl.con with input := rest.drop (257 * lo) } },
             out ++ rest.take (257 * lo), response_e.BIN) := by
  obtain ⟨host, enc, ⟨inp, pe, o, conn, good, e, t, r⟩, big⟩ := cl
  simp only at hg hin hle
  subst hg hin hle
  have hty : frame_type (0x82 &&& 0x0F) rtype = .ok response_e.BIN := rfl
  unfold client.retrieve
  simp only [List.length_append, List.length_cons, List.length_nil]
  unfold client.retrieve_rec
  simp only [read_mk _ _ _ _ _ _ _ 2 (by simp : 2 ≤ ([0x82, 0x7E, hi, lo] ++ rest).length)]
  simp only [List.cons_append, List.nil_append, List.take_succ_cons, List.take_zero,
    List.length_cons, List.length_nil, ne_eq, not_true_eq_false, if_false,
    List.getD_cons_zero, List.getD_cons_succ, hty, frame_length, List.drop_succ_cons,
    List.drop_zero]
  rw [if_neg (by decide), if_pos (by decide)]
  simp only [read_mk _ _ _ _ _ _ _ 2 (by simp : 2 ≤ (hi :: lo :: rest).length)]
  simp only [List.take_succ_cons, List.take_zero, List.length_cons, List.length_nil, ne_eq,
    not_true_eq_false, if_false, List.drop_succ_cons, List.drop_zero, hton_two hi lo h1 h2]
  rw [if_neg (by decide)]
  have hk0 : (to_mem false 4 0).length = 4 := rfl
  simp only [hk0, ne_eq, not_true_eq_false, if_false, of_mem_zero_key]
  rw [if_neg (by decide)]
  simp only [read_mk _ _ _ _ _ _ _ (257 * lo) hlen]
  rw [if_neg (by decide)]
  simp only [List.length_take, Nat.min_eq_left hlen, Nat.sub_self, List.replicate_zero,
    List.append_nil]
  rw [if_neg (by decide)]

end websocket
namespace websocket

theorem retrieve_length_16_low_byte_twice_witness :
    (client_on ([0x82, 0x7E, 1, 0] ++ List.replicate 256 7)).retrieve [] response_e.TEXT
      = .ok ({ client_on ([0x82, 0x7E, 1, 0] ++ List.replicate 256 7) with
                con := { (client_on ([0x82, 0x7E, 1, 0] ++ List.replicate 256 7)).con with
                          input := (List.replicate 256 7).drop (257 * 0) } },
             [] ++ (List.replicate 256 7).take (257 * 0), response_e.BIN) :=
  retrieve_length_16_low_byte_twice (client_on ([0x82, 0x7E, 1, 0] ++ List.replicate 256 7))
    1 0 (List.replicate 256 7) [] response_e.TEXT rfl rfl (by decide) (by decide)
    (Nat.zero_le _) rfl

set_option maxRecDepth 100000 in
/-- The frame `82 7E 00 7E` with its 126 payload bytes on a little-endian
host: `retrieve` asks for 32382 bytes and leaves with an I/O failure. -/
theorem retrieve_length_126_fails :
    (client_on ([0x82, 0x7E, 0, 0x7E] ++ List.replicate 126 7)).retrieve [] response_e.TEXT
      = .error Exc.ios_failure := by
  rfl

/-- C36: an unmasked final BIN frame with the 7-bit field 127 and the
64-bit length `L < 2^32` in big-endian order, followed by `L` payload
bytes `p`.  On a little-endian and on a big-endian host alike `retrieve`
appends exactly `p` to the output buffer, reports BIN and leaves the stream
right behind the frame. -/
theorem retrieve_length_64 (cl : client) (L : Nat) (p rest out : Str) (rtype : response_e)
    (hg : cl.con.good = true) (hL : L < 2 ^ 32) (hp : p.length = L)
    (hin : cl.con.input = [0x82, 0x7F] ++ to_mem true 8 L ++ p ++ rest) :
    cl.retrieve out rtype
      = .ok ({ cl with con := { cl.con with input := rest } }, out ++ p, response_e.BIN) := by
  obtain ⟨host, enc, ⟨inp, pe, o, conn, good, e, t, r⟩, big⟩ := cl
  simp only at hg hin
  subst hg hin
  have hty : frame_type (0x82 &&& 0x0F) rtype = .ok response_e.BIN := rfl
  have hm : (to_mem true 8 L).length = 8 := by simp [to_mem]
  have hk0 : (to_mem big 4 0).length = 4 := by cases big <;> rfl
  unfold client.retrieve
  unfold client.retrieve_rec
  simp only [List.length_append, List.length_cons, List.length_nil, List.cons_append,
    List.nil_append, List.append_assoc]
  simp only [read_mk _ _ _ _ _ _ _ 2
    (by simp : 2 ≤ (0x82 :: 0x7F :: (to_mem true 8 L ++ (p ++ rest))).length)]
  simp only [List.take_succ_cons, List.take_zero,
    List.length_cons, List.length_nil, ne_eq, not_true_eq_false, if_false,
    List.getD_cons_zero, List.getD_cons_succ, hty, frame_length, List.drop_succ_cons,
    List.drop_zero]
  rw [if_neg (by decide), if_neg (by decide)]
  have h8 : 8 ≤ (to_mem true 8 L ++ (p ++ rest)).length := by
    rw [List.length_append, hm]; omega
  simp only [read_mk _ _ _ _ _ _ _ 8 h8]
  have ht : (to_mem true 8 L ++ (p ++ rest)).take 8 = to_mem true 8 L := by
    have h := List.take_left (to_mem true 8 L) (p ++ rest)
    rwa [hm] at h
  have hd : (to_mem true 8 L ++ (p ++ rest)).drop 8 = p ++ rest := by
    have h := List.drop_left (to_mem true 8 L) (p ++ rest)
    rwa [hm] at h
  simp only [ht, hd, hm, ne_eq, not_true_eq_false, if_false, hton_eight big L hL]
  rw [if_neg (by decide)]
  simp only [hk0, ne_eq, not_true_eq_false, if_false, of_mem_zero_key]
  rw [if_neg (by decide)]
  have hpl : L ≤ (p ++ rest).length := by rw [List.length_append, hp]; omega
  simp only [read_mk _ _ _ _ _ _ _ L hpl]
  rw [if_neg (by decide)]
  subst hp
  simp only [List.take_left, List.drop_left, List.length_take, List.length_append,
    Nat.le_add_right, Nat.min_eq_left, Nat.sub_self, List.replicate_zero, List.append_nil]
  rw [if_neg (by decide)]

theorem retrieve_length_64_witness :
    ({ client_on ([0x82, 0x7F] ++ to_mem true 8 300 ++ List.replicate 300 7 ++ str "next")
        with bigendian := true } : client).retrieve [] response_e.TEXT
      = .ok ({ ({ client_on ([0x82, 0x7F] ++ to_mem true 8 300 ++ List.replicate 300 7
                    ++ str "next") with bigendian := true } : client) with
                con := { (client_on ([0x82, 0x7F] ++ to_mem true 8 300 ++ List.replicate 300 7
                    ++ str "next")).con with input := str "next" } },
             [] ++ List.replicate 300 7, response_e.BIN)
    ∧ (client_on ([0x82, 0x7F] ++ to_mem true 8 300 ++ List.replicate 300 7
          ++ str "next")).retrieve [] response_e.TEXT
      = .ok ({ client_on ([0x82, 0x7F] ++ to_mem true 8 300 ++ List.replicate 300 7
                    ++ str "next") with
                con := { (client_on ([0x82, 0x7F] ++ to_mem true 8 300 ++ List.replicate 300 7
                    ++ str "next")).con with input := str "next" } },
             [] ++ List.replicate 300 7, response_e.BIN) :=
  ⟨retrieve_length_64 _ 300 (List.replicate 300 7) (str "next") [] response_e.TEXT rfl
      (by decide) (List.length_replicate _ _) rfl,
   retrieve_length_64 _ 300 (List.replicate 300 7) (str "next") [] response_e.TEXT rfl
      (by decide) (List.length_replicate _ _) rfl⟩

end websocket
namespace tcp

/-- C38 at its failing inputs: two instances in one process.  Whenever an
`open` of an instance `A` has returned, with whatever outcome, the static
flag of `_connect` is set, and from then on a new instance `B` never gets a
stream buffer: its `open`, when the connection is set up, calls
`_sb->reset(_socket)` through the null pointer.  The same `open` of `B`
with the flag not yet set, no instance opened before, leaves `B` connected
with its own bound stream buffer. -/
theorem second_instance_depends_on_first (A : client) (flag : Bool) (pa : Peer) (oa : Outcome)
    (h : A.open flag pa = .ok oa) :
    oa.sb_init = true
      ∧ (∀ inp, new_client.open oa.sb_init (Peer.accepts inp) = .error Exc.undefined)
      ∧ (∀ inp, ∃ ob, new_client.open false (Peer.accepts inp) = .ok ob
          ∧ ob.cl.connected = true ∧ ob.cl.bound = true) := by
  have hs : oa.sb_init = true := by
    unfold client.open at h
    cases hd : A._disconnect with
    | error e => rw [hd] at h; cases h
    | ok c =>
      rw [hd] at h
      simp only at h
      unfold client._connect at h
      cases pa with
      | unresolved => simp only at h; cases h; rfl
      | refused => simp only at h; cases h; rfl
      | accepts inp =>
        simp only at h
        cases hr : (if flag = false then c._createsb else c)._resetsb with
        | error e => rw [hr] at h; cases h
        | ok c1 => rw [hr] at h; cases h; rfl
  refine ⟨hs, ?_, ?_⟩
  · intro inp
    rw [hs]
    rfl
  · intro inp
    exact ⟨_, rfl, rfl, rfl⟩

theorem second_instance_depends_on_first_witness :
    (⟨true, ⟨some new_streambuf.reset_bind, true, true⟩, none⟩ : Outcome).sb_init = true
      ∧ (∀ inp, new_client.open
            (⟨true, ⟨some new_streambuf.reset_bind, true, true⟩, none⟩ : Outcome).sb_init
            (Peer.accepts inp) = .error Exc.undefined)
      ∧ (∀ inp, ∃ ob, new_client.open false (Peer.accepts inp) = .ok ob
          ∧ ob.cl.connected = true ∧ ob.cl.bound = true) :=
  second_instance_depends_on_first new_client false (Peer.accepts [])
    ⟨true, ⟨some new_streambuf.reset_bind, true, true⟩, none⟩ (by rfl)

end tcp
namespace http

/-- What holds of the value stored under a name in the response object
before the call and of the values of all lines with that name holds of the
value stored under it after the lines were stored. -/
theorem map_find_stored_all (k : Str) (P : Str → Prop) : ∀ (hs : List (Str × Str)) (h : StrMap),
    (∀ p ∈ hs, p.1 = k → P p.2) → (∀ v, map_find h k = some v → P v) →
    ∀ v, map_find (stored h hs) k = some v → P v := by
  intro hs
  induction hs with
  | nil => intro h _ hh v hv; exact hh v hv
  | cons q t ih =>
    intro h hall hh v hv
    have hst : stored h (q :: t) = stored (map_set h q.1 q.2) t := rfl
    rw [hst] at hv
    refine ih (map_set h q.1 q.2) (fun p hp => hall p (by simp [hp])) ?_ v hv
    intro w hw
    by_cases hq : q.1 = k
    · rw [hq, map_find_set_same] at hw
      cases hw
      exact hall q (by simp) hq
    · rw [map_find_set_other _ _ _ _ hq] at hw
      exact hh w hw

end http

end inet
